import Mathlib

/-!
# NFS export manager: configuration mutation and backup/restore protocol

A shallow embedding of `src/server.js` (validators, `createBackup`,
`parseExportsFile` and the HTTP handlers that mutate the configuration file),
followed by theorems about it.

Conventions of the embedding:

* JavaScript values are `JSValue`; a JavaScript string is a Lean `String`, and
  the operations that look at code units (`includes`, `startsWith`, a regular
  expression test) only ever look for ASCII characters, for which code units and
  code points coincide;
* a JavaScript exception is the `throw` case of `Except JSError`;
* the file system, the clock and `JSON.parse` / `JSON.stringify` are explicit
  arguments.
-/

set_option autoImplicit false

namespace NfsWebUi

/-! ## JavaScript values -/

/-- JavaScript values that reach the handlers: the JSON values, and `undefined`
for an absent property or request field.  Numbers are restricted to integers:
`num n` is the Number value nearest to `n`.  An object is the list of its own
properties, as `JSON.parse` builds it; none of them is a function. -/
inductive JSValue where
  | undefined : JSValue
  | null : JSValue
  | bool (b : Bool) : JSValue
  | num (n : Int) : JSValue
  | str (s : String) : JSValue
  | arr (xs : List JSValue) : JSValue
  | obj (kvs : List (String × JSValue)) : JSValue

/-- The exceptions the code can raise. -/
inductive JSError where
  | typeError (msg : String) : JSError
  | syntaxError : JSError
  | ioError (msg : String) : JSError
  deriving DecidableEq

instance Except.jsDecidableEq {α : Type} [DecidableEq α] : DecidableEq (Except JSError α) :=
  fun a b =>
    match a, b with
    | .ok x, .ok y =>
      if h : x = y then isTrue (congrArg Except.ok h) else isFalse (fun h' => h (Except.ok.inj h'))
    | .error x, .error y =>
      if h : x = y then isTrue (congrArg Except.error h)
      else isFalse (fun h' => h (Except.error.inj h'))
    | .ok _, .error _ => isFalse (fun h => Except.noConfusion h)
    | .error _, .ok _ => isFalse (fun h => Except.noConfusion h)

/-- The number of binary digits of a natural number; `fuel` bounds the number of
halvings. -/
def bitLength : Nat → Nat → Nat
  | 0, _ => 0
  | fuel + 1, m => if m = 0 then 0 else bitLength fuel (m / 2) + 1

/-- The power `2 ^ 1024`, the least magnitude that is rounded to `Infinity`. -/
def infinityMagnitude : Nat := 2 ^ 256 * 2 ^ 256 * 2 ^ 256 * 2 ^ 256

/-- The magnitude of the Number value nearest to a natural number: the number
itself below `2 ^ 53`, otherwise rounded to 53 significant bits, to nearest with
ties to even; `infinityMagnitude` stands for `Infinity`. -/
def nearestDouble (m : Nat) : Nat :=
  if m < 2 ^ 53 then m
  else
    let e := bitLength m m - 53
    let q := m / 2 ^ e
    let r := m % 2 ^ e
    min ((if 2 ^ (e - 1) < r ∨ (r = 2 ^ (e - 1) ∧ q % 2 = 1) then q + 1 else q) * 2 ^ e)
      infinityMagnitude

/-- The Number value nearest to an integer. -/
def numberValue (n : Int) : Int :=
  if n < 0 then -(nearestDouble n.natAbs : Int) else (nearestDouble n.natAbs : Int)

namespace JSValue

/-- ToBoolean: the truthiness used by `!x` and `if (x)`. -/
def truthy : JSValue → Bool
  | undefined => false
  | null => false
  | bool b => b
  | num n => n != 0
  | str s => s != ""
  | arr _ => true
  | obj _ => true

/-- The test `typeof v === 'string'`. -/
def isString : JSValue → Bool
  | str _ => true
  | _ => false

/-- The test `Array.isArray(v)`. -/
def isArray : JSValue → Bool
  | arr _ => true
  | _ => false

/-- Lookup of an own property in an object literal's property list. -/
def lookup (k : String) : List (String × JSValue) → JSValue
  | [] => undefined
  | (k', v) :: rest => if k' = k then v else lookup k rest

/-- Property read `v.k` for the property names the program uses (`path`,
`clients`, `ip`, `permission`, `metadata`, `exports`): a `TypeError` on `null`
and `undefined`, `undefined` on primitives and arrays (which have none of those
properties), the stored value on an object. -/
def getProp (v : JSValue) (k : String) : Except JSError JSValue :=
  match v with
  | undefined =>
    .error (.typeError ("Cannot read properties of undefined (reading '" ++ k ++ "')"))
  | null => .error (.typeError ("Cannot read properties of null (reading '" ++ k ++ "')"))
  | obj kvs => .ok (lookup k kvs)
  | _ => .ok undefined

/-- Replacement or insertion of a property in a property list, keeping the
position of an existing key. -/
def assign (k : String) (x : JSValue) : List (String × JSValue) → List (String × JSValue)
  | [] => [(k, x)]
  | (k', v) :: rest => if k' = k then (k, x) :: rest else (k', v) :: assign k x rest

/-- Property write `v.k = x` (sloppy mode): a `TypeError` on `null` and
`undefined`, silently ignored on a primitive, and on an array it creates a named
property that `JSON.stringify` never prints, so the array is unchanged as far as
the program can observe. -/
def setProp (v : JSValue) (k : String) (x : JSValue) : Except JSError JSValue :=
  match v with
  | undefined =>
    .error (.typeError ("Cannot set properties of undefined (setting '" ++ k ++ "')"))
  | null => .error (.typeError ("Cannot set properties of null (setting '" ++ k ++ "')"))
  | obj kvs => .ok (obj (assign k x kvs))
  | other => .ok other

/-- Strict equality `a === b` between a value read from the parsed configuration
and a value of the request: primitives compare by value, arrays and objects by
identity, and two values parsed from different texts are never identical. -/
def strictEq : JSValue → JSValue → Bool
  | undefined, undefined => true
  | null, null => true
  | bool a, bool b => a == b
  | num a, num b => numberValue a == numberValue b
  | str a, str b => a == b
  | _, _ => false

end JSValue

open JSValue

/-- The candidate for the shortest decimal form of the Number value `v` with `k`
significant digits: of the two neighbours of `v` that are multiples of the power
of ten leaving `k` digits, one whose Number value is `v`, the closer one when
both are, the even one when they are equally close. -/
def shortestDecimal (v k : Nat) : Option Nat :=
  let p := 10 ^ ((toString v).length - k)
  let lo := v / p * p
  let hi := lo + p
  match nearestDouble lo == v, nearestDouble hi == v with
  | true, true =>
    if v - lo < hi - v ∨ (v - lo = hi - v ∧ lo / p % 2 = 0) then some lo else some hi
  | true, false => some lo
  | false, true => some hi
  | false, false => none

/-- ToString of a Number with an integer value: all the digits below `1e21`;
from there on the shortest digit string that identifies the value, with a
decimal point after the first digit, followed by `e+` and the exponent. -/
def numberToString (n : Int) : String :=
  let v := nearestDouble n.natAbs
  let sign := if n < 0 then "-" else ""
  if v = infinityMagnitude then sign ++ "Infinity"
  else if v < 10 ^ 21 then sign ++ toString v
  else
    match (List.range 17).findSome? (fun i => (shortestDecimal v (i + 1)).map (fun c => (i, c)))
      with
    | none => sign ++ toString v
    | some (i, c) =>
      sign ++ String.mk ((toString c).data.take 1 ++
        (if i = 0 then [] else '.' :: ((toString c).data.take (i + 1)).drop 1)) ++
        "e+" ++ toString ((toString c).length - 1)

/-- ToString of a JavaScript value, as applied by `RegExp.prototype.test` to its
argument and by a template literal to its substitutions.  An array is the
comma-joined ToString of its elements, with `null` and `undefined` printed as
the empty string.  An object without an own property `toString` is
`[object Object]`; with one, which is no function, the conversion falls back on
`valueOf`, which gives no primitive either, and throws a `TypeError`. -/
def jsToString : JSValue → Except JSError String
  | .undefined => .ok "undefined"
  | .null => .ok "null"
  | .bool b => .ok (if b then "true" else "false")
  | .num n => .ok (numberToString n)
  | .str s => .ok s
  | .arr xs =>
    match elems xs with
    | .error e => .error e
    | .ok pieces => .ok (String.intercalate "," pieces)
  | .obj kvs =>
    if kvs.any (fun kv => kv.1 == "toString") then
      .error (.typeError "Cannot convert object to primitive value")
    else .ok "[object Object]"
where
  /-- The pieces joined by `Array.prototype.join`. -/
  elems : List JSValue → Except JSError (List String)
    | [] => .ok []
    | .undefined :: rest =>
      match elems rest with
      | .error e => .error e
      | .ok pieces => .ok ("" :: pieces)
    | .null :: rest =>
      match elems rest with
      | .error e => .error e
      | .ok pieces => .ok ("" :: pieces)
    | x :: rest =>
      match jsToString x with
      | .error e => .error e
      | .ok piece =>
        match elems rest with
        | .error e => .error e
        | .ok pieces => .ok (piece :: pieces)

/-! ## Strings -/

/-- The test `s.includes(t)` on character lists: `t` occurs as a contiguous
substring of `s`. -/
def includesChars (t : List Char) : List Char → Bool
  | [] => t.isEmpty
  | c :: cs => t.isPrefixOf (c :: cs) || includesChars t cs

/-- The method `String.prototype.includes`. -/
def jsIncludes (s t : String) : Bool := includesChars t.data s.data

/-- The method `String.prototype.startsWith`. -/
def jsStartsWith (s t : String) : Bool := t.data.isPrefixOf s.data

/-- The method `String.prototype.endsWith`. -/
def jsEndsWith (s t : String) : Bool := t.data.isSuffixOf s.data

/-- The character class `[<>:"|?*]` of `validatePath`. -/
def dangerousChars : List Char := ['<', '>', ':', '"', '|', '?', '*']

/-- Function `validatePath` of `server.js`. -/
def validatePath (filePath : JSValue) : Bool :=
  if !filePath.truthy || !filePath.isString then false
  else
    match filePath with
    | .str s =>
      if jsIncludes s ".." || jsIncludes s "//" then false
      else if !jsStartsWith s "/" || s.data.any (fun c => dangerousChars.contains c) then false
      else true
    | _ => false

/-! ## Regular expressions -/

/-- A character class such as `[0-5]`, listed character by character. -/
def charClass (cs : List Char) : RegularExpression Char :=
  cs.foldr (fun c r => RegularExpression.char c + r) 0

/-- The quantifier `?`. -/
def optRe (r : RegularExpression Char) : RegularExpression Char := 1 + r

/-- The quantifier `{n}`. -/
def timesRe (r : RegularExpression Char) : Nat → RegularExpression Char
  | 0 => 1
  | n + 1 => r * timesRe r n

/-- The ten decimal digits, the class `[0-9]`. -/
def decimalDigits : List Char := ['0', '1', '2', '3', '4', '5', '6', '7', '8', '9']

/-- The group `(?:25[0-5]|2[0-4][0-9]|[01]?[0-9][0-9]?)` of both regular
expressions of `validateIP`. -/
def octetRe : RegularExpression Char :=
  (RegularExpression.char '2' * RegularExpression.char '5' * charClass ['0', '1', '2', '3', '4', '5'])
  + (RegularExpression.char '2' * charClass ['0', '1', '2', '3', '4'] * charClass decimalDigits)
  + (optRe (charClass ['0', '1']) * charClass decimalDigits * optRe (charClass decimalDigits))

/-- The group `([0-9]|[1-2][0-9]|3[0-2])` of `cidrRegex`. -/
def prefixRe : RegularExpression Char :=
  charClass decimalDigits
  + (charClass ['1', '2'] * charClass decimalDigits)
  + (RegularExpression.char '3' * charClass ['0', '1', '2'])

/-- The constant `ipRegex` of `validateIP`, anchored at both ends. -/
def ipRegex : RegularExpression Char :=
  timesRe (octetRe * RegularExpression.char '.') 3 * octetRe

/-- The constant `cidrRegex` of `validateIP`, anchored at both ends. -/
def cidrRegex : RegularExpression Char :=
  timesRe (octetRe * RegularExpression.char '.') 3 * octetRe * RegularExpression.char '/' * prefixRe

/-- The method `RegExp.prototype.test` for an anchored expression: the argument
is converted to a string, which may throw, and has to match as a whole. -/
def regexTest (r : RegularExpression Char) (v : JSValue) : Except JSError Bool :=
  match jsToString v with
  | .error e => .error e
  | .ok s => .ok (r.rmatch s.data)

/-- Function `validateIP` of `server.js`: the second test runs when the first
one returns `false`. -/
def validateIP (ip : JSValue) : Except JSError Bool :=
  match regexTest ipRegex ip with
  | .error e => .error e
  | .ok true => .ok true
  | .ok false => regexTest cidrRegex ip

/-! ## Readings of the validator contracts -/

/-- The path segments of a path: the pieces between separators. -/
def pathSegments (s : String) : List (List Char) := List.splitOn '/' s.data

/-- The contract of the path validator as the specification words it: a
non-empty string that starts with the separator, has no `..` segment, no doubled
separator and no forbidden character. -/
def IsValidPathSpec (p : JSValue) : Prop :=
  ∃ s : String, p = .str s ∧ s ≠ "" ∧ ['/'] <+: s.data ∧ ['.', '.'] ∉ pathSegments s ∧
    ¬ ['/', '/'] <:+: s.data ∧ ∀ c ∈ dangerousChars, c ∉ s.data

/-- Value of a decimal digit. -/
def digitValue (c : Char) : Nat := c.toNat - 48

/-- Value of a string of decimal digits. -/
def decimalValue (cs : List Char) : Nat := cs.foldl (fun n c => 10 * n + digitValue c) 0

/-- A non-empty string of decimal digits, leading zeros allowed. -/
def isNumeral (cs : List Char) : Bool :=
  !cs.isEmpty && cs.all (fun c => decimalDigits.contains c)

/-- A decimal numeral in canonical form: no leading zero except for `0` itself. -/
def isCanonicalNumeral (cs : List Char) : Bool :=
  isNumeral cs && (cs.head? != some '0' || cs.length == 1)

/-- A dotted quad with an optional `/prefix`, for a given notion of numeral:
four numerals of value at most 255 separated by dots, optionally followed by a
slash and a numeral of value at most 32. -/
def IsAddress (octet pfx : List Char → Bool) (a : String) : Prop :=
  ∃ o1 o2 o3 o4 : List Char,
    (octet o1 = true ∧ octet o2 = true ∧ octet o3 = true ∧ octet o4 = true) ∧
    (a.data = o1 ++ '.' :: (o2 ++ '.' :: (o3 ++ '.' :: o4)) ∨
      ∃ p : List Char, pfx p = true ∧
        a.data = o1 ++ '.' :: (o2 ++ '.' :: (o3 ++ '.' :: (o4 ++ '/' :: p))))

/-- An octet read by value: any numeral of value 0 to 255. -/
def isOctetByValue (o : List Char) : Bool := isNumeral o && decide (decimalValue o ≤ 255)

/-- A prefix length read by value: any numeral of value 0 to 32. -/
def isPrefixByValue (p : List Char) : Bool := isNumeral p && decide (decimalValue p ≤ 32)

/-- An octet in canonical form with a value 0 to 255. -/
def isOctetCanonical (o : List Char) : Bool :=
  isCanonicalNumeral o && decide (decimalValue o ≤ 255)

/-- A prefix length in canonical form with a value 0 to 32. -/
def isPrefixCanonical (p : List Char) : Bool :=
  isCanonicalNumeral p && decide (decimalValue p ≤ 32)

/-- An octet as `validateIP` accepts it: one to three decimal digits, leading
zeros allowed, of value 0 to 255. -/
def isOctet (o : List Char) : Bool :=
  isNumeral o && decide (o.length ≤ 3) && decide (decimalValue o ≤ 255)

/-! ## Paths -/

/-- One step of the loop of Node's `normalizeString` over the segments of a
path, the stack of kept segments being held most recent first: empty and `.`
segments are skipped, `..` removes the last kept segment, or is kept itself when
the path is relative and there is nothing left to remove. -/
def normalizeStep (allowAboveRoot : Bool) (stack : List (List Char)) (seg : List Char) :
    List (List Char) :=
  if seg = [] ∨ seg = ['.'] then stack
  else if seg = ['.', '.'] then
    match stack with
    | top :: rest =>
      if top = ['.', '.'] then (if allowAboveRoot then seg :: stack else stack) else rest
    | [] => if allowAboveRoot then [seg] else []
  else seg :: stack

/-- Function `path.normalize` of Node (POSIX). -/
def normalizePath (p : List Char) : List Char :=
  let isAbsolute := p.head? == some '/'
  let trailing := p.getLast? == some '/'
  let body := List.intercalate ['/']
    ((List.splitOn '/' p).foldl (normalizeStep (!isAbsolute)) []).reverse
  if p = [] then ['.']
  else if body = [] then (if isAbsolute then ['/'] else if trailing then ['.', '/'] else ['.'])
  else (if isAbsolute then ['/'] else []) ++ body ++ (if trailing then ['/'] else [])

/-- Function `path.join` of Node (POSIX) for two string arguments: the non-empty
arguments are joined with the separator and the result is normalized. -/
def pathJoin (a b : String) : String :=
  if a = "" then (if b = "" then "." else String.mk (normalizePath b.data))
  else if b = "" then String.mk (normalizePath a.data)
  else String.mk (normalizePath (a.data ++ '/' :: b.data))

/-- The part of a path after its last separator. -/
def baseName (p : String) : String :=
  String.mk (p.data.reverse.takeWhile (fun c => c != '/')).reverse

/-- A name a directory entry can have: not empty, not `.` or `..`, and without
separator. -/
def isPlainName (n : String) : Bool :=
  n != "" && n != "." && n != ".." && !n.data.contains '/'

/-! ## Environment and file system -/

/-- The settings `server.js` reads from the environment.  `CONFIG_FILE` is
`path.join(CONFIG_DIR, 'exports.json')`; `MAX_BACKUPS` is
`parseInt(process.env.MAX_BACKUPS) || 10`, an integer other than zero. -/
structure Env where
  CONFIG_DIR : String
  BACKUP_DIR : String
  MAX_BACKUPS : Int

/-- The constant `CONFIG_FILE`. -/
def Env.CONFIG_FILE (env : Env) : String := pathJoin env.CONFIG_DIR "exports.json"

/-- The settings used when the environment sets nothing. -/
def defaultEnv : Env :=
  { CONFIG_DIR := "/etc/nfs-web-ui", BACKUP_DIR := "/var/backups/nfs-web-ui", MAX_BACKUPS := 10 }

/-- The part of the host file system the program touches.  The backup directory
is the list of its entries (an absent directory is one without entries, which
`ensureBackupDir` makes indistinguishable); `denied` marks the paths on which
`writeFile` and `unlink` fail. -/
structure FS where
  config : Option String
  backups : List (String × String)
  other : String → Option String
  nodes : String → Bool
  denied : String → Bool

/-- What a path handed to a file operation denotes. -/
inductive Loc where
  | config : Loc
  | backup (name : String) : Loc
  | other (path : String) : Loc
  deriving DecidableEq

/-- Resolution of a path: the configuration file, an entry of the backup
directory (a plain name joined to `BACKUP_DIR`), or something else. -/
def locate (env : Env) (p : String) : Loc :=
  if p = env.CONFIG_FILE then .config
  else if isPlainName (baseName p) && pathJoin env.BACKUP_DIR (baseName p) == p then
    .backup (baseName p)
  else .other p

/-- Content of the entry `name` of a directory listing. -/
def lookupFile (name : String) : List (String × String) → Option String
  | [] => none
  | (n, c) :: rest => if n = name then some c else lookupFile name rest

/-- Creation or replacement of the entry `name`. -/
def storeFile (name content : String) : List (String × String) → List (String × String)
  | [] => [(name, content)]
  | (n, c) :: rest =>
    if n = name then (n, content) :: rest else (n, c) :: storeFile name content rest

/-- Function `fs.access`: succeeds when something exists at the path. -/
def access (env : Env) (fs : FS) (p : String) : Except JSError Unit :=
  let found :=
    match locate env p with
    | .config => fs.config.isSome
    | .backup n => (lookupFile n fs.backups).isSome
    | .other q => (fs.other q).isSome || fs.nodes q
  if found then .ok () else .error (.ioError "ENOENT")

/-- The call `fs.access(path)` with a value of the request: a string is looked
up, anything else is refused with a `TypeError`. -/
def accessValue (env : Env) (fs : FS) (p : JSValue) : Except JSError Unit :=
  match p with
  | .str s => access env fs s
  | _ => .error (.typeError "The \"path\" argument must be of type string")

/-- Function `fs.readFile(p, 'utf8')`. -/
def readFile (env : Env) (fs : FS) (p : String) : Except JSError String :=
  let content :=
    match locate env p with
    | .config => fs.config
    | .backup n => lookupFile n fs.backups
    | .other q => fs.other q
  match content with
  | some c => .ok c
  | none => .error (.ioError "ENOENT")

/-- Function `fs.writeFile(p, content)`. -/
def writeFile (env : Env) (fs : FS) (p content : String) : Except JSError FS :=
  if fs.denied p then .error (.ioError "EACCES")
  else
    match locate env p with
    | .config => .ok { fs with config := some content }
    | .backup n => .ok { fs with backups := storeFile n content fs.backups }
    | .other q => .ok { fs with other := fun x => if x = q then some content else fs.other x }

/-- Function `fs.unlink(p)`. -/
def unlink (env : Env) (fs : FS) (p : String) : Except JSError FS :=
  if fs.denied p then .error (.ioError "EACCES")
  else
    match locate env p with
    | .config =>
      if fs.config.isSome then .ok { fs with config := none } else .error (.ioError "ENOENT")
    | .backup n =>
      if (lookupFile n fs.backups).isSome then
        .ok { fs with backups := fs.backups.filter (fun e => e.1 != n) }
      else .error (.ioError "ENOENT")
    | .other q =>
      if (fs.other q).isSome then
        .ok { fs with other := fun x => if x = q then none else fs.other x }
      else .error (.ioError "ENOENT")

/-- Function `fs.readdir(BACKUP_DIR)`: the entry names.  The configuration file
is never among them; every caller keeps only names of the form
`exports-*.bak`, which `exports.json` is not. -/
def readdir (fs : FS) : List String := fs.backups.map Prod.fst

/-! ## Sorting of names -/

/-- The UTF-16 code units of a character. -/
def utf16 (c : Char) : List Nat :=
  if c.toNat < 0x10000 then [c.toNat]
  else [0xD800 + (c.toNat - 0x10000) / 0x400, 0xDC00 + (c.toNat - 0x10000) % 0x400]

/-- The UTF-16 code units of a string. -/
def codeUnits (s : String) : List Nat := s.data.flatMap utf16

/-- Lexicographic comparison of code-unit sequences. -/
def unitsLE : List Nat → List Nat → Bool
  | [], _ => true
  | _ :: _, [] => false
  | a :: as, b :: bs => decide (a < b) || (a == b && unitsLE as bs)

/-- The order of `Array.prototype.sort()` without comparator on strings. -/
def nameLE (a b : String) : Prop := unitsLE (codeUnits a) (codeUnits b) = true

instance nameLE.decidableRel : DecidableRel nameLE := fun a b =>
  inferInstanceAs (Decidable (unitsLE (codeUnits a) (codeUnits b) = true))

/-- The method `Array.prototype.sort()` on an array of strings. -/
def jsSort (names : List String) : List String := List.insertionSort nameLE names

/-! ## Backups -/

/-- The file name `exports-${timestamp}.bak` of `createBackup`, where
`timestamp` is `new Date().toISOString().replace(/[:.]/g, '-')`; the argument is
the ISO string. -/
def backupName (iso : String) : String :=
  "exports-" ++ String.mk (iso.data.map (fun c => if c = ':' ∨ c = '.' then '-' else c)) ++ ".bak"

/-- The filter `f.startsWith('exports-') && f.endsWith('.bak')`. -/
def isBackupName (f : String) : Bool := jsStartsWith f "exports-" && jsEndsWith f ".bak"

/-- The loop of `createBackup` that unlinks the files beyond the retention
count; the first failure ends it, the files already unlinked stay unlinked. -/
def unlinkAll (env : Env) : List String → FS → Except JSError Unit × FS
  | [], fs => (.ok (), fs)
  | f :: rest, fs =>
    match unlink env fs (pathJoin env.BACKUP_DIR f) with
    | .error e => (.error e, fs)
    | .ok fs' => unlinkAll env rest fs'

/-- Function `ensureBackupDir` of `server.js`: the backup directory is created
when it is absent.  An absent directory and an empty one are the same listing
here, so the file system is returned as it is. -/
def ensureBackupDir (fs : FS) : FS := fs

/-- Function `createBackup` of `server.js`; `iso` is what `new
Date().toISOString()` returns.  The result is the path of the new backup file,
or the exception that `createBackup` rethrows, together with the file system as
it is left.  A negative `MAX_BACKUPS` makes the loop start at a negative index,
where `backupFiles[i]` is `undefined` and `path.join` throws. -/
def createBackup (env : Env) (iso : String) (fs0 : FS) : Except JSError String × FS :=
  let fs := ensureBackupDir fs0
  let backupFile := pathJoin env.BACKUP_DIR (backupName iso)
  match readFile env fs env.CONFIG_FILE with
  | .error e => (.error e, fs)
  | .ok configContent =>
    match writeFile env fs backupFile configContent with
    | .error e => (.error e, fs)
    | .ok fs1 =>
      let backupFiles := (jsSort ((readdir fs1).filter isBackupName)).reverse
      if (backupFiles.length : Int) > env.MAX_BACKUPS then
        if env.MAX_BACKUPS < 0 then
          (.error (.typeError "The \"path\" argument must be of type string"), fs1)
        else
          match unlinkAll env (backupFiles.drop env.MAX_BACKUPS.toNat) fs1 with
          | (.error e, fs2) => (.error e, fs2)
          | (.ok _, fs2) => (.ok backupFile, fs2)
      else (.ok backupFile, fs1)

/-! ## JSON -/

/-- The functions `JSON.parse` (`none` for a `SyntaxError`) and
`JSON.stringify(v, null, 2)` of the JavaScript runtime. -/
structure Json where
  parse : String → Option JSValue
  stringify : JSValue → String

/-- The object `{ exports: [], metadata: {} }`. -/
def defaultConfig : JSValue := .obj [("exports", .arr []), ("metadata", .obj [])]

/-- The block that reads the current configuration in every mutating handler:
the parsed content of the configuration file, or the default configuration when
the file cannot be read or parsed. -/
def readConfig (env : Env) (J : Json) (fs : FS) : JSValue :=
  match readFile env fs env.CONFIG_FILE with
  | .error _ => defaultConfig
  | .ok content =>
    match J.parse content with
    | some v => v
    | none => defaultConfig

/-- The test `['ro', 'rw'].includes(permission)`. -/
def isPermission (permission : JSValue) : Bool :=
  strictEq (.str "ro") permission || strictEq (.str "rw") permission

/-! ## Loading: `parseExportsFile` -/

/-- The value returned by `parseExportsFile`. -/
structure Loaded where
  exports : List JSValue
  errors : List String

/-- The message of a thrown exception. -/
def JSError.message : JSError → String
  | .typeError msg => msg
  | .syntaxError => "Unexpected token"
  | .ioError msg => msg

/-- The prefix `Export ${index + 1}: ` of the diagnostics. -/
def exportLabel (index : Nat) : String := "Export " ++ toString (index + 1) ++ ": "

/-- Body of the callback of `exportConfig.clients.forEach`: a diagnostic, or the
client to keep; an exception when `client` is `null`, or when `validateIP` or
the template literal of a diagnostic converts to a string an object that cannot
be converted. -/
def parseClient (index : Nat) (client : JSValue) : Except JSError (String ⊕ JSValue) :=
  match getProp client "ip", getProp client "permission" with
  | .error e, _ => .error e
  | _, .error e => .error e
  | .ok ip, .ok permission =>
    if !ip.truthy || !permission.truthy then
      .ok (.inl (exportLabel index ++ "Invalid client configuration"))
    else
      match validateIP ip with
      | .error e => .error e
      | .ok false =>
        match jsToString ip with
        | .error e => .error e
        | .ok s => .ok (.inl (exportLabel index ++ "Invalid IP address: " ++ s))
      | .ok true =>
        if !isPermission permission then
          match jsToString permission with
          | .error e => .error e
          | .ok s => .ok (.inl (exportLabel index ++ "Invalid permission: " ++ s))
        else .ok (.inr (.obj [("ip", ip), ("permission", permission)]))

/-- The loop `exportConfig.clients.forEach`: the diagnostics pushed, and the
valid clients or the exception that ended the loop. -/
def parseClients (index : Nat) : List JSValue → List String × Except JSError (List JSValue)
  | [] => ([], .ok [])
  | client :: rest =>
    match parseClient index client with
    | .error e => ([], .error e)
    | .ok (.inl msg) => (msg :: (parseClients index rest).1, (parseClients index rest).2)
    | .ok (.inr v) =>
      ((parseClients index rest).1,
        match (parseClients index rest).2 with
        | .error e => .error e
        | .ok vs => .ok (v :: vs))

/-- The value of `exportConfig.metadata || {}`. -/
def metadataOrEmpty (m : JSValue) : JSValue := if m.truthy then m else .obj []

/-- Body of the callback of `config.exports.forEach`, with its `try`/`catch`:
the diagnostics pushed and the export pushed, if any. -/
def parseExport (index : Nat) (exportConfig : JSValue) : List String × Option JSValue :=
  match getProp exportConfig "path", getProp exportConfig "clients",
      getProp exportConfig "metadata" with
  | .ok path, .ok clients, .ok metadata =>
    match clients with
    | .arr cs =>
      if !path.truthy then ([exportLabel index ++ "Invalid export configuration"], none)
      else
        match parseClients index cs with
        | (errs, .error e) => (errs ++ [exportLabel index ++ "Parse error - " ++ e.message], none)
        | (errs, .ok []) => (errs ++ [exportLabel index ++ "No valid clients found"], none)
        | (errs, .ok (v :: vs)) =>
          (errs, some (.obj [("path", path), ("clients", .arr (v :: vs)),
            ("metadata", metadataOrEmpty metadata)]))
    | _ => ([exportLabel index ++ "Invalid export configuration"], none)
  | .error e, _, _ => ([exportLabel index ++ "Parse error - " ++ e.message], none)
  | _, .error e, _ => ([exportLabel index ++ "Parse error - " ++ e.message], none)
  | _, _, .error e => ([exportLabel index ++ "Parse error - " ++ e.message], none)

/-- The loop `config.exports.forEach`, from position `index` on. -/
def parseExports (index : Nat) : List JSValue → Loaded
  | [] => { exports := [], errors := [] }
  | e :: rest =>
    { exports := (parseExport index e).2.toList ++ (parseExports (index + 1) rest).exports
      errors := (parseExport index e).1 ++ (parseExports (index + 1) rest).errors }

/-- Function `parseExportsFile` of `server.js`. -/
def parseExportsFile (env : Env) (J : Json) (fs : FS) : Loaded :=
  match readFile env fs env.CONFIG_FILE with
  | .error _ => { exports := [], errors := ["Configuration file not found or invalid"] }
  | .ok content =>
    match J.parse content with
    | none => { exports := [], errors := ["Configuration file not found or invalid"] }
    | some config =>
      match getProp config "exports" with
      | .error _ => { exports := [], errors := ["Configuration file not found or invalid"] }
      | .ok (.arr xs) => parseExports 0 xs
      | .ok _ => { exports := [], errors := ["Configuration file is invalid or empty"] }

/-! ## The mutating handlers -/

/-- An HTTP response: status code and JSON body. -/
structure Response where
  status : Nat
  body : JSValue

/-- The response `res.status(status).json({ error: msg })`. -/
def errorResponse (status : Nat) (msg : String) : Response :=
  { status := status, body := .obj [("error", .str msg)] }

/-- What a request leaves behind: the first response sent, if any (an exception
outside the handler's `try` block rejects the handler's promise and nothing is
sent), and the file system. -/
structure Result where
  response : Option Response
  fs : FS

/-- The outcome of the in-memory part of a handler's `try` block: an early
`return res.status(..)`, or a configuration to write.  `replyFirst` marks the
handler that calls `res.json` before `fs.writeFile`. -/
inductive Decision where
  | reject (r : Response) : Decision
  | save (config : JSValue) (r : Response) (replyFirst : Bool) : Decision

/-- The array `config.exports` as the handlers use it: calling `find`,
`findIndex` or `push` on anything but an array throws. -/
def exportsOf (config : JSValue) : Except JSError (List JSValue) :=
  match getProp config "exports" with
  | .error e => .error e
  | .ok (.arr xs) => .ok xs
  | .ok _ => .error (.typeError "config.exports.findIndex is not a function")

/-- The array `config.exports[exportIndex].clients`. -/
def clientsOf (exp : JSValue) : Except JSError (List JSValue) :=
  match getProp exp "clients" with
  | .error e => .error e
  | .ok (.arr xs) => .ok xs
  | .ok _ => .error (.typeError "clients.findIndex is not a function")

/-- The method `Array.prototype.findIndex` with a callback that may throw;
`none` stands for `-1`. -/
def findIndexM (p : JSValue → Except JSError Bool) : List JSValue → Except JSError (Option Nat)
  | [] => .ok none
  | x :: xs =>
    match p x with
    | .error e => .error e
    | .ok true => .ok (some 0)
    | .ok false =>
      match findIndexM p xs with
      | .error e => .error e
      | .ok r => .ok (r.map (· + 1))

/-- The method `Array.prototype.find` with a callback that may throw. -/
def findM (p : JSValue → Except JSError Bool) : List JSValue → Except JSError JSValue
  | [] => .ok .undefined
  | x :: xs =>
    match p x with
    | .error e => .error e
    | .ok true => .ok x
    | .ok false => findM p xs

/-- The callback `exp => exp.path === path`. -/
def hasPath (path : JSValue) (exp : JSValue) : Except JSError Bool :=
  match getProp exp "path" with
  | .error e => .error e
  | .ok p => .ok (strictEq p path)

/-- The callback `client => client.ip === ip`. -/
def hasIp (ip : JSValue) (client : JSValue) : Except JSError Bool :=
  match getProp client "ip" with
  | .error e => .error e
  | .ok p => .ok (strictEq p ip)

/-- The statement `config.metadata.lastModified = new Date().toISOString()`. -/
def touch (config : JSValue) (iso : String) : Except JSError JSValue :=
  match getProp config "metadata" with
  | .error e => .error e
  | .ok metadata =>
    match setProp metadata "lastModified" (.str iso) with
    | .error e => .error e
    | .ok metadata' => setProp config "metadata" metadata'

/-- The end of a handler's `try` block, with its `catch`: the write of the
configuration file and the response.  `failure` is the message of the
handler's `catch`. -/
def commit (env : Env) (J : Json) (failure : String) (fs : FS)
    (d : Except JSError Decision) : Result :=
  match d with
  | .error _ => { response := some (errorResponse 500 failure), fs := fs }
  | .ok (.reject r) => { response := some r, fs := fs }
  | .ok (.save config r replyFirst) =>
    match writeFile env fs env.CONFIG_FILE (J.stringify config) with
    | .error _ =>
      { response := some (if replyFirst then r else errorResponse 500 failure), fs := fs }
    | .ok fs' => { response := some r, fs := fs' }

/-- The common frame of the `try` blocks: `createBackup`, the read of the
current configuration, the handler's own steps, the write. -/
def withBackup (env : Env) (J : Json) (failure : String) (isoBackup : String) (fs : FS)
    (steps : JSValue → String → Except JSError Decision) : Result :=
  match createBackup env isoBackup fs with
  | (.error _, fs1) => { response := some (errorResponse 500 failure), fs := fs1 }
  | (.ok backupFile, fs1) => commit env J failure fs1 (steps (readConfig env J fs1) backupFile)

/-- The loop `for (const client of clients)` that validates the clients of a
request: `false` at the first client whose ip or permission is refused; an
exception when a client is `null` or when `validateIP` throws. -/
def clientsValid : List JSValue → Except JSError Bool
  | [] => .ok true
  | client :: rest =>
    match getProp client "ip", getProp client "permission" with
    | .error e, _ => .error e
    | _, .error e => .error e
    | .ok ip, .ok permission =>
      match validateIP ip with
      | .error e => .error e
      | .ok valid => if !valid || !isPermission permission then .ok false else clientsValid rest

/-- The results of the successive calls of `new Date().toISOString()` while one
request is handled: the first is made by `createBackup`. -/
structure Clock where
  first : String
  second : String
  third : String

/-- The in-memory steps of `POST /api/exports`. -/
def createSteps (path clients : JSValue) (isoNow : String) (config : JSValue)
    (backupFile : String) : Except JSError Decision :=
  match exportsOf config with
  | .error e => .error e
  | .ok exps =>
    match findM (hasPath path) exps with
    | .error e => .error e
    | .ok existingExport =>
      if existingExport.truthy then .ok (.reject (errorResponse 400 "Export already exists"))
      else
        match setProp config "exports"
          (.arr (exps ++ [.obj [("path", path), ("clients", clients)]])) with
        | .error e => .error e
        | .ok config1 =>
          match touch config1 isoNow with
          | .error e => .error e
          | .ok config2 =>
            .ok (.save config2
              { status := 200
                body := .obj [("message", .str "Export created successfully"),
                  ("export", .obj [("path", path), ("clients", clients)]),
                  ("backup", .str backupFile)] } false)

/-- Handler `app.post('/api/exports')`; `path` and `clients` are the fields of
the request body. -/
def createExport (env : Env) (J : Json) (clock : Clock) (path clients : JSValue) (fs : FS) :
    Result :=
  if !validatePath path then { response := some (errorResponse 400 "Invalid path"), fs := fs }
  else
    match clients with
    | .arr (c :: cs) =>
      match clientsValid (c :: cs) with
      | .error _ => { response := none, fs := fs }
      | .ok false => { response := some (errorResponse 400 "Invalid client configuration"), fs := fs }
      | .ok true =>
        match accessValue env fs path with
        | .error _ => { response := some (errorResponse 500 "Failed to create export"), fs := fs }
        | .ok _ =>
          withBackup env J "Failed to create export" clock.first fs
            (createSteps path clients clock.second)
    | _ => { response := some (errorResponse 400 "At least one client must be specified"), fs := fs }

/-- The in-memory steps of `PUT /api/exports/:path`. -/
def replaceSteps (exportPath : String) (clients : JSValue) (isoNow : String) (config : JSValue)
    (backupFile : String) : Except JSError Decision :=
  match exportsOf config with
  | .error e => .error e
  | .ok exps =>
    match findIndexM (hasPath (.str exportPath)) exps with
    | .error e => .error e
    | .ok none => .ok (.reject (errorResponse 404 "Export not found"))
    | .ok (some i) =>
      match setProp config "exports"
        (.arr (exps.set i (.obj [("path", .str exportPath), ("clients", clients)]))) with
      | .error e => .error e
      | .ok config1 =>
        match touch config1 isoNow with
        | .error e => .error e
        | .ok config2 =>
          .ok (.save config2
            { status := 200
              body := .obj [("message", .str "Export updated successfully"),
                ("export", .obj [("path", .str exportPath), ("clients", clients)]),
                ("backup", .str backupFile)] } false)

/-- Handler `app.put('/api/exports/:path(*)')`; `exportPath` is the route
parameter, `clients` the field of the request body. -/
def replaceClients (env : Env) (J : Json) (clock : Clock) (exportPath : String)
    (clients : JSValue) (fs : FS) : Result :=
  if !validatePath (.str exportPath) then
    { response := some (errorResponse 400 "Invalid path"), fs := fs }
  else
    match clients with
    | .arr (c :: cs) =>
      match clientsValid (c :: cs) with
      | .error _ => { response := none, fs := fs }
      | .ok false => { response := some (errorResponse 400 "Invalid client configuration"), fs := fs }
      | .ok true =>
        withBackup env J "Failed to update export" clock.first fs
          (replaceSteps exportPath clients clock.second)
    | _ => { response := some (errorResponse 400 "At least one client must be specified"), fs := fs }

/-- The in-memory steps of `DELETE /api/exports/clients`.  The response is sent
before the file is written; `lastModified` is set only when clients remain. -/
def removeClientSteps (exportPath ip : JSValue) (isoNow : String) (config : JSValue)
    (backupFile : String) : Except JSError Decision :=
  match exportsOf config with
  | .error e => .error e
  | .ok exps =>
    match findIndexM (hasPath exportPath) exps with
    | .error e => .error e
    | .ok none => .ok (.reject (errorResponse 404 "Export not found"))
    | .ok (some i) =>
      match clientsOf (exps.getD i .undefined) with
      | .error e => .error e
      | .ok cs =>
        match findIndexM (hasIp ip) cs with
        | .error e => .error e
        | .ok none => .ok (.reject (errorResponse 404 "IP address not found for this export"))
        | .ok (some j) =>
          if (cs.eraseIdx j).length = 0 then
            match setProp config "exports" (.arr (exps.eraseIdx i)) with
            | .error e => .error e
            | .ok config1 =>
              .ok (.save config1
                { status := 200
                  body := .obj [("message",
                      .str "IP address removed and export deleted (no clients remaining)"),
                    ("backup", .str backupFile)] } true)
          else
            match setProp (exps.getD i .undefined) "clients" (.arr (cs.eraseIdx j)) with
            | .error e => .error e
            | .ok exp1 =>
              match setProp config "exports" (.arr (exps.set i exp1)) with
              | .error e => .error e
              | .ok config1 =>
                match touch config1 isoNow with
                | .error e => .error e
                | .ok config2 =>
                  .ok (.save config2
                    { status := 200
                      body := .obj [("message", .str "IP address removed successfully"),
                        ("export", exp1), ("backup", .str backupFile)] } true)

/-- Handler `app.delete('/api/exports/clients')`; `exportPath` and `ip` are the
fields `path` and `ip` of the request body. -/
def removeClient (env : Env) (J : Json) (clock : Clock) (exportPath ip : JSValue) (fs : FS) :
    Result :=
  if !validatePath exportPath then { response := some (errorResponse 400 "Invalid path"), fs := fs }
  else if !ip.truthy then
    { response := some (errorResponse 400 "IP address is required"), fs := fs }
  else
    withBackup env J "Failed to remove IP address" clock.first fs
      (removeClientSteps exportPath ip clock.second)

/-- The in-memory steps of `DELETE /api/exports/:path`. -/
def deleteSteps (exportPath : String) (isoNow : String) (config : JSValue)
    (backupFile : String) : Except JSError Decision :=
  match exportsOf config with
  | .error e => .error e
  | .ok exps =>
    match findIndexM (hasPath (.str exportPath)) exps with
    | .error e => .error e
    | .ok none => .ok (.reject (errorResponse 404 "Export not found"))
    | .ok (some i) =>
      match setProp config "exports" (.arr (exps.eraseIdx i)) with
      | .error e => .error e
      | .ok config1 =>
        match touch config1 isoNow with
        | .error e => .error e
        | .ok config2 =>
          .ok (.save config2
            { status := 200
              body := .obj [("message", .str "Export deleted successfully"),
                ("backup", .str backupFile)] } false)

/-- Handler `app.delete('/api/exports/:path(*)')`. -/
def deleteExport (env : Env) (J : Json) (clock : Clock) (exportPath : String) (fs : FS) :
    Result :=
  if !validatePath (.str exportPath) then
    { response := some (errorResponse 400 "Invalid path"), fs := fs }
  else
    withBackup env J "Failed to delete export" clock.first fs (deleteSteps exportPath clock.second)

/-- The in-memory steps of `POST /api/exports/:path/clients`. -/
def addClientSteps (exportPath : String) (ip permission : JSValue) (isoNow : String)
    (config : JSValue) (backupFile : String) : Except JSError Decision :=
  match exportsOf config with
  | .error e => .error e
  | .ok exps =>
    match findIndexM (hasPath (.str exportPath)) exps with
    | .error e => .error e
    | .ok none => .ok (.reject (errorResponse 404 "Export not found"))
    | .ok (some i) =>
      match clientsOf (exps.getD i .undefined) with
      | .error e => .error e
      | .ok cs =>
        match findM (hasIp ip) cs with
        | .error e => .error e
        | .ok existingClient =>
          if existingClient.truthy then
            .ok (.reject (errorResponse 400 "IP address already exists for this export"))
          else
            match setProp (exps.getD i .undefined) "clients"
              (.arr (cs ++ [.obj [("ip", ip), ("permission", permission)]])) with
            | .error e => .error e
            | .ok exp1 =>
              match setProp config "exports" (.arr (exps.set i exp1)) with
              | .error e => .error e
              | .ok config1 =>
                match touch config1 isoNow with
                | .error e => .error e
                | .ok config2 =>
                  .ok (.save config2
                    { status := 200
                      body := .obj [("message", .str "IP address added successfully"),
                        ("export", exp1), ("backup", .str backupFile)] } false)

/-- Handler `app.post('/api/exports/:path(*)/clients')`; `exportPath` is the
route parameter, `ip` and `permission` the fields of the request body. -/
def addClient (env : Env) (J : Json) (clock : Clock) (exportPath : String)
    (ip permission : JSValue) (fs : FS) : Result :=
  if !validatePath (.str exportPath) then
    { response := some (errorResponse 400 "Invalid path"), fs := fs }
  else if !ip.truthy || !permission.truthy then
    { response := some (errorResponse 400 "IP and permission are required"), fs := fs }
  else
    match validateIP ip with
    | .error _ => { response := none, fs := fs }
    | .ok false => { response := some (errorResponse 400 "Invalid IP address"), fs := fs }
    | .ok true =>
      if !isPermission permission then
        { response := some (errorResponse 400 "Invalid permission. Use \"ro\" or \"rw\""),
          fs := fs }
      else
        withBackup env J "Failed to add IP address" clock.first fs
          (addClientSteps exportPath ip permission clock.second)

/-! ## Restore and backup deletion -/

/-- The object `basicConfig` written when a backup is not JSON. -/
def basicConfig (isoCreated isoModified : String) : JSValue :=
  .obj [("exports", .arr []),
    ("metadata", .obj [("created", .str isoCreated), ("version", .str "1.0"),
      ("description", .str "NFS Exports restored from backup"),
      ("lastModified", .str isoModified)])]

/-- The response of a successful restore. -/
def restoredResponse (filename currentBackup : String) : Response :=
  { status := 200
    body := .obj [("message", .str "Backup restored successfully"),
      ("restored", .str filename), ("currentBackup", .str currentBackup)] }

/-- The inner `try`/`catch` of the restore handler: the parsed backup is written
back; when parsing or that write throws, `basicConfig` is written instead, and
an exception of this second write reaches the outer `catch`. -/
def restoreWrite (env : Env) (J : Json) (clock : Clock) (backupContent : String) (fs : FS) :
    Except JSError FS :=
  let fallback := writeFile env fs env.CONFIG_FILE
    (J.stringify (basicConfig clock.second clock.third))
  match J.parse backupContent with
  | none => fallback
  | some backupConfig =>
    match writeFile env fs env.CONFIG_FILE (J.stringify backupConfig) with
    | .ok fs' => .ok fs'
    | .error _ => fallback

/-- Handler `app.post('/api/backups/restore/:filename')`. -/
def restoreBackup (env : Env) (J : Json) (clock : Clock) (filename : String) (fs : FS) :
    Result :=
  if filename = "" || !jsEndsWith filename ".bak" then
    { response := some (errorResponse 400 "Invalid backup filename"), fs := fs }
  else
    let backupPath := pathJoin env.BACKUP_DIR filename
    match access env fs backupPath with
    | .error _ => { response := some (errorResponse 500 "Failed to restore backup"), fs := fs }
    | .ok _ =>
      match createBackup env clock.first fs with
      | (.error _, fs1) =>
        { response := some (errorResponse 500 "Failed to restore backup"), fs := fs1 }
      | (.ok currentBackup, fs1) =>
        match readFile env fs1 backupPath with
        | .error _ =>
          { response := some (errorResponse 500 "Failed to restore backup"), fs := fs1 }
        | .ok backupContent =>
          match restoreWrite env J clock backupContent fs1 with
          | .error _ =>
            { response := some (errorResponse 500 "Failed to restore backup"), fs := fs1 }
          | .ok fs2 => { response := some (restoredResponse filename currentBackup), fs := fs2 }

/-- Handler `app.delete('/api/backups/:filename')`. -/
def deleteBackup (env : Env) (filename : String) (fs : FS) : Result :=
  if filename = "" || !jsEndsWith filename ".bak" then
    { response := some (errorResponse 400 "Invalid backup filename"), fs := fs }
  else
    match unlink env fs (pathJoin env.BACKUP_DIR filename) with
    | .error _ => { response := some (errorResponse 500 "Failed to delete backup"), fs := fs }
    | .ok fs' =>
      { response := some ⟨200, .obj [("message", .str "Backup deleted successfully")]⟩
        fs := fs' }

/-- Handler `app.get('/api/exports')`: the exports and the warnings of
`parseExportsFile` on the current configuration file. -/
def getExports (env : Env) (J : Json) (fs : FS) : Loaded := parseExportsFile env J fs

/-- The mutating calls of the API. -/
inductive Request where
  | create (path clients : JSValue) : Request
  | replaceClients (exportPath : String) (clients : JSValue) : Request
  | deleteExport (exportPath : String) : Request
  | addClient (exportPath : String) (ip permission : JSValue) : Request
  | removeClient (exportPath ip : JSValue) : Request
  | restore (filename : String) : Request

/-- Dispatch of a mutating call to its handler. -/
def handle (env : Env) (J : Json) (clock : Clock) (req : Request) (fs : FS) : Result :=
  match req with
  | .create path clients => createExport env J clock path clients fs
  | .replaceClients exportPath clients => replaceClients env J clock exportPath clients fs
  | .deleteExport exportPath => deleteExport env J clock exportPath fs
  | .addClient exportPath ip permission => addClient env J clock exportPath ip permission fs
  | .removeClient exportPath ip => removeClient env J clock exportPath ip fs
  | .restore filename => restoreBackup env J clock filename fs

/-! ## Notions used to state the theorems -/

/-- Total reading of a property: `undefined` where `getProp` throws. -/
def JSValue.field (v : JSValue) (k : String) : JSValue :=
  match v with
  | .obj kvs => JSValue.lookup k kvs
  | _ => .undefined

/-- The values `null` and `undefined`, on which a property read throws. -/
def JSValue.isNullish : JSValue → Bool
  | .undefined => true
  | .null => true
  | _ => false

/-- The record `{ ip, permission }` that loading keeps of a client. -/
def clientRecord (c : JSValue) : JSValue :=
  .obj [("ip", c.field "ip"), ("permission", c.field "permission")]

/-- The values that ToString converts without throwing. -/
def JSValue.converts (v : JSValue) : Bool :=
  match jsToString v with
  | .ok _ => true
  | .error _ => false

/-- A request body `{ path, clients }` that validation refuses: the path is not
valid, or the clients are an array of entries other than `null`, each with an ip
that can be converted to a string, one of which has an ip for which `validateIP`
returns `false` or a permission other than `ro` and `rw`. -/
def InvalidExportInput (path clients : JSValue) : Prop :=
  validatePath path = false ∨
    ∃ cs, clients = .arr cs ∧
      (∀ c ∈ cs, c.isNullish = false ∧ (c.field "ip").converts = true) ∧
      ∃ c ∈ cs, validateIP (c.field "ip") = .ok false ∨
        isPermission (c.field "permission") = false

/-- The calls of create, replace-clients and add-client with a path, an ip or a
permission that validation refuses, the ip being a value that can be converted
to a string. -/
def Request.Invalid : Request → Prop
  | .create path clients => InvalidExportInput path clients
  | .replaceClients exportPath clients => InvalidExportInput (.str exportPath) clients
  | .addClient exportPath ip permission =>
    validatePath (.str exportPath) = false ∨ validateIP ip = .ok false ∨
      (ip.converts = true ∧ isPermission permission = false)
  | _ => False

/-- The configuration `create` saves: the new export appended to `exports`, and
`metadata.lastModified` set. -/
def withNewExport (kvs md : List (String × JSValue)) (exps : List JSValue)
    (path clients : JSValue) (isoNow : String) : JSValue :=
  .obj (JSValue.assign "metadata" (.obj (JSValue.assign "lastModified" (.str isoNow) md))
    (JSValue.assign "exports"
      (.arr (exps ++ [.obj [("path", path), ("clients", clients)]])) kvs))

/-- A configuration with its `exports` array replaced. -/
def withExports (kvs : List (String × JSValue)) (exps : List JSValue) : JSValue :=
  .obj (JSValue.assign "exports" (.arr exps) kvs)

/-- The exports of a list other than those of a given path. -/
def exportsOtherThan (path : JSValue) (exps : List JSValue) : List JSValue :=
  exps.filter (fun x => !strictEq (x.field "path") path)

/-- A string of decimal digits. -/
def digitString (x : List Char) : Prop := ∀ c ∈ x, c ∈ decimalDigits

/-- What `path.join(d, n)` puts in front of a plain name `n`. -/
def joinPrefix (d : String) : List Char :=
  let stack := (List.splitOn '/' d.data).foldl (normalizeStep (!(d.data.head? == some '/'))) []
  if d = "" then []
  else (if d.data.head? == some '/' then ['/'] else []) ++
    (if stack = [] then [] else List.intercalate ['/'] stack.reverse ++ ['/'])

/-- A directory listing as a file system produces it: the entries have distinct
names, and each name is a plain name. -/
def FS.WellFormed (fs : FS) : Prop :=
  (readdir fs).Nodup ∧ ∀ n ∈ readdir fs, isPlainName n = true

/-- No path is protected against writing or unlinking. -/
def FS.Writable (fs : FS) : Prop := ∀ p, fs.denied p = false

/-- The names of the snapshot files of a directory listing, newest first: what
`createBackup` computes as `backupFiles`. -/
def snapshotsNewestFirst (names : List String) : List String :=
  (jsSort (names.filter isBackupName)).reverse

/-- Strict version of the order of names. -/
def nameLT (a b : String) : Prop := nameLE a b ∧ ¬ nameLE b a

instance nameLT.decidableRel : DecidableRel nameLT := fun a b =>
  inferInstanceAs (Decidable (nameLE a b ∧ ¬ nameLE b a))

/-- The entries of the backup directory after a successful `createBackup`: the
new snapshot is stored, then the snapshots beyond the retention count, newest
first, are removed. -/
def afterBackup (env : Env) (iso content : String) (backups : List (String × String)) :
    List (String × String) :=
  (storeFile (backupName iso) content backups).filter (fun e =>
    !((snapshotsNewestFirst ((storeFile (backupName iso) content backups).map Prod.fst)).drop
      env.MAX_BACKUPS.toNat).contains e.1)

/-- The snapshot files of the backup directory: the entries that the filter of
`createBackup` and of the listing keeps. -/
def keptSnapshots (fs : FS) : List String := (readdir fs).filter isBackupName

/-- Successive snapshots: before each one the configuration file may have been
rewritten; `none` as soon as a `createBackup` throws. -/
def snapshotRun (env : Env) : List (String × String) → FS → Option FS
  | [], fs => some fs
  | (iso, content) :: rest, fs =>
    match createBackup env iso { fs with config := some content } with
    | (.ok _, fs') => snapshotRun env rest fs'
    | (.error _, _) => none

/-- The state of a backup directory that started empty, after snapshots with the
names `seen` and retention count `R`: it holds `min R (number seen)` snapshots,
all among `seen`, and no dropped name is above a kept one. -/
def RetentionInv (R : Nat) (seen : List String) (fs : FS) : Prop :=
  fs.WellFormed ∧ (∀ n ∈ readdir fs, isBackupName n = true ∧ n ∈ seen) ∧
    (readdir fs).length = min R seen.length ∧
    ∀ k ∈ readdir fs, ∀ d ∈ seen, d ∉ readdir fs → nameLE d k

/-! ### Loading, as the specification words it -/

/-- A client entry that loading keeps: `validateIP` returns `true` for its ip, and
its permission is `ro` or `rw`. -/
def validClient (c : JSValue) : Bool :=
  (match validateIP (c.field "ip") with
    | .ok valid => valid
    | .error _ => false) && isPermission (c.field "permission")

/-- A client entry that loading can read without an exception: it is not `null`,
and its ip and its permission can be converted to a string. -/
def readableClient (c : JSValue) : Bool :=
  !c.isNullish && (c.field "ip").converts && (c.field "permission").converts

/-- The entries of the `clients` array of an export record; none when the record
has no such array. -/
def clientEntries (e : JSValue) : List JSValue :=
  match e.field "clients" with
  | .arr cs => cs
  | _ => []

/-- A record with a path and a clients array. -/
def hasPathAndClients (e : JSValue) : Bool :=
  (e.field "path").truthy && (e.field "clients").isArray

/-- What loading returns for one export record, in the words of the
specification: a record with a path, a clients array and at least one valid
client is returned with its valid clients, in order; any other record is
dropped. -/
def loadedExport (e : JSValue) : Option JSValue :=
  if hasPathAndClients e && (clientEntries e).any validClient then
    some (.obj [("path", e.field "path"),
      ("clients", .arr (((clientEntries e).filter validClient).map clientRecord)),
      ("metadata", metadataOrEmpty (e.field "metadata"))])
  else none

/-- The number of diagnostics the specification asks for one export record: one
for a record without path or clients array; otherwise one for each client that is
not valid, and one more when no valid client is left. -/
def diagnosticCount (e : JSValue) : Nat :=
  if hasPathAndClients e then
    ((clientEntries e).filter (fun c => !validClient c)).length +
      (if (clientEntries e).any validClient then 0 else 1)
  else 1

/-! ### The checks that precede the snapshot -/

/-- A client list that the validation loop of create and replace-clients
accepts: a non-empty array of records, each with an ip accepted by `validateIP`
and a permission `ro` or `rw`. -/
def AcceptedClients (clients : JSValue) : Prop :=
  ∃ cs, clients = .arr cs ∧ cs ≠ [] ∧
    ∀ c ∈ cs, c.isNullish = false ∧ validateIP (c.field "ip") = .ok true ∧
      isPermission (c.field "permission") = true

/-- The calls that pass every check their handler makes before it calls
`createBackup`: the tests of the request fields, and for create and restore the
`fs.access` of the host path and of the chosen snapshot. -/
def Request.Accepted (env : Env) (fs : FS) : Request → Prop
  | .create path clients =>
    validatePath path = true ∧ AcceptedClients clients ∧
      accessValue env fs path = .ok ()
  | .replaceClients exportPath clients =>
    validatePath (.str exportPath) = true ∧ AcceptedClients clients
  | .deleteExport exportPath => validatePath (.str exportPath) = true
  | .addClient exportPath ip permission =>
    validatePath (.str exportPath) = true ∧ validateIP ip = .ok true ∧
      isPermission permission = true
  | .removeClient exportPath ip => validatePath exportPath = true ∧ ip.truthy = true
  | .restore filename =>
    filename ≠ "" ∧ jsEndsWith filename ".bak" = true ∧
      access env fs (pathJoin env.BACKUP_DIR filename) = .ok ()

/-- The message each handler sends with status 500 from its `catch` block. -/
def Request.failure : Request → String
  | .create _ _ => "Failed to create export"
  | .replaceClients _ _ => "Failed to update export"
  | .deleteExport _ => "Failed to delete export"
  | .addClient _ _ _ => "Failed to add IP address"
  | .removeClient _ _ => "Failed to remove IP address"
  | .restore _ => "Failed to restore backup"

/-- The in-memory steps of the handler of a call; restore has none. -/
def Request.steps (clock : Clock) : Request → JSValue → String → Except JSError Decision
  | .create path clients => createSteps path clients clock.second
  | .replaceClients exportPath clients => replaceSteps exportPath clients clock.second
  | .deleteExport exportPath => deleteSteps exportPath clock.second
  | .addClient exportPath ip permission => addClientSteps exportPath ip permission clock.second
  | .removeClient exportPath ip => removeClientSteps exportPath ip clock.second
  | .restore _ => fun _ _ => .error .syntaxError

/-- The calls that fail a check their handler makes on the request fields, no
check throwing: create, replace-clients and add-client test the path with
`validatePath` and every ip and permission with `validateIP` and the list `ro`,
`rw`; delete-export tests its path; remove-client tests its path and only the
presence of its ip.  A check throws on a client entry `null` and on an ip that
cannot be converted to a string. -/
def Request.FailsChecks : Request → Prop
  | .create path clients => InvalidExportInput path clients
  | .replaceClients exportPath clients => InvalidExportInput (.str exportPath) clients
  | .deleteExport exportPath => validatePath (.str exportPath) = false
  | .addClient exportPath ip permission =>
    validatePath (.str exportPath) = false ∨ validateIP ip = .ok false ∨
      (ip.converts = true ∧ isPermission permission = false)
  | .removeClient exportPath ip => validatePath exportPath = false ∨ ip.truthy = false
  | .restore _ => False

/-- The responses that report a lookup error: status 404 for an unknown export
or an unknown client ip, and the two conflicts, a duplicate path on create and a
duplicate ip on add-client, which are sent with status 400. -/
def Response.IsLookupError (r : Response) : Prop :=
  r.status = 404 ∨ (r.status = 400 ∧
    (r.body = .obj [("error", .str "Export already exists")] ∨
      r.body = .obj [("error", .str "IP address already exists for this export")]))

/-- The configuration add-client saves, for a stored document with the
properties `kvs`, the metadata `md` and the exports `pre ++ .obj ekvs :: post`,
where the export `.obj ekvs` has the clients `cs`: the client
`{ ip, permission }` is appended to `cs`, and `metadata.lastModified` is
set; the values are replaced in place, every other property, export and client
staying as it is. -/
def withAddedClient (kvs md : List (String × JSValue)) (pre post : List JSValue)
    (ekvs : List (String × JSValue)) (cs : List JSValue) (ip permission : JSValue)
    (isoNow : String) : JSValue :=
  .obj (JSValue.assign "metadata" (.obj (JSValue.assign "lastModified" (.str isoNow) md))
    (JSValue.assign "exports"
      (.arr (pre ++ .obj (JSValue.assign "clients"
        (.arr (cs ++ [.obj [("ip", ip), ("permission", permission)]])) ekvs) :: post)) kvs))

/-- The configuration replace-clients saves, for a stored document with the
properties `kvs`, the metadata `md` and the exports `pre ++ e :: post`, where `e`
is the export found: the record `e` is replaced, at its position, by the record
`{ path, clients }`, and `metadata.lastModified` is set. -/
def withReplacedExport (kvs md : List (String × JSValue)) (pre post : List JSValue)
    (exportPath : String) (clients : JSValue) (isoNow : String) : JSValue :=
  .obj (JSValue.assign "metadata" (.obj (JSValue.assign "lastModified" (.str isoNow) md))
    (JSValue.assign "exports"
      (.arr (pre ++ .obj [("path", .str exportPath), ("clients", clients)] :: post)) kvs))

/-- No two exports of a list share a path. -/
def UniquePaths (exps : List JSValue) : Prop := (exps.map (fun x => x.field "path")).Nodup

/-- The path of a call is a string; `validatePath` accepts nothing else. -/
def Request.pathIsString : Request → Prop
  | .create path _ => ∃ s, path = .str s
  | .removeClient exportPath _ => ∃ s, exportPath = .str s
  | _ => True

/-! ### Time stamps

The calendar arithmetic of `Date.prototype.toISOString`.  The method belongs to
the JavaScript runtime; its code is not in the repository. -/

/-- Modelled from the spec: part of `toISOString`. The year within a 400-year
era of the Gregorian calendar, for a day of the era; years and eras start on 1
March, so that a leap day is the last day of its year. The era is cut into
centuries of 36524 days (the last one has a day more), a century into four-year
groups of 1461 days, a group into years of 365 days (the last one has a day
more). -/
def yearOfEra (doe : Nat) : Nat :=
  let century := min (doe / 36524) 3
  let group := (doe - century * 36524) / 1461
  let year := min ((doe - century * 36524) % 1461 / 365) 3
  100 * century + 4 * group + year

/-- Modelled from the spec: part of `toISOString`. The day within its year,
counted from 1 March, of a day of the era. -/
def dayOfYear (doe : Nat) : Nat :=
  let century := min (doe / 36524) 3
  let rest := (doe - century * 36524) % 1461
  rest - min (rest / 365) 3 * 365

/-- Modelled from the spec: part of `toISOString`. The month, counted from
March, of a day of the year counted from 1 March: the months March to January
have 31, 30, 31, 30, 31, 31, 30, 31, 30, 31, 31 days. -/
def monthIndex (doy : Nat) : Nat := (5 * doy + 2) / 153

/-- Modelled from the spec: part of `toISOString`. The calendar month, 1 to 12,
of a day of the year counted from 1 March. -/
def civilMonth (doy : Nat) : Nat :=
  if monthIndex doy < 10 then monthIndex doy + 3 else monthIndex doy - 9

/-- Modelled from the spec: part of `toISOString`.  The day of the month, from 1. -/
def civilDay (doy : Nat) : Nat := doy - (153 * monthIndex doy + 2) / 5 + 1

/-- Modelled from the spec: part of `toISOString`. The calendar year of the day
`z`, days being counted from 1 March of the year -400. -/
def civilYear (z : Nat) : Nat :=
  yearOfEra (z % 146097) + z / 146097 * 400 +
    (if civilMonth (dayOfYear (z % 146097)) ≤ 2 then 1 else 0) - 400

/-- Modelled from the spec: part of `toISOString`.  The character of a decimal
digit. -/
def digitChar (d : Nat) : Char := decimalDigits.getD d '0'

/-- Modelled from the spec: part of `toISOString`.  A number below 100 written
with two digits. -/
def pad2 (n : Nat) : List Char := [digitChar (n / 10 % 10), digitChar (n % 10)]

/-- Modelled from the spec: part of `toISOString`.  A number below 1000 written
with three digits. -/
def pad3 (n : Nat) : List Char :=
  [digitChar (n / 100 % 10), digitChar (n / 10 % 10), digitChar (n % 10)]

/-- Modelled from the spec: part of `toISOString`.  A number below 10000 written
with four digits. -/
def pad4 (n : Nat) : List Char :=
  [digitChar (n / 1000 % 10), digitChar (n / 100 % 10), digitChar (n / 10 % 10),
    digitChar (n % 10)]

/-- Modelled from the spec: the method `Date.prototype.toISOString` of the
JavaScript runtime, which `createBackup` calls and which is not part of the
repository.  The argument is the time value of the date, in milliseconds since
1970-01-01T00:00:00Z; for the years 0000 to 9999, that is for time values
from -62167219200000 to 253402300799999, the result is the ISO-8601 form
`YYYY-MM-DDTHH:mm:ss.sssZ` of the instant in the Gregorian calendar, UTC. -/
def toISOString (t : Int) : String :=
  let n := (t + 62167219200000).toNat
  let z := n / 86400000 + 146037
  let doy := dayOfYear (z % 146097)
  let msd := n % 86400000
  String.mk (pad4 (civilYear z) ++ '-' :: (pad2 (civilMonth doy) ++ '-' ::
    (pad2 (civilDay doy) ++ 'T' :: (pad2 (msd / 3600000) ++ ':' ::
      (pad2 (msd % 3600000 / 60000) ++ ':' :: (pad2 (msd % 60000 / 1000) ++ '.' ::
        (pad3 (msd % 1000) ++ ['Z'])))))))

/-- Strict lexicographic order of code-unit sequences. -/
def unitsLT (a b : List Nat) : Prop := unitsLE a b = true ∧ unitsLE b a = false

/-- The code units of a number below 100 written with two digits. -/
def pad2u (n : Nat) : List Nat := [48 + n / 10 % 10, 48 + n % 10]

/-- The code units of a number below 1000 written with three digits. -/
def pad3u (n : Nat) : List Nat := [48 + n / 100 % 10, 48 + n / 10 % 10, 48 + n % 10]

/-- The code units of a number below 10000 written with four digits. -/
def pad4u (n : Nat) : List Nat :=
  [48 + n / 1000 % 10, 48 + n / 100 % 10, 48 + n / 10 % 10, 48 + n % 10]

/-- The code units of the date part `YYYY-MM-DDT` of a time stamp, for the
number of the day counted from 0000-03-01 of the year -400. -/
def dateUnits (z : Nat) : List Nat :=
  pad4u (civilYear z) ++ 45 :: (pad2u (civilMonth (dayOfYear (z % 146097))) ++ 45 ::
    (pad2u (civilDay (dayOfYear (z % 146097))) ++ [84]))

/-- The code units of the time part `HH-mm-ss-sssZ` of a snapshot name, for the
millisecond of the day. -/
def timeUnits (msd : Nat) : List Nat :=
  pad2u (msd / 3600000) ++ 45 :: (pad2u (msd % 3600000 / 60000) ++ 45 ::
    (pad2u (msd % 60000 / 1000) ++ 45 :: (pad3u (msd % 1000) ++ [90])))

/-! ## Examples -/

/-- A `JSON.parse` / `JSON.stringify` pair that knows two documents `a` and `b`
with their texts: `parse` reads the two texts, `stringify` prints `a` as its text
and anything else as the text of `b`.  Enough to run the handlers on small
examples. -/
def exampleJson (a b : JSValue) (sa sb : String) (isA : JSValue → Bool) : Json :=
  { parse := fun s => if s = sa then some a else if s = sb then some b else none
    stringify := fun v => if isA v then sa else sb }

/-- The exports of the example document: `/srv/nfs` for `10.0.0.1`. -/
def exampleExports : List JSValue :=
  [.obj [("path", .str "/srv/nfs"),
    ("clients", .arr [.obj [("ip", .str "10.0.0.1"), ("permission", .str "rw")]])]]

/-- The properties of the example document. -/
def exampleKvs : List (String × JSValue) :=
  [("exports", .arr exampleExports), ("metadata", .obj [])]

/-- The text of the example document. -/
def exampleText : String :=
  "\x7b\"exports\":[\x7b\"path\":\"/srv/nfs\",\"clients\":[\x7b\"ip\":\"10.0.0.1\",\"permission\":\"rw\"\x7d]\x7d],\"metadata\":\x7b\x7d\x7d"

/-- The text of a document without exports. -/
def emptyExportsText : String := "\x7b\"exports\":[],\"metadata\":\x7b\x7d\x7d"

/-- A text standing for the document the example create request saves. -/
def createdText : String := "\x7b\"exports\":[\"...\"]\x7d"

/-- Recognizer of the example document among the documents of the examples: the
only one whose first export keeps a client. -/
def isExampleDoc (v : JSValue) : Bool :=
  match v with
  | .obj [("exports", .arr [.obj [_, ("clients", .arr [_])]]), ("metadata", .obj [])] => true
  | _ => false

/-- The two documents of the examples with their texts. -/
def twoDocJson : Json :=
  exampleJson (.obj exampleKvs) (withExports exampleKvs []) exampleText emptyExportsText
    isExampleDoc

/-- An example file system: the example document as configuration, no backup
yet, the directories `/srv/nfs` and `/srv/data` present on the host. -/
def exampleFS : FS :=
  { config := some exampleText
    backups := []
    other := fun _ => none
    nodes := fun p => p == "/srv/data" || p == "/srv/nfs"
    denied := fun _ => false }

/-- The example file system with one earlier snapshot, taken when the document
had no export. -/
def exampleFSWithBackup : FS :=
  { exampleFS with backups := [("exports-2024-04-30T09-00-00-000Z.bak", emptyExportsText)] }

/-- Ten snapshots, the backup directory at its default retention count. -/
def tenBackups : List (String × String) :=
  [("exports-2024-04-21T09-00-00-000Z.bak", emptyExportsText),
   ("exports-2024-04-22T09-00-00-000Z.bak", exampleText),
   ("exports-2024-04-23T09-00-00-000Z.bak", exampleText),
   ("exports-2024-04-24T09-00-00-000Z.bak", exampleText),
   ("exports-2024-04-25T09-00-00-000Z.bak", exampleText),
   ("exports-2024-04-26T09-00-00-000Z.bak", exampleText),
   ("exports-2024-04-27T09-00-00-000Z.bak", exampleText),
   ("exports-2024-04-28T09-00-00-000Z.bak", exampleText),
   ("exports-2024-04-29T09-00-00-000Z.bak", exampleText),
   ("exports-2024-04-30T09-00-00-000Z.bak", exampleText)]

/-- The example file system with a full backup directory. -/
def fullFS : FS := { exampleFS with backups := tenBackups }

/-- An example clock. -/
def exampleClock : Clock :=
  { first := "2024-05-01T10:00:00.000Z"
    second := "2024-05-01T10:00:00.005Z"
    third := "2024-05-01T10:00:00.006Z" }

/-- A later example clock. -/
def laterClock : Clock :=
  { first := "2024-05-01T10:05:00.000Z"
    second := "2024-05-01T10:05:00.004Z"
    third := "2024-05-01T10:05:00.005Z" }

/-- The clients of the example create request. -/
def exampleClients : List JSValue :=
  [.obj [("ip", .str "192.168.1.0/24"), ("permission", .str "ro")]]

/-- A document with one well-formed export and one export without `clients`. -/
def mixedExports : List JSValue :=
  [.obj [("path", .str "/srv/nfs"),
    ("clients", .arr [.obj [("ip", .str "10.0.0.1"), ("permission", .str "rw")]])],
   .obj [("path", .str "/srv/data")]]

/-- The text of the document `mixedExports`. -/
def mixedText : String :=
  "\x7b\"exports\":[\x7b\"path\":\"/srv/nfs\",\"clients\":[\x7b\"ip\":\"10.0.0.1\",\"permission\":\"rw\"\x7d]\x7d,\x7b\"path\":\"/srv/data\"\x7d]\x7d"

/-- An export whose clients array holds a valid client and a `null` entry. -/
def nullClientExport : JSValue :=
  .obj [("path", .str "/srv/nfs"),
    ("clients", .arr [.obj [("ip", .str "10.0.0.1"), ("permission", .str "rw")], .null])]

/-- The text of the document whose only export is `nullClientExport`. -/
def nullClientText : String :=
  "\x7b\"exports\":[\x7b\"path\":\"/srv/nfs\",\"clients\":[\x7b\"ip\":\"10.0.0.1\",\"permission\":\"rw\"\x7d,null]\x7d]\x7d"

/-- A `JSON.parse` that reads the two texts `mixedText` and `nullClientText`. -/
def loadJson : Json :=
  exampleJson (.obj [("exports", .arr mixedExports)]) (.obj [("exports", .arr [nullClientExport])])
    mixedText nullClientText (fun _ => true)

/-- A document whose only export has the path `relative/path`, refused by
`validatePath`, and a valid client. -/
def relativePathExports : List JSValue :=
  [.obj [("path", .str "relative/path"),
    ("clients", .arr [.obj [("ip", .str "10.0.0.1"), ("permission", .str "rw")]])]]

/-- The text of the document `relativePathExports`. -/
def relativePathText : String :=
  "\x7b\"exports\":[\x7b\"path\":\"relative/path\",\"clients\":[\x7b\"ip\":\"10.0.0.1\",\"permission\":\"rw\"\x7d]\x7d]\x7d"

/-- A `JSON.parse` that reads the text `relativePathText`. -/
def relativePathJson : Json :=
  exampleJson (.obj [("exports", .arr relativePathExports)]) .null relativePathText "null"
    (fun _ => true)

/-- A document whose first record has clients but no path, followed by the
export of the example document. -/
def missingPathExports : List JSValue :=
  .obj [("clients", .arr [.obj [("ip", .str "10.0.0.2"), ("permission", .str "ro")]])]
    :: exampleExports

/-- The text of the document `missingPathExports`. -/
def missingPathText : String :=
  "\x7b\"exports\":[\x7b\"clients\":[\x7b\"ip\":\"10.0.0.2\",\"permission\":\"ro\"\x7d]\x7d,\x7b\"path\":\"/srv/nfs\",\"clients\":[\x7b\"ip\":\"10.0.0.1\",\"permission\":\"rw\"\x7d]\x7d]\x7d"

/-- A `JSON.parse` that reads the text `missingPathText`. -/
def missingPathJson : Json :=
  exampleJson (.obj [("exports", .arr missingPathExports)]) .null missingPathText "null"
    (fun _ => true)

/-- The properties of the example document with a modification time recorded
the day before the example clock. -/
def stampedKvs : List (String × JSValue) :=
  [("exports", .arr exampleExports),
    ("metadata", .obj [("lastModified", .str "2024-04-30T09:00:00.000Z")])]

/-- The text of the document `stampedKvs`. -/
def stampedText : String :=
  "\x7b\"exports\":[\x7b\"path\":\"/srv/nfs\",\"clients\":[\x7b\"ip\":\"10.0.0.1\",\"permission\":\"rw\"\x7d]\x7d],\"metadata\":\x7b\"lastModified\":\"2024-04-30T09:00:00.000Z\"\x7d\x7d"

/-- The text of the document `stampedKvs` without its export. -/
def stampedEmptyText : String :=
  "\x7b\"exports\":[],\"metadata\":\x7b\"lastModified\":\"2024-04-30T09:00:00.000Z\"\x7d\x7d"

/-- Recognizer of the documents that have an export. -/
def hasExports (v : JSValue) : Bool :=
  match v.field "exports" with
  | .arr (_ :: _) => true
  | _ => false

/-- The document `stampedKvs`, and the same document without its export, with
their texts. -/
def stampedJson : Json :=
  exampleJson (.obj stampedKvs) (withExports stampedKvs []) stampedText stampedEmptyText
    hasExports

/-- The export `/srv/nfs` with a second client. -/
def twoClientExports : List JSValue :=
  [.obj [("path", .str "/srv/nfs"),
    ("clients", .arr [.obj [("ip", .str "10.0.0.1"), ("permission", .str "rw")],
      .obj [("ip", .str "10.0.0.2"), ("permission", .str "ro")]])]]

/-- A document whose export `/srv/nfs` carries a metadata map. -/
def describedKvs : List (String × JSValue) :=
  [("exports", .arr [.obj [("path", .str "/srv/nfs"),
      ("clients", .arr [.obj [("ip", .str "10.0.0.1"), ("permission", .str "rw")]]),
      ("metadata", .obj [("owner", .str "ops")])]]),
    ("metadata", .obj [])]

/-- The text of the document `describedKvs`. -/
def describedText : String :=
  "\x7b\"exports\":[\x7b\"path\":\"/srv/nfs\",\"clients\":[\x7b\"ip\":\"10.0.0.1\",\"permission\":\"rw\"\x7d],\"metadata\":\x7b\"owner\":\"ops\"\x7d\x7d],\"metadata\":\x7b\x7d\x7d"

/-- The text of the document with the export `/srv/nfs` for the clients of the
example request, without metadata on the export, modified at the second time of
the example clock. -/
def replacedText : String :=
  "\x7b\"exports\":[\x7b\"path\":\"/srv/nfs\",\"clients\":[\x7b\"ip\":\"192.168.1.0/24\",\"permission\":\"ro\"\x7d]\x7d],\"metadata\":\x7b\"lastModified\":\"2024-05-01T10:00:00.005Z\"\x7d\x7d"

/-- Recognizer of the documents whose first export has a metadata map. -/
def hasExportMetadata (v : JSValue) : Bool :=
  match v.field "exports" with
  | .arr (e :: _) =>
    match e.field "metadata" with
    | .obj _ => true
    | _ => false
  | _ => false

/-- The document `describedKvs` and the document of `replacedText`, with their
texts. -/
def describedJson : Json :=
  exampleJson (.obj describedKvs)
    (.obj [("exports", .arr [.obj [("path", .str "/srv/nfs"), ("clients", .arr exampleClients)]]),
      ("metadata", .obj [("lastModified", .str "2024-05-01T10:00:00.005Z")])])
    describedText replacedText hasExportMetadata

/-- The example file system with one earlier snapshot in the format of
`/etc/exports`, which is not JSON. -/
def legacyFS : FS :=
  { exampleFS with
    backups := [("exports-2024-04-30T09-00-00-000Z.bak", "/srv/nfs 10.0.0.1(rw)")] }

/-- The example file system with a full backup directory whose oldest snapshot
cannot be deleted. -/
def protectedFS : FS :=
  { fullFS with
    denied := fun p => p == "/var/backups/nfs-web-ui/exports-2024-04-21T09-00-00-000Z.bak" }

/-- The example file system with a file `old.bak` in `/var/backups`, the parent
of the backup directory. -/
def outsideFS : FS :=
  { exampleFS with
    other := fun p => if p == "/var/backups/old.bak" then some emptyExportsText else none }

/-- The example file system with the configuration file protected against
writing. -/
def readOnlyConfigFS : FS :=
  { exampleFS with denied := fun p => p == "/etc/nfs-web-ui/exports.json" }

/-- An object with an own property `toString` that is no function, as
`JSON.parse` builds it from the text `\x7b"toString":1\x7d`: its conversion to a
string throws. -/
def unconvertible : JSValue := .obj [("toString", .num 1)]

/-- An export whose clients array holds a valid client and a client whose ip
cannot be converted to a string. -/
def unconvertibleIpExport : JSValue :=
  .obj [("path", .str "/srv/nfs"),
    ("clients", .arr [.obj [("ip", .str "10.0.0.1"), ("permission", .str "rw")],
      .obj [("ip", unconvertible), ("permission", .str "rw")]])]

/-- The text of the document whose only export is `unconvertibleIpExport`. -/
def unconvertibleIpText : String :=
  "\x7b\"exports\":[\x7b\"path\":\"/srv/nfs\",\"clients\":[\x7b\"ip\":\"10.0.0.1\",\"permission\":\"rw\"\x7d,\x7b\"ip\":\x7b\"toString\":1\x7d,\"permission\":\"rw\"\x7d]\x7d]\x7d"

/-- A `JSON.parse` that reads the text `unconvertibleIpText`. -/
def unconvertibleIpJson : Json :=
  exampleJson (.obj [("exports", .arr [unconvertibleIpExport])]) .null unconvertibleIpText
    "null" (fun _ => true)

/-! ## Conversion to a string: values -/

/-- Values of ToString on numbers: all the digits below `1e21`, the nearest
Number value for an integer that is none, and the exponent form from `1e21`
on. -/
theorem numberToString_values :
    numberToString 0 = "0" ∧ numberToString (-5) = "-5" ∧
      numberToString 9007199254740993 = "9007199254740992" ∧
      numberToString 999999999999999999999 = "1e+21" ∧
      numberToString (-1000000000000000000000) = "-1e+21" ∧
      numberToString 100000000000000000000000 = "1e+23" ∧
      numberToString 123456789012345678901234 = "1.2345678901234569e+23" ∧
      numberToString 1180591620717411303424 = "1.1805916207174113e+21" :=
  ⟨by decide, by decide, by decide, by decide, by decide, by decide, by decide, by decide⟩

/-- Values of ToString on objects and arrays: an object with an own property
`toString` throws, alone or as an element of an array; any other object is
`[object Object]`; an array is joined with commas, `null` and `undefined` being
empty. -/
theorem jsToString_values :
    jsToString unconvertible =
        .error (.typeError "Cannot convert object to primitive value") ∧
      jsToString (.obj [("ip", .num 1)]) = .ok "[object Object]" ∧
      jsToString (.arr [.num 1, .null, .str "a", .arr [.bool true, .undefined]]) =
        .ok "1,,a,true," ∧
      jsToString (.arr [.str "10.0.0.1"]) = .ok "10.0.0.1" ∧
      jsToString (.arr [unconvertible]) =
        .error (.typeError "Cannot convert object to primitive value") :=
  ⟨rfl, rfl, by rfl, rfl, rfl⟩

/-! ## Strings and regular expressions: lemmas -/

theorem includesChars_iff (t s : List Char) : includesChars t s = true ↔ t <:+: s := by
  induction s with
  | nil => simp [includesChars, List.isEmpty_iff]
  | cons c cs ih =>
    simp only [includesChars, Bool.or_eq_true, ih, List.isPrefixOf_iff_prefix, List.infix_cons_iff]

/-! ## C1: `validatePath` -/

/-- C1 (as worded, refuted): `/a..b` has no `..` segment, starts with the
separator, has no doubled separator and no forbidden character, yet
`validatePath` rejects it, because it looks for `..` anywhere in the string. -/
theorem validatePath_rejects_dots_inside_segment :
    validatePath (.str "/a..b") = false ∧ IsValidPathSpec (.str "/a..b") := by
  refine ⟨by decide, "/a..b", rfl, by decide, by decide, by decide, by decide, by decide⟩

/-- C1 (amended): for every value `p`, `validatePath p` is true exactly when `p`
is a non-empty string that starts with `/`, does not contain `..` anywhere (as a
substring), does not contain `//`, and contains none of `< > : " | ? *`. -/
theorem validatePath_iff (p : JSValue) :
    validatePath p = true ↔
      ∃ s : String, p = .str s ∧ s ≠ "" ∧ ['/'] <+: s.data ∧ ¬ ['.', '.'] <:+: s.data ∧
        ¬ ['/', '/'] <:+: s.data ∧ ∀ c ∈ dangerousChars, c ∉ s.data := by
  cases p <;> simp [validatePath, JSValue.truthy, JSValue.isString]
  case str s =>
    intro _
    simp only [jsToString, jsIncludes, jsStartsWith]
    rw [← Bool.not_eq_true, ← Bool.not_eq_true, includesChars_iff, includesChars_iff,
      List.isPrefixOf_iff_prefix]
    constructor
    · rintro ⟨⟨h1, h2⟩, h3, h4⟩
      exact ⟨h3, h1, h2, fun c hc hs => h4 c hs hc⟩
    · rintro ⟨h3, h1, h2, h4⟩
      exact ⟨⟨h1, h2⟩, h3, fun c hs hc => h4 c hc hs⟩

open RegularExpression in
theorem charClass_rmatch_iff (cs x : List Char) :
    (charClass cs).rmatch x = true ↔ ∃ c ∈ cs, x = [c] := by
  induction cs with
  | nil =>
    have : charClass [] = 0 := rfl
    simp [this, zero_rmatch]
  | cons c cs ih =>
    have : charClass (c :: cs) = char c + charClass cs := rfl
    rw [this, add_rmatch_iff, char_rmatch_iff, ih]
    simp

open RegularExpression in
theorem optRe_rmatch_iff (r : RegularExpression Char) (x : List Char) :
    (optRe r).rmatch x = true ↔ x = [] ∨ r.rmatch x = true := by
  rw [optRe, add_rmatch_iff, one_rmatch_iff]

open RegularExpression in
theorem octetRe_shape (x : List Char) (h : octetRe.rmatch x = true) :
    digitString x ∧ 1 ≤ x.length ∧ x.length ≤ 3 := by
  have s1 : ∀ c ∈ ['0', '1', '2', '3', '4', '5'], c ∈ decimalDigits := by decide
  have s2 : ∀ c ∈ ['0', '1', '2', '3', '4'], c ∈ decimalDigits := by decide
  have s3 : ∀ c ∈ ['0', '1'], c ∈ decimalDigits := by decide
  have d2 : '2' ∈ decimalDigits := by decide
  have d5 : '5' ∈ decimalDigits := by decide
  simp only [octetRe, add_rmatch_iff, mul_rmatch_iff, char_rmatch_iff, charClass_rmatch_iff,
    optRe_rmatch_iff] at h
  rcases h with (h | h) | h
  · obtain ⟨t, u, rfl, ⟨t1, t2, rfl, rfl, rfl⟩, c, hc, rfl⟩ := h
    refine ⟨?_, by simp, by simp⟩
    intro y hy
    simp at hy
    rcases hy with rfl | rfl | rfl
    · exact d2
    · exact d5
    · exact s1 _ hc
  · obtain ⟨t, u, rfl, ⟨t1, t2, rfl, rfl, c, hc, rfl⟩, d, hd, rfl⟩ := h
    refine ⟨?_, by simp, by simp⟩
    intro y hy
    simp at hy
    rcases hy with rfl | rfl | rfl
    · exact d2
    · exact s2 _ hc
    · exact hd
  · obtain ⟨t, u, rfl, ⟨t1, t2, rfl, h1, d, hd, rfl⟩, h3⟩ := h
    have ht1 : digitString t1 ∧ t1.length ≤ 1 := by
      rcases h1 with rfl | ⟨c, hc, rfl⟩
      · exact ⟨by intro y hy; simp at hy, by simp⟩
      · exact ⟨by intro y hy; simp at hy; subst hy; exact s3 _ hc, by simp⟩
    have hu : digitString u ∧ u.length ≤ 1 := by
      rcases h3 with rfl | ⟨c, hc, rfl⟩
      · exact ⟨by intro y hy; simp at hy, by simp⟩
      · exact ⟨by intro y hy; simp at hy; subst hy; exact hc, by simp⟩
    refine ⟨?_, by simp; omega, by simp; omega⟩
    intro y hy
    simp at hy
    rcases hy with hy | rfl | hy
    · exact ht1.1 y hy
    · exact hd
    · exact hu.1 y hy

theorem isNumeral_iff (x : List Char) :
    isNumeral x = true ↔ digitString x ∧ 1 ≤ x.length := by
  cases x <;> simp [isNumeral, digitString]

set_option maxRecDepth 1000000 in
theorem octetRe_one : ∀ a ∈ decimalDigits, octetRe.rmatch [a] = isOctet [a] := by decide

set_option maxRecDepth 1000000 in
theorem octetRe_two : ∀ a ∈ decimalDigits, ∀ b ∈ decimalDigits,
    octetRe.rmatch [a, b] = isOctet [a, b] := by decide

set_option maxRecDepth 1000000 in
theorem octetRe_three : ∀ a ∈ decimalDigits, ∀ b ∈ decimalDigits, ∀ c ∈ decimalDigits,
    octetRe.rmatch [a, b, c] = isOctet [a, b, c] := by decide

theorem octetRe_rmatch (x : List Char) : octetRe.rmatch x = isOctet x := by
  by_cases h : digitString x ∧ 1 ≤ x.length ∧ x.length ≤ 3
  · obtain ⟨hd, h1, h3⟩ := h
    match x, hd, h1, h3 with
    | [a], hd, _, _ => exact octetRe_one a (hd a (by simp))
    | [a, b], hd, _, _ => exact octetRe_two a (hd a (by simp)) b (hd b (by simp))
    | [a, b, c], hd, _, _ =>
      exact octetRe_three a (hd a (by simp)) b (hd b (by simp)) c (hd c (by simp))
    | _ :: _ :: _ :: _ :: _, _, _, h3 => simp at h3
  · have hl : octetRe.rmatch x = false := by
      cases hx : octetRe.rmatch x
      · rfl
      · exact absurd (octetRe_shape x hx) h
    have hr : isOctet x = false := by
      cases hx : isOctet x
      · rfl
      · simp only [isOctet, Bool.and_eq_true, decide_eq_true_eq, isNumeral_iff] at hx
        exact absurd ⟨hx.1.1.1, hx.1.1.2, hx.1.2⟩ h
    rw [hl, hr]

theorem decimalValue_foldl_ge (cs : List Char) (n : Nat) :
    n * 10 ^ cs.length ≤ cs.foldl (fun n c => 10 * n + digitValue c) n := by
  induction cs generalizing n with
  | nil => simp
  | cons c cs ih =>
    simp only [List.foldl_cons, List.length_cons]
    calc n * 10 ^ (cs.length + 1) = (10 * n) * 10 ^ cs.length := by ring
      _ ≤ (10 * n + digitValue c) * 10 ^ cs.length := Nat.mul_le_mul_right _ (by omega)
      _ ≤ _ := ih _

theorem digitValue_pos : ∀ a ∈ decimalDigits, a ≠ '0' → 1 ≤ digitValue a := by decide

theorem isPrefixCanonical_length (x : List Char) (h : isPrefixCanonical x = true) :
    x.length ≤ 2 := by
  match x, h with
  | [], _ => simp
  | [_], _ => simp
  | [_, _], _ => simp
  | a :: b :: c :: r, h =>
    exfalso
    simp only [isPrefixCanonical, isCanonicalNumeral, Bool.and_eq_true, decide_eq_true_eq,
      isNumeral_iff, Bool.or_eq_true] at h
    obtain ⟨⟨⟨hd, _⟩, h0⟩, hv⟩ := h
    have ha : a ∈ decimalDigits := hd a (by simp)
    have ha0 : a ≠ '0' := by
      rcases h0 with h0 | h0
      · intro e; subst e; simp at h0
      · simp at h0
    have hva : 1 ≤ digitValue a := digitValue_pos a ha ha0
    have := decimalValue_foldl_ge (b :: c :: r) (10 * 0 + digitValue a)
    simp only [decimalValue, List.foldl_cons] at hv
    simp only [List.length_cons, List.foldl_cons] at this
    have h100 : 100 ≤ (10 * 0 + digitValue a) * 10 ^ (r.length + 1 + 1) := by
      have : 10 ^ (r.length + 1 + 1) = 100 * 10 ^ r.length := by ring
      rw [this]
      have : 1 ≤ 10 ^ r.length := Nat.one_le_pow _ _ (by norm_num)
      nlinarith
    omega
open RegularExpression in
theorem prefixRe_shape (x : List Char) (h : prefixRe.rmatch x = true) :
    digitString x ∧ 1 ≤ x.length ∧ x.length ≤ 2 := by
  have s1 : ∀ c ∈ ['1', '2'], c ∈ decimalDigits := by decide
  have s2 : ∀ c ∈ ['0', '1', '2'], c ∈ decimalDigits := by decide
  have d3 : '3' ∈ decimalDigits := by decide
  simp only [prefixRe, add_rmatch_iff, mul_rmatch_iff, char_rmatch_iff,
    charClass_rmatch_iff] at h
  rcases h with (h | h) | h
  · obtain ⟨c, hc, rfl⟩ := h
    refine ⟨?_, by simp, by simp⟩
    intro y hy
    simp at hy
    subst hy
    exact hc
  · obtain ⟨t, u, rfl, ⟨c, hc, rfl⟩, d, hd, rfl⟩ := h
    refine ⟨?_, by simp, by simp⟩
    intro y hy
    simp at hy
    rcases hy with rfl | rfl
    · exact s1 _ hc
    · exact hd
  · obtain ⟨t, u, rfl, rfl, c, hc, rfl⟩ := h
    refine ⟨?_, by simp, by simp⟩
    intro y hy
    simp at hy
    rcases hy with rfl | rfl
    · exact d3
    · exact s2 _ hc

set_option maxRecDepth 1000000 in
theorem prefixRe_one : ∀ a ∈ decimalDigits, prefixRe.rmatch [a] = isPrefixCanonical [a] := by
  decide

set_option maxRecDepth 1000000 in
theorem prefixRe_two : ∀ a ∈ decimalDigits, ∀ b ∈ decimalDigits,
    prefixRe.rmatch [a, b] = isPrefixCanonical [a, b] := by decide

theorem prefixRe_rmatch (x : List Char) : prefixRe.rmatch x = isPrefixCanonical x := by
  by_cases h : digitString x ∧ 1 ≤ x.length ∧ x.length ≤ 2
  · obtain ⟨hd, h1, h3⟩ := h
    match x, hd, h1, h3 with
    | [a], hd, _, _ => exact prefixRe_one a (hd a (by simp))
    | [a, b], hd, _, _ => exact prefixRe_two a (hd a (by simp)) b (hd b (by simp))
    | _ :: _ :: _ :: _, _, _, h3 => simp at h3
  · have hl : prefixRe.rmatch x = false := by
      cases hx : prefixRe.rmatch x
      · rfl
      · exact absurd (prefixRe_shape x hx) h
    have hr : isPrefixCanonical x = false := by
      cases hx : isPrefixCanonical x
      · rfl
      · have hlen := isPrefixCanonical_length x hx
        simp only [isPrefixCanonical, isCanonicalNumeral, Bool.and_eq_true, decide_eq_true_eq,
          isNumeral_iff] at hx
        exact absurd ⟨hx.1.1.1, hx.1.1.2, hlen⟩ h
    rw [hl, hr]

open RegularExpression in
theorem ipRegex_rmatch_iff (x : List Char) :
    ipRegex.rmatch x = true ↔
      ∃ o1 o2 o3 o4 : List Char,
        (isOctet o1 = true ∧ isOctet o2 = true ∧ isOctet o3 = true ∧ isOctet o4 = true) ∧
        x = o1 ++ '.' :: (o2 ++ '.' :: (o3 ++ '.' :: o4)) := by
  simp only [ipRegex, timesRe, mul_rmatch_iff, char_rmatch_iff, one_rmatch_iff, octetRe_rmatch]
  constructor
  · rintro ⟨t, u, rfl, ⟨a, b, rfl, ⟨o1, d1, rfl, h1, rfl⟩, c, d, rfl,
      ⟨o2, d2, rfl, h2, rfl⟩, e, f, rfl, ⟨o3, d3, rfl, h3, rfl⟩, rfl⟩, h4⟩
    exact ⟨o1, o2, o3, u, ⟨h1, h2, h3, h4⟩, by simp⟩
  · rintro ⟨o1, o2, o3, o4, ⟨h1, h2, h3, h4⟩, rfl⟩
    exact ⟨o1 ++ '.' :: (o2 ++ '.' :: (o3 ++ ['.'])), o4, by simp,
      ⟨o1 ++ ['.'], o2 ++ '.' :: (o3 ++ ['.']), by simp, ⟨o1, ['.'], rfl, h1, rfl⟩,
        o2 ++ ['.'], o3 ++ ['.'], by simp, ⟨o2, ['.'], rfl, h2, rfl⟩,
        o3 ++ ['.'], [], by simp, ⟨o3, ['.'], rfl, h3, rfl⟩, rfl⟩, h4⟩
open RegularExpression in
theorem cidrRegex_rmatch_iff (x : List Char) :
    cidrRegex.rmatch x = true ↔
      ∃ o1 o2 o3 o4 p : List Char,
        (isOctet o1 = true ∧ isOctet o2 = true ∧ isOctet o3 = true ∧ isOctet o4 = true) ∧
        isPrefixCanonical p = true ∧
        x = o1 ++ '.' :: (o2 ++ '.' :: (o3 ++ '.' :: (o4 ++ '/' :: p))) := by
  have hc : cidrRegex = ipRegex * char '/' * prefixRe := rfl
  rw [hc]
  simp only [mul_rmatch_iff, char_rmatch_iff, ipRegex_rmatch_iff, prefixRe_rmatch]
  constructor
  · rintro ⟨t, p, rfl, ⟨q, s, rfl, ⟨o1, o2, o3, o4, ho, rfl⟩, rfl⟩, hp⟩
    exact ⟨o1, o2, o3, o4, p, ho, hp, by simp⟩
  · rintro ⟨o1, o2, o3, o4, p, ho, hp, rfl⟩
    exact ⟨o1 ++ '.' :: (o2 ++ '.' :: (o3 ++ '.' :: (o4 ++ ['/']))), p, by simp,
      ⟨o1 ++ '.' :: (o2 ++ '.' :: (o3 ++ '.' :: o4)), ['/'], by simp,
        ⟨o1, o2, o3, o4, ho, rfl⟩, rfl⟩, hp⟩

theorem validateIP_str (a : String) :
    validateIP (.str a) = .ok (ipRegex.rmatch a.data || cidrRegex.rmatch a.data) := by
  simp only [validateIP, regexTest, jsToString]
  cases ipRegex.rmatch a.data <;> rfl

theorem validateIP_error_iff (v : JSValue) :
    (∃ e, validateIP v = .error e) ↔ v.converts = false := by
  unfold JSValue.converts validateIP regexTest
  cases jsToString v with
  | error e => simp
  | ok s =>
    dsimp only
    cases ipRegex.rmatch s.data <;> simp

theorem validateIP_of_converts (v : JSValue) (h : v.converts = true) :
    ∃ b, validateIP v = .ok b := by
  cases hv : validateIP v with
  | ok b => exact ⟨b, rfl⟩
  | error e =>
    have := (validateIP_error_iff v).1 ⟨e, hv⟩
    rw [h] at this
    cases this

theorem converts_of_validateIP (v : JSValue) (b : Bool) (h : validateIP v = .ok b) :
    v.converts = true := by
  cases hc : v.converts with
  | true => rfl
  | false =>
    obtain ⟨e, he⟩ := (validateIP_error_iff v).2 hc
    rw [he] at h
    cases h

/-! ## C2: `validateIP` -/

/-- C2 (as worded, refuted under either reading of "octet" and "prefix length"):
read by value, `1.1.1.1/05` is a dotted quad followed by a prefix length of
value 5 and `validateIP` rejects it; read as canonical decimal numerals,
`01.1.1.1` has a malformed first octet and `validateIP` accepts it. -/
theorem validateIP_leading_zeros :
    (validateIP (.str "1.1.1.1/05") = .ok false ∧
      IsAddress isOctetByValue isPrefixByValue "1.1.1.1/05") ∧
    (validateIP (.str "01.1.1.1") = .ok true ∧
      ¬ IsAddress isOctetCanonical isPrefixCanonical "01.1.1.1") := by
  refine ⟨⟨by decide, ['1'], ['1'], ['1'], ['1'], by decide, Or.inr ⟨['0', '5'], by decide, rfl⟩⟩,
    by decide, ?_⟩
  rintro ⟨o1, o2, o3, o4, ⟨h1, -, -, -⟩, h⟩
  have hd : ("01.1.1.1" : String).data = ['0', '1', '.', '1', '.', '1', '.', '1'] := rfl
  rw [hd] at h
  match o1, h1, h with
  | [], h1, _ => simp [isOctetCanonical, isCanonicalNumeral, isNumeral] at h1
  | [c], _, h => simp at h
  | c :: d :: r, h1, h =>
    have hc : c = '0' := by
      rcases h with h | ⟨p, -, h⟩ <;> simp at h <;> exact h.1.symm
    subst hc
    simp [isOctetCanonical, isCanonicalNumeral] at h1

/-- C2 (amended): for every string `a`, `validateIP a` is true exactly when `a`
is four octets separated by dots, each octet being one to three decimal digits
(leading zeros allowed) of value 0 to 255, optionally followed by `/` and a
prefix length written as a decimal numeral without leading zero of value 0 to
32. -/
theorem validateIP_iff (a : String) :
    validateIP (.str a) = .ok true ↔ IsAddress isOctet isPrefixCanonical a := by
  simp only [validateIP_str, Except.ok.injEq, Bool.or_eq_true, ipRegex_rmatch_iff,
    cidrRegex_rmatch_iff, IsAddress]
  constructor
  · rintro (⟨o1, o2, o3, o4, ho, h⟩ | ⟨o1, o2, o3, o4, p, ho, hp, h⟩)
    · exact ⟨o1, o2, o3, o4, ho, Or.inl h⟩
    · exact ⟨o1, o2, o3, o4, ho, Or.inr ⟨p, hp, h⟩⟩
  · rintro ⟨o1, o2, o3, o4, ho, h | ⟨p, hp, h⟩⟩
    · exact Or.inl ⟨o1, o2, o3, o4, ho, h⟩
    · exact Or.inr ⟨o1, o2, o3, o4, p, ho, hp, h⟩

/-! ## Paths: lemmas -/

theorem splitOn_append_cons (sep : Char) (a b : List Char) :
    List.splitOn sep (a ++ sep :: b) = List.splitOn sep a ++ List.splitOn sep b := by
  induction a with
  | nil => simp [List.splitOn, List.splitOnP_cons, List.splitOnP_nil]
  | cons x xs ih =>
    simp only [List.splitOn] at ih ⊢
    simp only [List.cons_append, List.splitOnP_cons, ih]
    split
    · simp
    · cases h : List.splitOnP (fun x => x == sep) xs with
      | nil => exact absurd h (List.splitOnP_ne_nil _ _)
      | cons y ys => simp

theorem splitOn_plain (sep : Char) (n : List Char) (h : sep ∉ n) : List.splitOn sep n = [n] := by
  simp only [List.splitOn]
  apply List.splitOnP_eq_single
  intro x hx
  simp only [beq_iff_eq]
  rintro rfl
  exact h hx

theorem intercalate_append_single (sep : List Char) (xs : List (List Char)) (n : List Char) :
    List.intercalate sep (xs ++ [n]) =
      if xs = [] then n else List.intercalate sep xs ++ sep ++ n := by
  induction xs with
  | nil => simp [List.intercalate]
  | cons x xs ih =>
    cases xs with
    | nil => simp [List.intercalate, List.intersperse]
    | cons y ys =>
      simp only [List.intercalate, reduceCtorEq, if_false, List.cons_append,
        List.intersperse] at ih ⊢
      simp [ih]

theorem isPlainName_iff (n : String) :
    isPlainName n = true ↔ n.data ≠ [] ∧ n.data ≠ ['.'] ∧ n.data ≠ ['.', '.'] ∧ '/' ∉ n.data := by
  have e : ∀ l : List Char, n = String.mk l ↔ n.data = l := by
    intro l
    constructor
    · rintro rfl; rfl
    · intro h; cases n; simp_all
  have h0 : ("" : String) = String.mk [] := rfl
  have h1 : ("." : String) = String.mk ['.'] := rfl
  have h2 : (".." : String) = String.mk ['.', '.'] := rfl
  simp only [isPlainName, Bool.and_eq_true, bne_iff_ne, ne_eq, Bool.not_eq_true',
    List.contains_eq_any_beq, List.any_eq_false, beq_iff_eq, h0, h1, h2, e]
  constructor
  · rintro ⟨⟨⟨a, b⟩, c⟩, d⟩
    exact ⟨a, b, c, fun h => d _ h rfl⟩
  · rintro ⟨a, b, c, d⟩
    exact ⟨⟨⟨a, b⟩, c⟩, fun x hx e => d (e ▸ hx)⟩
theorem normalizeStep_plain (allow : Bool) (stack : List (List Char)) (n : String)
    (hn : isPlainName n = true) : normalizeStep allow stack n.data = n.data :: stack := by
  obtain ⟨h0, h1, h2, -⟩ := (isPlainName_iff n).1 hn
  simp [normalizeStep, h0, h1, h2]

theorem pathJoin_plain (d n : String) (hn : isPlainName n = true) :
    (pathJoin d n).data = joinPrefix d ++ n.data := by
  obtain ⟨h0, h1, h2, hs⟩ := (isPlainName_iff n).1 hn
  have hne : n ≠ "" := by rintro rfl; exact h0 rfl
  by_cases hd : d = ""
  · subst hd
    have hsplit := splitOn_plain '/' n.data hs
    have hhead : (n.data.head? == some '/') = false := by
      cases hx : n.data with
      | nil => rfl
      | cons c cs =>
        have : c ≠ '/' := by rintro rfl; exact hs (hx ▸ List.mem_cons_self _ _)
        simp [this]
    have hlast : (n.data.getLast? == some '/') = false := by
      cases hx : n.data.getLast? with
      | none => rfl
      | some c =>
        have hm : c ∈ n.data := List.mem_of_getLast?_eq_some hx
        have : c ≠ '/' := by rintro rfl; exact hs hm
        simp [this]
    simp [pathJoin, hne, normalizePath, hsplit, hhead, hlast, normalizeStep, h0, h1, h2,
      joinPrefix, List.intercalate]
  · have hdne : d.data ≠ [] := by
      intro h; apply hd; cases d; simp_all
    have hsplit : List.splitOn '/' (d.data ++ '/' :: n.data) =
        List.splitOn '/' d.data ++ [n.data] := by
      rw [splitOn_append_cons, splitOn_plain '/' n.data hs]
    have hhead : (d.data ++ '/' :: n.data).head? = d.data.head? := by
      cases hx : d.data with
      | nil => exact absurd hx hdne
      | cons c cs => rfl
    have hlast : ((d.data ++ '/' :: n.data).getLast? == some '/') = false := by
      have : (d.data ++ '/' :: n.data).getLast? = n.data.getLast? := by
        cases hx : n.data with
        | nil => exact absurd hx h0
        | cons c cs =>
          rw [show d.data ++ '/' :: c :: cs = (d.data ++ ['/']) ++ (c :: cs) by simp]
          rw [List.getLast?_append_of_ne_nil _ (by simp)]
      rw [this]
      cases hx : n.data.getLast? with
      | none => rfl
      | some c =>
        have hm : c ∈ n.data := List.mem_of_getLast?_eq_some hx
        have : c ≠ '/' := by rintro rfl; exact hs hm
        simp [this]
    simp only [pathJoin, hd, hne, if_false, normalizePath, hsplit, hhead, hlast,
      List.foldl_append, List.foldl_cons, List.foldl_nil, normalizeStep_plain _ _ n hn,
      List.reverse_cons, intercalate_append_single, joinPrefix]
    have hp : d.data ++ '/' :: n.data ≠ [] := by simp
    simp only [hp, if_false, List.reverse_eq_nil_iff]
    split <;> split <;> simp_all
theorem joinPrefix_shape (d : String) :
    joinPrefix d = [] ∨ ∃ q, joinPrefix d = q ++ ['/'] := by
  unfold joinPrefix
  simp only
  split
  · exact Or.inl rfl
  · split <;> split
    · exact Or.inr ⟨[], by simp⟩
    · exact Or.inr ⟨_, by rw [← List.append_assoc]⟩
    · exact Or.inl (by simp)
    · exact Or.inr ⟨_, by rw [← List.append_assoc]⟩

theorem takeWhile_reverse_plain (pre n : List Char) (hn : '/' ∉ n)
    (hpre : pre = [] ∨ ∃ q, pre = q ++ ['/']) :
    ((pre ++ n).reverse.takeWhile (fun c => c != '/')).reverse = n := by
  have hall : ∀ c ∈ n.reverse, (c != '/') = true := by
    intro c hc
    have : c ≠ '/' := by rintro rfl; exact hn (List.mem_reverse.1 hc)
    simpa using this
  rcases hpre with rfl | ⟨q, rfl⟩
  · simp only [List.nil_append]
    rw [List.takeWhile_eq_self_iff.2 hall, List.reverse_reverse]
  · simp only [List.reverse_append, List.reverse_cons, List.reverse_nil, List.nil_append,
      List.singleton_append, List.append_assoc]
    rw [List.takeWhile_append_of_pos hall]
    simp

theorem baseName_pathJoin (d n : String) (hn : isPlainName n = true) :
    baseName (pathJoin d n) = n := by
  have hs := ((isPlainName_iff n).1 hn).2.2.2
  simp only [baseName, pathJoin_plain d n hn,
    takeWhile_reverse_plain _ _ hs (joinPrefix_shape d)]

theorem locate_backup (env : Env) (n : String) (hn : isPlainName n = true)
    (hne : n ≠ "exports.json") :
    locate env (pathJoin env.BACKUP_DIR n) = .backup n := by
  have hc : pathJoin env.BACKUP_DIR n ≠ env.CONFIG_FILE := by
    intro h
    have := congrArg baseName h
    rw [baseName_pathJoin _ _ hn, Env.CONFIG_FILE, baseName_pathJoin _ _ (by decide)] at this
    exact hne this
  simp [locate, hc, baseName_pathJoin _ _ hn, hn]

theorem locate_config (env : Env) : locate env env.CONFIG_FILE = .config := by
  simp [locate]
/-! ## File system: lemmas -/

theorem backupName_data (iso : String) :
    (backupName iso).data =
      "exports-".data ++ (iso.data.map (fun c => if c = ':' ∨ c = '.' then '-' else c)
        ++ ".bak".data) := by
  simp [backupName, String.data_append]

theorem isBackupName_backupName (iso : String) : isBackupName (backupName iso) = true := by
  simp only [isBackupName, jsStartsWith, jsEndsWith, backupName_data, Bool.and_eq_true,
    List.isPrefixOf_iff_prefix, List.isSuffixOf_iff_suffix]
  exact ⟨List.prefix_append _ _, ⟨_, List.append_assoc _ _ _⟩⟩

theorem isPlainName_backupName (iso : String) (h : '/' ∉ iso.data) :
    isPlainName (backupName iso) = true := by
  rw [isPlainName_iff, backupName_data]
  refine ⟨by simp, by simp, by simp, ?_⟩
  simp only [List.mem_append, List.mem_map, not_or, not_exists, not_and]
  refine ⟨by decide, ?_, by decide⟩
  intro c hc
  split
  · decide
  · rintro rfl
    exact h hc

theorem isBackupName_ne_config (n : String) (h : isBackupName n = true) :
    n ≠ "exports.json" := by
  rintro rfl
  exact absurd h (by decide)

theorem lookupFile_isSome_iff (n : String) (l : List (String × String)) :
    (lookupFile n l).isSome = true ↔ n ∈ l.map Prod.fst := by
  induction l with
  | nil => simp [lookupFile]
  | cons e l ih =>
    obtain ⟨m, c⟩ := e
    by_cases h : m = n
    · simp [lookupFile, h]
    · have h' : ¬ n = m := fun e => h e.symm
      simp [lookupFile, h, h', ih]

theorem lookupFile_storeFile (n m c : String) (l : List (String × String)) :
    lookupFile n (storeFile m c l) = if n = m then some c else lookupFile n l := by
  induction l with
  | nil =>
    by_cases h : m = n
    · simp [storeFile, lookupFile, h]
    · have h' : ¬ n = m := fun e => h e.symm
      simp [storeFile, lookupFile, h, h']
  | cons e l ih =>
    obtain ⟨k, d⟩ := e
    by_cases hk : k = m
    · subst hk
      by_cases h : k = n
      · simp [storeFile, lookupFile, h]
      · have h' : ¬ n = k := fun e => h e.symm
        simp [storeFile, lookupFile, h, h']
    · by_cases h : k = n
      · subst h
        simp [storeFile, lookupFile, hk]
      · simp [storeFile, lookupFile, hk, h, ih]

theorem map_fst_storeFile (m c : String) (l : List (String × String)) :
    (storeFile m c l).map Prod.fst =
      if m ∈ l.map Prod.fst then l.map Prod.fst else l.map Prod.fst ++ [m] := by
  induction l with
  | nil => simp [storeFile]
  | cons e l ih =>
    obtain ⟨k, d⟩ := e
    by_cases hk : k = m
    · simp [storeFile, hk]
    · have hk' : ¬ m = k := fun e => hk e.symm
      simp only [storeFile, hk, if_false, List.map_cons, ih, List.mem_cons, hk', false_or]
      split <;> simp

theorem lookupFile_filter_ne (n : String) (p : String → Bool) (l : List (String × String))
    (h : p n = true) :
    lookupFile n (l.filter (fun e => p e.1)) = lookupFile n l := by
  induction l with
  | nil => rfl
  | cons e l ih =>
    obtain ⟨k, d⟩ := e
    by_cases hk : k = n
    · subst hk
      simp [List.filter, h, lookupFile]
    · cases hp : p k <;> simp [List.filter, hp, lookupFile, hk, ih]

theorem lookupFile_filter_none (n : String) (p : String → Bool) (l : List (String × String))
    (h : p n = false) :
    lookupFile n (l.filter (fun e => p e.1)) = none := by
  induction l with
  | nil => rfl
  | cons e l ih =>
    obtain ⟨k, d⟩ := e
    by_cases hk : k = n
    · subst hk
      simp [List.filter, h, ih]
    · cases hp : p k <;> simp [List.filter, hp, lookupFile, hk, ih]
theorem readFile_config (env : Env) (fs : FS) :
    readFile env fs env.CONFIG_FILE =
      match fs.config with
      | some c => .ok c
      | none => .error (.ioError "ENOENT") := by
  simp only [readFile, locate_config]

theorem writeFile_config (env : Env) (fs : FS) (c : String) (h : fs.denied env.CONFIG_FILE = false) :
    writeFile env fs env.CONFIG_FILE c = .ok { fs with config := some c } := by
  simp [writeFile, locate_config, h]

theorem writeFile_backup (env : Env) (fs : FS) (n c : String) (hn : isPlainName n = true)
    (hb : isBackupName n = true) (hw : fs.Writable) :
    writeFile env fs (pathJoin env.BACKUP_DIR n) c =
      .ok { fs with backups := storeFile n c fs.backups } := by
  simp [writeFile, locate_backup env n hn (isBackupName_ne_config n hb), hw _]

theorem readFile_backup (env : Env) (fs : FS) (n : String) (hn : isPlainName n = true)
    (hne : n ≠ "exports.json") :
    readFile env fs (pathJoin env.BACKUP_DIR n) =
      match lookupFile n fs.backups with
      | some c => .ok c
      | none => .error (.ioError "ENOENT") := by
  simp only [readFile, locate_backup env n hn hne]

theorem access_backup (env : Env) (fs : FS) (n : String) (hn : isPlainName n = true)
    (hne : n ≠ "exports.json") :
    access env fs (pathJoin env.BACKUP_DIR n) =
      if (lookupFile n fs.backups).isSome then .ok () else .error (.ioError "ENOENT") := by
  simp only [access, locate_backup env n hn hne]

theorem unlink_backup (env : Env) (fs : FS) (n : String) (hn : isPlainName n = true)
    (hb : isBackupName n = true) (hw : fs.Writable) (hmem : n ∈ readdir fs) :
    unlink env fs (pathJoin env.BACKUP_DIR n) =
      .ok { fs with backups := fs.backups.filter (fun e => e.1 != n) } := by
  have : (lookupFile n fs.backups).isSome = true := (lookupFile_isSome_iff _ _).2 hmem
  simp [unlink, locate_backup env n hn (isBackupName_ne_config n hb), hw _, this]

theorem unlinkAll_ok (env : Env) (l : List String) (fs : FS) (hl : l.Nodup)
    (hmem : ∀ n ∈ l, n ∈ readdir fs ∧ isPlainName n = true ∧ isBackupName n = true)
    (hw : fs.Writable) :
    unlinkAll env l fs =
      (.ok (), { fs with backups := fs.backups.filter (fun e => !l.contains e.1) }) := by
  induction l generalizing fs with
  | nil => simp [unlinkAll]
  | cons f rest ih =>
    obtain ⟨hf, hrest⟩ := List.nodup_cons.1 hl
    obtain ⟨hfm, hfp, hfb⟩ := hmem f (List.mem_cons_self _ _)
    rw [unlinkAll, unlink_backup env fs f hfp hfb hw hfm]
    simp only
    have hw' : FS.Writable { fs with backups := fs.backups.filter (fun e => e.1 != f) } := hw
    rw [ih _ hrest ?_ hw']
    · simp only [List.filter_filter, Prod.mk.injEq, true_and]
      congr 2
      funext e
      by_cases h : e.1 = f
      · simp [h]
      · simp [h, List.contains_cons]
    · intro n hn
      obtain ⟨hnm, hnp, hnb⟩ := hmem n (List.mem_cons_of_mem _ hn)
      refine ⟨?_, hnp, hnb⟩
      have hne : n ≠ f := by rintro rfl; exact hf hn
      simp only [readdir, List.mem_map, List.mem_filter] at hnm ⊢
      obtain ⟨e, he, rfl⟩ := hnm
      exact ⟨e, ⟨he, by simpa using hne⟩, rfl⟩
theorem jsSort_perm (l : List String) : (jsSort l).Perm l := List.perm_insertionSort _ _

theorem mem_snapshotsNewestFirst (names : List String) (n : String) :
    n ∈ snapshotsNewestFirst names ↔ n ∈ names ∧ isBackupName n = true := by
  simp [snapshotsNewestFirst, (jsSort_perm _).mem_iff]

theorem nodup_snapshotsNewestFirst (names : List String) (h : names.Nodup) :
    (snapshotsNewestFirst names).Nodup := by
  simp only [snapshotsNewestFirst, List.nodup_reverse]
  exact (jsSort_perm _).nodup_iff.2 (h.filter _)

theorem wellFormed_storeFile (fs : FS) (n c : String) (hwf : fs.WellFormed)
    (hn : isPlainName n = true) :
    FS.WellFormed { fs with backups := storeFile n c fs.backups } := by
  obtain ⟨hnd, hpl⟩ := hwf
  simp only [FS.WellFormed, readdir, map_fst_storeFile] at hnd hpl ⊢
  split
  · exact ⟨hnd, hpl⟩
  · rename_i hmem
    refine ⟨?_, ?_⟩
    · rw [List.nodup_append]
      refine ⟨hnd, by simp, ?_⟩
      intro a ha hb
      simp only [List.mem_singleton] at hb
      subst hb
      exact hmem ha
    · intro m hm
      simp only [List.mem_append, List.mem_singleton] at hm
      rcases hm with hm | rfl
      · exact hpl m hm
      · exact hn

theorem createBackup_ok (env : Env) (iso c : String) (fs : FS) (hwf : fs.WellFormed)
    (hw : fs.Writable) (hc : fs.config = some c) (hiso : '/' ∉ iso.data)
    (hmax : 0 ≤ env.MAX_BACKUPS) :
    createBackup env iso fs =
      (.ok (pathJoin env.BACKUP_DIR (backupName iso)),
        { fs with backups := afterBackup env iso c fs.backups }) := by
  have hr : readFile env fs env.CONFIG_FILE = .ok c := by rw [readFile_config, hc]
  have hpl := isPlainName_backupName iso hiso
  have hbn := isBackupName_backupName iso
  have hwf1 := wellFormed_storeFile fs (backupName iso) c hwf hpl
  have hw1 : FS.Writable { fs with backups := storeFile (backupName iso) c fs.backups } := hw
  simp only [createBackup, ensureBackupDir, hr, writeFile_backup env fs _ c hpl hbn hw]
  have hdrop : ∀ n ∈ (snapshotsNewestFirst
        (readdir { fs with backups := storeFile (backupName iso) c fs.backups })).drop
          env.MAX_BACKUPS.toNat,
      n ∈ readdir { fs with backups := storeFile (backupName iso) c fs.backups } ∧
        isPlainName n = true ∧ isBackupName n = true := by
    intro n hn
    have := (mem_snapshotsNewestFirst _ _).1 (List.mem_of_mem_drop hn)
    exact ⟨this.1, hwf1.2 n this.1, this.2⟩
  have hnd : ((snapshotsNewestFirst
        (readdir { fs with backups := storeFile (backupName iso) c fs.backups })).drop
          env.MAX_BACKUPS.toNat).Nodup :=
    (nodup_snapshotsNewestFirst _ hwf1.1).sublist (List.drop_sublist _ _)
  have hall := unlinkAll_ok env _ _ hnd hdrop hw1
  simp only [snapshotsNewestFirst] at hall
  split
  · rename_i hgt
    have : ¬ env.MAX_BACKUPS < 0 := by omega
    simp only [this, if_false]
    rw [hall]
    simp [afterBackup, snapshotsNewestFirst, readdir]
  · rename_i hle
    have hlen : (jsSort (List.filter isBackupName (readdir
        { fs with backups := storeFile (backupName iso) c fs.backups }))).reverse.length
          ≤ env.MAX_BACKUPS.toNat := by omega
    have hnil := List.drop_eq_nil_of_le hlen
    simp only [readdir] at hnil
    simp [afterBackup, snapshotsNewestFirst, hnil]
theorem unlinkAll_inv (env : Env) (l : List String) (fs fs' : FS) (u : Unit)
    (hmem : ∀ n ∈ l, isPlainName n = true ∧ isBackupName n = true)
    (h : unlinkAll env l fs = (.ok u, fs')) :
    fs' = { fs with backups := fs.backups.filter (fun e => !l.contains e.1) } := by
  induction l generalizing fs with
  | nil =>
    simp only [unlinkAll, Prod.mk.injEq] at h
    simp [← h.2]
  | cons f rest ih =>
    obtain ⟨hfp, hfb⟩ := hmem f (List.mem_cons_self _ _)
    rw [unlinkAll] at h
    simp only [unlink, locate_backup env f hfp (isBackupName_ne_config f hfb)] at h
    split at h
    · rename_i e heq
      cases h
    · rename_i fs1 heq
      split at heq
      · simp at heq
      · split at heq
        · simp only [Except.ok.injEq] at heq
          subst heq
          rw [ih _ (fun n hn => hmem n (List.mem_cons_of_mem _ hn)) h]
          simp only [List.filter_filter]
          congr 2
          funext e
          by_cases h : e.1 = f
          · simp [h]
          · simp [h, List.contains_cons]
        · simp at heq

theorem createBackup_inv (env : Env) (iso b : String) (fs fs' : FS) (hwf : fs.WellFormed)
    (hiso : '/' ∉ iso.data) (h : createBackup env iso fs = (.ok b, fs')) :
    ∃ c, fs.config = some c ∧ b = pathJoin env.BACKUP_DIR (backupName iso) ∧
      fs' = { fs with backups := afterBackup env iso c fs.backups } ∧ 0 ≤ env.MAX_BACKUPS := by
  have hpl := isPlainName_backupName iso hiso
  have hbn := isBackupName_backupName iso
  have hwf1 := fun c => wellFormed_storeFile fs (backupName iso) c hwf hpl
  simp only [createBackup, ensureBackupDir, readFile_config] at h
  cases hc : fs.config with
  | none =>
    rw [hc] at h
    cases h
  | some c =>
    refine ⟨c, rfl, ?_⟩
    rw [hc] at h
    by_cases hden : fs.denied (pathJoin env.BACKUP_DIR (backupName iso)) = true
    · simp only [writeFile, hden, if_true] at h
      cases h
    · have hden' : fs.denied (pathJoin env.BACKUP_DIR (backupName iso)) = false := by
        simpa using hden
      simp only [writeFile, hden', Bool.false_eq_true, ↓reduceIte,
        locate_backup env _ hpl (isBackupName_ne_config _ hbn)] at h
      split at h
      · split at h
        · cases h
        · rename_i hneg
          split at h
          · cases h
          · rename_i u fs2 heq
            simp only [Prod.mk.injEq, Except.ok.injEq] at h
            refine ⟨h.1.symm, ?_, by omega⟩
            rw [← h.2]
            have := unlinkAll_inv env _ _ _ _ ?_ heq
            · rw [this]
              simp [afterBackup, snapshotsNewestFirst, readdir, hc]
            · intro n hn
              have := (mem_snapshotsNewestFirst _ _).1 (List.mem_of_mem_drop hn)
              have hw := (hwf1 c).2 n (by simpa [readdir] using this.1)
              exact ⟨hw, this.2⟩
      · rename_i hle
        simp only [Prod.mk.injEq, Except.ok.injEq] at h
        refine ⟨h.1.symm, ?_, by omega⟩
        rw [← h.2]
        have hlen : (jsSort (List.filter isBackupName (readdir
            { fs with backups := storeFile (backupName iso) c fs.backups }))).reverse.length
              ≤ env.MAX_BACKUPS.toNat := by
          simp only [readdir] at hle ⊢
          omega
        have hnil := List.drop_eq_nil_of_le hlen
        simp only [readdir] at hnil
        simp [afterBackup, snapshotsNewestFirst, hnil, hc]

/-! ## Order of names and retention: lemmas -/

theorem unitsLE_total (a b : List Nat) : unitsLE a b = true ∨ unitsLE b a = true := by
  induction a generalizing b with
  | nil => simp [unitsLE]
  | cons x xs ih =>
    cases b with
    | nil => simp [unitsLE]
    | cons y ys =>
      simp only [unitsLE, Bool.or_eq_true, decide_eq_true_eq, Bool.and_eq_true, beq_iff_eq]
      rcases Nat.lt_trichotomy x y with h | h | h
      · exact Or.inl (Or.inl h)
      · rcases ih ys with h' | h'
        · exact Or.inl (Or.inr ⟨h, h'⟩)
        · exact Or.inr (Or.inr ⟨h.symm, h'⟩)
      · exact Or.inr (Or.inl h)

theorem unitsLE_trans (a b c : List Nat) (hab : unitsLE a b = true) (hbc : unitsLE b c = true) :
    unitsLE a c = true := by
  induction a generalizing b c with
  | nil => simp [unitsLE]
  | cons x xs ih =>
    cases b with
    | nil => simp [unitsLE] at hab
    | cons y ys =>
      cases c with
      | nil => simp [unitsLE] at hbc
      | cons z zs =>
        simp only [unitsLE, Bool.or_eq_true, decide_eq_true_eq, Bool.and_eq_true,
          beq_iff_eq] at hab hbc ⊢
        rcases hab with h1 | ⟨h1, h1'⟩ <;> rcases hbc with h2 | ⟨h2, h2'⟩
        · exact Or.inl (by omega)
        · exact Or.inl (by omega)
        · exact Or.inl (by omega)
        · exact Or.inr ⟨by omega, ih _ _ h1' h2'⟩

theorem snapshotsNewestFirst_sorted (names : List String) :
    (snapshotsNewestFirst names).Pairwise (fun a b => nameLE b a) := by
  haveI : IsTotal String nameLE := ⟨fun _ _ => unitsLE_total _ _⟩
  haveI : IsTrans String nameLE := ⟨fun _ _ _ => unitsLE_trans _ _ _⟩
  simp only [snapshotsNewestFirst, List.pairwise_reverse]
  exact List.sorted_insertionSort nameLE _

theorem mem_take_iff_of_nodup (l : List String) (k : Nat) (n : String) (h : l.Nodup) :
    n ∈ l.take k ↔ n ∈ l ∧ n ∉ l.drop k := by
  have hsplit := List.take_append_drop k l
  have hd : List.Disjoint (l.take k) (l.drop k) := by
    rw [← hsplit] at h
    exact (List.nodup_append.1 h).2.2
  constructor
  · intro hn
    exact ⟨List.mem_of_mem_take hn, fun hd' => hd hn hd'⟩
  · rintro ⟨hn, hnd⟩
    rw [← hsplit] at hn
    rcases List.mem_append.1 hn with h' | h'
    · exact h'
    · exact absurd h' hnd

theorem take_ge_drop (names : List String) (k : Nat) (a b : String)
    (ha : a ∈ (snapshotsNewestFirst names).take k) (hb : b ∈ (snapshotsNewestFirst names).drop k) :
    nameLE b a := by
  have hs := snapshotsNewestFirst_sorted names
  rw [← List.take_append_drop k (snapshotsNewestFirst names), List.pairwise_append] at hs
  exact hs.2.2 a ha b hb

theorem lookupFile_afterBackup (env : Env) (iso c n : String) (backups : List (String × String)) :
    lookupFile n (afterBackup env iso c backups) =
      if n ∈ (snapshotsNewestFirst ((storeFile (backupName iso) c backups).map Prod.fst)).drop
          env.MAX_BACKUPS.toNat then none
      else if n = backupName iso then some c else lookupFile n backups := by
  unfold afterBackup
  split
  · rename_i h
    rw [lookupFile_filter_none n (fun m => !((snapshotsNewestFirst
      ((storeFile (backupName iso) c backups).map Prod.fst)).drop env.MAX_BACKUPS.toNat).contains m)]
    simpa using h
  · rename_i h
    rw [lookupFile_filter_ne n (fun m => !((snapshotsNewestFirst
      ((storeFile (backupName iso) c backups).map Prod.fst)).drop env.MAX_BACKUPS.toNat).contains m),
      lookupFile_storeFile]
    simpa using h

theorem head_of_greatest (l : List String) (x : String) (hs : l.Pairwise (fun a b => nameLE b a))
    (hx : x ∈ l) (hgt : ∀ m ∈ l, m ≠ x → nameLT m x) : ∃ t, l = x :: t := by
  cases l with
  | nil => simp at hx
  | cons y t =>
    by_cases hy : y = x
    · exact ⟨t, by rw [hy]⟩
    · exfalso
      have hxt : x ∈ t := by
        rcases List.mem_cons.1 hx with h | h
        · exact absurd h.symm hy
        · exact h
      have h1 : nameLE x y := (List.pairwise_cons.1 hs).1 x hxt
      exact (hgt y (List.mem_cons_self _ _) hy).2 h1
theorem mem_map_fst_storeFile (m c n : String) (l : List (String × String)) :
    n ∈ (storeFile m c l).map Prod.fst ↔ n = m ∨ n ∈ l.map Prod.fst := by
  rw [map_fst_storeFile]
  split
  · rename_i h
    constructor
    · exact Or.inr
    · rintro (rfl | h')
      · exact h
      · exact h'
  · simp only [List.mem_append, List.mem_singleton]
    exact or_comm

theorem nameLT_irrefl (a : String) : ¬ nameLT a a := fun h => h.2 h.1

theorem fresh_not_mem (iso : String) (names : List String)
    (hfresh : ∀ n ∈ names, isBackupName n = true → nameLT n (backupName iso)) :
    backupName iso ∉ names :=
  fun h => nameLT_irrefl _ (hfresh _ h (isBackupName_backupName iso))

theorem fresh_not_dropped (env : Env) (iso c : String) (backups : List (String × String))
    (hnd : (backups.map Prod.fst).Nodup)
    (hfresh : ∀ n ∈ backups.map Prod.fst, isBackupName n = true → nameLT n (backupName iso))
    (hmax : 1 ≤ env.MAX_BACKUPS) :
    backupName iso ∉ (snapshotsNewestFirst ((storeFile (backupName iso) c backups).map
      Prod.fst)).drop env.MAX_BACKUPS.toNat := by
  have hnew := fresh_not_mem iso _ hfresh
  have hnd' : ((storeFile (backupName iso) c backups).map Prod.fst).Nodup := by
    rw [map_fst_storeFile, if_neg hnew, List.nodup_append]
    refine ⟨hnd, by simp, ?_⟩
    intro a ha hb
    simp only [List.mem_singleton] at hb
    exact hnew (hb ▸ ha)
  have hL := nodup_snapshotsNewestFirst _ hnd'
  obtain ⟨t, ht⟩ := head_of_greatest _ (backupName iso) (snapshotsNewestFirst_sorted _)
    ((mem_snapshotsNewestFirst _ _).2
      ⟨(mem_map_fst_storeFile _ _ _ _).2 (Or.inl rfl), isBackupName_backupName iso⟩)
    (by
      intro m hm hne
      obtain ⟨hm1, hm2⟩ := (mem_snapshotsNewestFirst _ _).1 hm
      rcases (mem_map_fst_storeFile _ _ _ _).1 hm1 with h | h
      · exact absurd h hne
      · exact hfresh m h hm2)
  rw [ht] at hL ⊢
  obtain ⟨k, hk⟩ : ∃ k, env.MAX_BACKUPS.toNat = k + 1 := ⟨env.MAX_BACKUPS.toNat - 1, by omega⟩
  rw [hk, List.drop_succ_cons]
  intro h
  exact (List.nodup_cons.1 hL).1 (List.mem_of_mem_drop h)

theorem unlinkAll_frame (env : Env) (l : List String) (fs : FS)
    (hmem : ∀ n ∈ l, isPlainName n = true ∧ isBackupName n = true) :
    (unlinkAll env l fs).2.config = fs.config ∧ (unlinkAll env l fs).2.other = fs.other ∧
      (unlinkAll env l fs).2.nodes = fs.nodes ∧ (unlinkAll env l fs).2.denied = fs.denied := by
  induction l generalizing fs with
  | nil => simp [unlinkAll]
  | cons f rest ih =>
    obtain ⟨hfp, hfb⟩ := hmem f (List.mem_cons_self _ _)
    rw [unlinkAll]
    simp only [unlink, locate_backup env f hfp (isBackupName_ne_config f hfb)]
    by_cases hden : fs.denied (pathJoin env.BACKUP_DIR f) = true
    · simp [hden]
    · by_cases hex : (lookupFile f fs.backups).isSome = true
      · simp only [hden, hex, if_true, if_false]
        exact ih _ (fun n hn => hmem n (List.mem_cons_of_mem _ hn))
      · simp [hden, hex]

theorem createBackup_frame (env : Env) (iso : String) (fs : FS) (hwf : fs.WellFormed)
    (hiso : '/' ∉ iso.data) :
    (createBackup env iso fs).2.config = fs.config ∧
      (createBackup env iso fs).2.other = fs.other ∧
      (createBackup env iso fs).2.nodes = fs.nodes ∧
      (createBackup env iso fs).2.denied = fs.denied := by
  have hpl := isPlainName_backupName iso hiso
  have hbn := isBackupName_backupName iso
  simp only [createBackup, ensureBackupDir, readFile_config]
  cases hc : fs.config with
  | none => simp [hc]
  | some c =>
    have hwf1 := wellFormed_storeFile fs (backupName iso) c hwf hpl
    by_cases hden : fs.denied (pathJoin env.BACKUP_DIR (backupName iso)) = true
    · simp [writeFile, hden, hc]
    · have hden' : fs.denied (pathJoin env.BACKUP_DIR (backupName iso)) = false := by
        simpa using hden
      simp only [writeFile, hden', Bool.false_eq_true, ↓reduceIte,
        locate_backup env _ hpl (isBackupName_ne_config _ hbn)]
      split
      · split
        · simp [hc]
        · have hf := unlinkAll_frame env
            ((jsSort (List.filter isBackupName (readdir
              { fs with backups := storeFile (backupName iso) c fs.backups }))).reverse.drop
                env.MAX_BACKUPS.toNat)
            { fs with backups := storeFile (backupName iso) c fs.backups }
            (by
              intro n hn
              have := (mem_snapshotsNewestFirst _ _).1 (List.mem_of_mem_drop hn)
              exact ⟨hwf1.2 n this.1, this.2⟩)
          split <;> (rename_i heq; rw [heq] at hf; simpa [hc] using hf)
      · simp [hc]
/-! ## Handlers: lemmas -/

theorem getProp_of_not_nullish (v : JSValue) (k : String) (h : v.isNullish = false) :
    getProp v k = .ok (v.field k) := by
  cases v <;> simp_all [getProp, JSValue.field, JSValue.isNullish]

theorem clientsValid_false (cs : List JSValue)
    (hn : ∀ c ∈ cs, c.isNullish = false ∧ (c.field "ip").converts = true)
    (hbad : ∃ c ∈ cs, validateIP (c.field "ip") = .ok false ∨
      isPermission (c.field "permission") = false) :
    clientsValid cs = .ok false := by
  induction cs with
  | nil => simp at hbad
  | cons c cs ih =>
    obtain ⟨hc, hconv⟩ := hn c (List.mem_cons_self _ _)
    obtain ⟨b, hb⟩ := validateIP_of_converts _ hconv
    simp only [clientsValid, getProp_of_not_nullish c _ hc, hb]
    by_cases hv : b = true ∧ isPermission (c.field "permission") = true
    · simp only [hv.1, hv.2, Bool.not_true, Bool.or_self, Bool.false_eq_true, if_false]
      apply ih (fun x hx => hn x (List.mem_cons_of_mem _ hx))
      obtain ⟨x, hx, hbx⟩ := hbad
      rcases List.mem_cons.1 hx with rfl | hx'
      · rcases hbx with hbx | hbx
        · rw [hb, hv.1] at hbx; cases hbx
        · rw [hv.2] at hbx; cases hbx
      · exact ⟨x, hx', hbx⟩
    · have : (!b || !isPermission (c.field "permission")) = true := by
        cases b <;> cases h2 : isPermission (c.field "permission") <;> simp_all
      simp [this]

theorem clientsValid_true (cs : List JSValue)
    (h : ∀ c ∈ cs, c.isNullish = false ∧ validateIP (c.field "ip") = .ok true ∧
      isPermission (c.field "permission") = true) :
    clientsValid cs = .ok true := by
  induction cs with
  | nil => rfl
  | cons c cs ih =>
    obtain ⟨hc, h1, h2⟩ := h c (List.mem_cons_self _ _)
    simp only [clientsValid, getProp_of_not_nullish c _ hc, h1, h2, Bool.not_true, Bool.or_self,
      Bool.false_eq_true, if_false]
    exact ih (fun x hx => h x (List.mem_cons_of_mem _ hx))

theorem invalidExportInput_rejected (path clients : JSValue) (fs : FS)
    (onward : Result) (h : InvalidExportInput path clients) :
    ∃ msg,
      (if !validatePath path then
          ({ response := some (errorResponse 400 "Invalid path"), fs := fs } : Result)
        else
          match clients with
          | .arr (c :: cs) =>
            match clientsValid (c :: cs) with
            | .error _ => { response := none, fs := fs }
            | .ok false =>
              { response := some (errorResponse 400 "Invalid client configuration"), fs := fs }
            | .ok true => onward
          | _ =>
            { response := some (errorResponse 400 "At least one client must be specified"),
              fs := fs }) = { response := some (errorResponse 400 msg), fs := fs } := by
  by_cases hp : validatePath path = true
  · simp only [hp, Bool.not_true, Bool.false_eq_true, if_false]
    rcases h with h | ⟨cs, rfl, hn, hbad⟩
    · rw [hp] at h; cases h
    · cases cs with
      | nil => simp at hbad
      | cons c cs =>
        simp only [clientsValid_false (c :: cs) hn hbad]
        exact ⟨_, rfl⟩
  · have : validatePath path = false := by simpa using hp
    simp only [this, Bool.not_false, if_true]
    exact ⟨_, rfl⟩

/-! ## C3: invalid input is refused without side effect -/

/-- Where no check throws, invalid input is refused: a call of create,
replace-clients or add-client whose path is refused by `validatePath`, or whose
clients are records with ips that can be converted to a string, one of them with
an ip refused by `validateIP` or a permission other than `ro` and `rw`, is
answered with status 400 and leaves the whole file system, configuration file
and backup directory included, as it was. -/
theorem invalid_input_rejected (env : Env) (J : Json) (clock : Clock) (req : Request) (fs : FS)
    (h : req.Invalid) :
    ∃ msg, handle env J clock req fs = { response := some (errorResponse 400 msg), fs := fs } := by
  cases req with
  | create path clients => exact invalidExportInput_rejected path clients fs _ h
  | replaceClients exportPath clients =>
    exact invalidExportInput_rejected (.str exportPath) clients fs _ h
  | addClient exportPath ip permission =>
    simp only [handle, addClient]
    by_cases hp : validatePath (.str exportPath) = true
    · simp only [hp, Bool.not_true, Bool.false_eq_true, if_false]
      split
      · exact ⟨_, rfl⟩
      · have hconv : ip.converts = true := by
          rcases h with h | h | h
          · rw [hp] at h; cases h
          · exact converts_of_validateIP _ _ h
          · exact h.1
        obtain ⟨b, hb⟩ := validateIP_of_converts _ hconv
        cases b with
        | true =>
          simp only [hb]
          by_cases hq : isPermission permission = true
          · rcases h with h | h | h
            · rw [hp] at h; cases h
            · rw [hb] at h; cases h
            · rw [hq] at h; cases h.2
          · have : isPermission permission = false := by simpa using hq
            simp only [this, Bool.not_false, if_true]
            exact ⟨_, rfl⟩
        | false =>
          simp only [hb]
          exact ⟨_, rfl⟩
    · have : validatePath (.str exportPath) = false := by simpa using hp
      simp only [this, Bool.not_false, if_true]
      exact ⟨_, rfl⟩
  | deleteExport _ => exact absurd h (by simp [Request.Invalid])
  | removeClient _ _ => exact absurd h (by simp [Request.Invalid])
  | restore _ => exact absurd h (by simp [Request.Invalid])

set_option maxRecDepth 100000 in
/-- The three examples of the specification, an invalid path `relative/path`, an
invalid ip `999.1.1.1` and an invalid permission `execute`, on the example file
system. -/
theorem invalid_input_rejected_witness :
    (∃ msg, handle defaultEnv (exampleJson .null .null "" "" isExampleDoc) exampleClock
        (.create (.str "relative/path") (.arr exampleClients)) exampleFS =
      { response := some (errorResponse 400 msg), fs := exampleFS }) ∧
    (∃ msg, handle defaultEnv (exampleJson .null .null "" "" isExampleDoc) exampleClock
        (.replaceClients "/srv/nfs"
          (.arr [.obj [("ip", .str "999.1.1.1"), ("permission", .str "rw")]])) exampleFS =
      { response := some (errorResponse 400 msg), fs := exampleFS }) ∧
    (∃ msg, handle defaultEnv (exampleJson .null .null "" "" isExampleDoc) exampleClock
        (.addClient "/srv/nfs" (.str "10.0.0.2") (.str "execute")) exampleFS =
      { response := some (errorResponse 400 msg), fs := exampleFS }) :=
  ⟨invalid_input_rejected _ _ _ _ _ (Or.inl (by decide)),
    invalid_input_rejected _ _ _ _ _
      (Or.inr ⟨_, rfl, by decide, _, List.mem_cons_self _ _, Or.inl (by decide)⟩),
    invalid_input_rejected _ _ _ _ _ (Or.inr (Or.inr ⟨by rfl, by decide⟩))⟩

set_option maxRecDepth 100000 in
/-- C3 (defect of the code): create, replace-clients and add-client called with
a client whose ip is the object `unconvertible` and whose permission is
`execute`, which is not `ro` or `rw`.  `validateIP` throws while it converts the
ip to a string; the checks stand before the `try` block of the handler, so the
exception ends the handler and no response is sent, where the claim has the
answer 400.  The same happens with the permission `ro`, and with a `null` entry
in front of a client with the invalid ip `999.1.1.1`.  The file system is left
as it was. -/
theorem unconvertible_ip_gets_no_response :
    validateIP unconvertible =
      .error (.typeError "Cannot convert object to primitive value") ∧
    isPermission (.str "execute") = false ∧
    handle defaultEnv (exampleJson .null .null "" "" isExampleDoc) exampleClock
        (.create (.str "/srv/nfs")
          (.arr [.obj [("ip", unconvertible), ("permission", .str "execute")]])) exampleFS =
      { response := none, fs := exampleFS } ∧
    handle defaultEnv (exampleJson .null .null "" "" isExampleDoc) exampleClock
        (.replaceClients "/srv/nfs"
          (.arr [.obj [("ip", unconvertible), ("permission", .str "execute")]])) exampleFS =
      { response := none, fs := exampleFS } ∧
    handle defaultEnv (exampleJson .null .null "" "" isExampleDoc) exampleClock
        (.addClient "/srv/nfs" unconvertible (.str "execute")) exampleFS =
      { response := none, fs := exampleFS } ∧
    handle defaultEnv (exampleJson .null .null "" "" isExampleDoc) exampleClock
        (.create (.str "/srv/nfs")
          (.arr [.obj [("ip", unconvertible), ("permission", .str "ro")]])) exampleFS =
      { response := none, fs := exampleFS } ∧
    handle defaultEnv (exampleJson .null .null "" "" isExampleDoc) exampleClock
        (.create (.str "/srv/nfs")
          (.arr [.null, .obj [("ip", .str "999.1.1.1"), ("permission", .str "rw")]]))
        exampleFS =
      { response := none, fs := exampleFS } :=
  ⟨by rfl, by rfl, by rfl, by rfl, by rfl, by rfl, by rfl⟩

theorem lookup_assign_self (k : String) (x : JSValue) (kvs : List (String × JSValue)) :
    JSValue.lookup k (JSValue.assign k x kvs) = x := by
  induction kvs with
  | nil => simp [JSValue.assign, JSValue.lookup]
  | cons e kvs ih =>
    obtain ⟨k', v⟩ := e
    by_cases h : k' = k
    · simp [JSValue.assign, JSValue.lookup, h]
    · simp [JSValue.assign, JSValue.lookup, h, ih]

theorem lookup_assign_ne (k k' : String) (x : JSValue) (kvs : List (String × JSValue))
    (hne : k ≠ k') : JSValue.lookup k (JSValue.assign k' x kvs) = JSValue.lookup k kvs := by
  induction kvs with
  | nil =>
    have : ¬ k' = k := fun e => hne e.symm
    simp [JSValue.assign, JSValue.lookup, this]
  | cons e kvs ih =>
    obtain ⟨k'', v⟩ := e
    by_cases h : k'' = k'
    · subst h
      have : ¬ k'' = k := fun e => hne e.symm
      simp [JSValue.assign, JSValue.lookup, this]
    · by_cases h2 : k'' = k
      · subst h2
        simp [JSValue.assign, JSValue.lookup, h]
      · simp [JSValue.assign, JSValue.lookup, h, h2, ih]

theorem field_eq_arr (doc : JSValue) (k : String) (xs : List JSValue)
    (h : doc.field k = .arr xs) : ∃ kvs, doc = .obj kvs ∧ JSValue.lookup k kvs = .arr xs := by
  cases doc <;> simp_all [JSValue.field]

theorem exportsOf_of_field (doc : JSValue) (exps : List JSValue)
    (h : doc.field "exports" = .arr exps) : exportsOf doc = .ok exps := by
  obtain ⟨kvs, rfl, hk⟩ := field_eq_arr doc _ _ h
  simp [exportsOf, getProp, hk]

theorem clientsOf_of_field (e : JSValue) (cs : List JSValue)
    (h : e.field "clients" = .arr cs) : clientsOf e = .ok cs := by
  obtain ⟨kvs, rfl, hk⟩ := field_eq_arr e _ _ h
  simp [clientsOf, getProp, hk]

theorem findM_none (p : JSValue → Except JSError Bool) (xs : List JSValue)
    (h : ∀ x ∈ xs, p x = .ok false) : findM p xs = .ok .undefined := by
  induction xs with
  | nil => rfl
  | cons x xs ih =>
    simp only [findM, h x (List.mem_cons_self _ _)]
    exact ih (fun y hy => h y (List.mem_cons_of_mem _ hy))

theorem findIndexM_none (p : JSValue → Except JSError Bool) (xs : List JSValue)
    (h : ∀ x ∈ xs, p x = .ok false) : findIndexM p xs = .ok none := by
  induction xs with
  | nil => rfl
  | cons x xs ih =>
    simp only [findIndexM, h x (List.mem_cons_self _ _),
      ih (fun y hy => h y (List.mem_cons_of_mem _ hy))]
    rfl

theorem hasPath_of_not_nullish (path e : JSValue) (h : e.isNullish = false) :
    hasPath path e = .ok (strictEq (e.field "path") path) := by
  simp [hasPath, getProp_of_not_nullish e _ h]

theorem hasIp_of_not_nullish (ip c : JSValue) (h : c.isNullish = false) :
    hasIp ip c = .ok (strictEq (c.field "ip") ip) := by
  simp [hasIp, getProp_of_not_nullish c _ h]

theorem touch_obj (kvs md : List (String × JSValue)) (iso : String)
    (hmd : JSValue.lookup "metadata" kvs = .obj md) :
    touch (.obj kvs) iso =
      .ok (.obj (JSValue.assign "metadata"
        (.obj (JSValue.assign "lastModified" (.str iso) md)) kvs)) := by
  simp [touch, getProp, setProp, hmd]

theorem validatePath_str (p : JSValue) (h : validatePath p = true) :
    ∃ s, p = .str s ∧ s ≠ "" := by
  cases p <;> simp_all [validatePath, JSValue.truthy, JSValue.isString]
theorem createSteps_ok (path clients : JSValue) (isoNow b : String)
    (kvs md : List (String × JSValue)) (exps : List JSValue)
    (hexps : JSValue.lookup "exports" kvs = .arr exps)
    (hmd : JSValue.lookup "metadata" kvs = .obj md)
    (hrec : ∀ e ∈ exps, e.isNullish = false ∧ strictEq (e.field "path") path = false) :
    createSteps path clients isoNow (.obj kvs) b =
      .ok (.save (withNewExport kvs md exps path clients isoNow)
        { status := 200
          body := .obj [("message", .str "Export created successfully"),
            ("export", .obj [("path", path), ("clients", clients)]),
            ("backup", .str b)] } false) := by
  have h1 : exportsOf (.obj kvs) = .ok exps := exportsOf_of_field _ _ (by simpa [JSValue.field])
  have h2 : findM (hasPath path) exps = .ok .undefined :=
    findM_none _ _ (fun e he => by
      rw [hasPath_of_not_nullish path e (hrec e he).1, (hrec e he).2])
  have h3 : JSValue.lookup "metadata"
      (JSValue.assign "exports"
        (.arr (exps ++ [.obj [("path", path), ("clients", clients)]])) kvs) = .obj md := by
    rw [lookup_assign_ne _ _ _ _ (by decide), hmd]
  simp only [createSteps, h1, h2, JSValue.truthy, Bool.false_eq_true, if_false, setProp,
    touch_obj _ md isoNow h3, withNewExport]

theorem commit_save_ok (env : Env) (J : Json) (failure : String) (fs : FS) (config : JSValue)
    (r : Response) (f : Bool) (hw : fs.denied env.CONFIG_FILE = false) :
    commit env J failure fs (.ok (.save config r f)) =
      { response := some r, fs := { fs with config := some (J.stringify config) } } := by
  simp [commit, writeFile_config env fs _ hw]

theorem readConfig_of_parse (env : Env) (J : Json) (fs : FS) (content : String) (doc : JSValue)
    (hc : fs.config = some content) (hp : J.parse content = some doc) :
    readConfig env J fs = doc := by
  simp [readConfig, readFile_config, hc, hp]

theorem parseExportsFile_of_parse (env : Env) (J : Json) (fs : FS) (content : String)
    (doc : JSValue) (exps : List JSValue) (hc : fs.config = some content)
    (hp : J.parse content = some doc) (he : doc.field "exports" = .arr exps) :
    parseExportsFile env J fs = parseExports 0 exps := by
  obtain ⟨kvs, rfl, hk⟩ := field_eq_arr doc _ _ he
  simp [parseExportsFile, readFile_config, hc, hp, getProp, hk]

theorem parseExports_append (i : Nat) (xs ys : List JSValue) :
    (parseExports i (xs ++ ys)).exports =
      (parseExports i xs).exports ++ (parseExports (i + xs.length) ys).exports := by
  induction xs generalizing i with
  | nil => simp [parseExports]
  | cons x xs ih =>
    have : i + 1 + xs.length = i + (xs.length + 1) := by omega
    rw [List.cons_append]
    simp only [parseExports, List.length_cons, List.append_assoc]
    rw [ih, this]

theorem parseExport_path (i : Nat) (e x : JSValue) (h : (parseExport i e).2 = some x) :
    x.field "path" = e.field "path" ∧
      ∃ c cs, x.field "clients" = .arr (c :: cs) := by
  unfold parseExport at h
  cases e <;> simp [getProp] at h
  rename_i kvs
  split at h
  · split at h
    · simp at h
    · split at h
      · simp at h
      · simp at h
      · simp only [Option.some.injEq] at h
        subst h
        simp [JSValue.field, JSValue.lookup]
  · simp at h

theorem parseExports_mem (i : Nat) (exps : List JSValue) (x : JSValue)
    (h : x ∈ (parseExports i exps).exports) :
    (∃ e ∈ exps, x.field "path" = e.field "path") ∧
      ∃ c cs, x.field "clients" = .arr (c :: cs) := by
  induction exps generalizing i with
  | nil => simp [parseExports] at h
  | cons e exps ih =>
    simp only [parseExports, List.mem_append, Option.mem_toList, Option.mem_def] at h
    rcases h with h | h
    · obtain ⟨hp, hc⟩ := parseExport_path i e x h
      exact ⟨⟨e, List.mem_cons_self _ _, hp⟩, hc⟩
    · obtain ⟨⟨e', he', hp⟩, hc⟩ := ih _ h
      exact ⟨⟨e', List.mem_cons_of_mem _ he', hp⟩, hc⟩
theorem validateIP_truthy (v : JSValue) (h : validateIP v = .ok true) : v.truthy = true := by
  cases v with
  | undefined => exact absurd h (by decide)
  | null => exact absurd h (by decide)
  | bool b =>
    cases b
    · exact absurd h (by decide)
    · rfl
  | num n =>
    by_cases hn : n = 0
    · subst hn
      exact absurd h (by decide)
    · simpa [JSValue.truthy] using hn
  | str s =>
    by_cases hs : s = ""
    · subst hs
      exact absurd h (by decide)
    · simpa [JSValue.truthy] using hs
  | arr _ => rfl
  | obj _ => rfl

theorem isPermission_iff (v : JSValue) :
    isPermission v = true ↔ v = .str "ro" ∨ v = .str "rw" := by
  cases v with
  | str s =>
    simp only [isPermission, strictEq, Bool.or_eq_true, beq_iff_eq, JSValue.str.injEq]
    constructor
    · rintro (h | h)
      · exact Or.inl h.symm
      · exact Or.inr h.symm
    · rintro (h | h)
      · exact Or.inl h.symm
      · exact Or.inr h.symm
  | undefined => simp [isPermission, strictEq]
  | null => simp [isPermission, strictEq]
  | bool _ => simp [isPermission, strictEq]
  | num _ => simp [isPermission, strictEq]
  | arr _ => simp [isPermission, strictEq]
  | obj _ => simp [isPermission, strictEq]

theorem isPermission_truthy (v : JSValue) (h : isPermission v = true) : v.truthy = true := by
  rcases (isPermission_iff v).1 h with rfl | rfl <;> decide

theorem parseClient_valid (i : Nat) (c : JSValue) (hn : c.isNullish = false)
    (hip : validateIP (c.field "ip") = .ok true)
    (hperm : isPermission (c.field "permission") = true) :
    parseClient i c = .ok (.inr (clientRecord c)) := by
  simp [parseClient, getProp_of_not_nullish c _ hn, validateIP_truthy _ hip,
    isPermission_truthy _ hperm, hip, hperm, clientRecord]

theorem parseClients_valid (i : Nat) (cs : List JSValue)
    (h : ∀ c ∈ cs, c.isNullish = false ∧ validateIP (c.field "ip") = .ok true ∧
      isPermission (c.field "permission") = true) :
    parseClients i cs = ([], .ok (cs.map clientRecord)) := by
  induction cs with
  | nil => rfl
  | cons c cs ih =>
    obtain ⟨hn, hip, hperm⟩ := h c (List.mem_cons_self _ _)
    simp [parseClients, parseClient_valid i c hn hip hperm,
      ih (fun x hx => h x (List.mem_cons_of_mem _ hx))]

theorem parseExport_new (i : Nat) (path : JSValue) (cs : List JSValue)
    (hpath : validatePath path = true) (hne : cs ≠ [])
    (h : ∀ c ∈ cs, c.isNullish = false ∧ validateIP (c.field "ip") = .ok true ∧
      isPermission (c.field "permission") = true) :
    parseExport i (.obj [("path", path), ("clients", .arr cs)]) =
      ([], some (.obj [("path", path), ("clients", .arr (cs.map clientRecord)),
        ("metadata", .obj [])])) := by
  obtain ⟨s, rfl, hs⟩ := validatePath_str path hpath
  cases cs with
  | nil => exact absurd rfl hne
  | cons c cs =>
    have hpc := parseClients_valid i (c :: cs) h
    simp only [List.map_cons] at hpc
    simp [parseExport, getProp, JSValue.lookup, JSValue.truthy, hs, hpc, metadataOrEmpty]

theorem strictEq_self_of_validatePath (path : JSValue) (h : validatePath path = true) :
    strictEq path path = true := by
  obtain ⟨s, rfl, -⟩ := validatePath_str path h
  simp [strictEq]
theorem createExport_ok (env : Env) (J : Json) (clock : Clock) (path : JSValue)
    (cs : List JSValue) (fs : FS) (content : String) (kvs md : List (String × JSValue))
    (exps : List JSValue)
    (hwf : fs.WellFormed) (hw : fs.Writable) (hiso : '/' ∉ clock.first.data)
    (hmax : 0 ≤ env.MAX_BACKUPS)
    (hpath : validatePath path = true) (hne : cs ≠ [])
    (hcs : ∀ c ∈ cs, c.isNullish = false ∧ validateIP (c.field "ip") = .ok true ∧
      isPermission (c.field "permission") = true)
    (hhost : accessValue env fs path = .ok ())
    (hcfg : fs.config = some content) (hdoc : J.parse content = some (.obj kvs))
    (hexps : JSValue.lookup "exports" kvs = .arr exps)
    (hmd : JSValue.lookup "metadata" kvs = .obj md)
    (hrec : ∀ e ∈ exps, e.isNullish = false ∧ strictEq (e.field "path") path = false) :
    createExport env J clock path (.arr cs) fs =
      { response := some
          { status := 200
            body := .obj [("message", .str "Export created successfully"),
              ("export", .obj [("path", path), ("clients", .arr cs)]),
              ("backup", .str (pathJoin env.BACKUP_DIR (backupName clock.first)))] }
        fs := { fs with
          backups := afterBackup env clock.first content fs.backups
          config := some (J.stringify
            (withNewExport kvs md exps path (.arr cs) clock.second)) } } := by
  cases cs with
  | nil => exact absurd rfl hne
  | cons c cs =>
    have hcv := clientsValid_true (c :: cs) hcs
    have hcb := createBackup_ok env clock.first content fs hwf hw hcfg hiso hmax
    have hrc : readConfig env J { fs with backups := afterBackup env clock.first content fs.backups }
        = .obj kvs := readConfig_of_parse env J _ content _ hcfg hdoc
    simp only [createExport, hpath, Bool.not_true, Bool.false_eq_true, if_false, hcv, hhost,
      withBackup, hcb, hrc, createSteps_ok path (.arr (c :: cs)) clock.second _ kvs md exps hexps
        hmd hrec]
    rw [commit_save_ok env J _
      { fs with backups := afterBackup env clock.first content fs.backups } _ _ _ (hw _)]

/-! ## C4: create, then load -/

/-- C4: for a valid path and a non-empty list of valid clients, starting from a
stored document with an `exports` array of records, none of which has that
path, and a `metadata` map, with the path present on the host, create answers
200, and a following load returns exactly one export with that path, whose
clients are the supplied ip/permission pairs in order.  The file system is
assumed to work (well-formed directory listing, nothing write-protected, a
timestamp without separator, a retention count that is not negative) and the
serializer to round-trip the document that is saved. -/
theorem create_then_load (env : Env) (J : Json) (clock : Clock) (path : JSValue)
    (cs : List JSValue) (fs : FS) (content : String) (kvs md : List (String × JSValue))
    (exps : List JSValue)
    (hwf : fs.WellFormed) (hw : fs.Writable) (hiso : '/' ∉ clock.first.data)
    (hmax : 0 ≤ env.MAX_BACKUPS)
    (hpath : validatePath path = true) (hne : cs ≠ [])
    (hcs : ∀ c ∈ cs, c.isNullish = false ∧ validateIP (c.field "ip") = .ok true ∧
      isPermission (c.field "permission") = true)
    (hhost : accessValue env fs path = .ok ())
    (hcfg : fs.config = some content) (hdoc : J.parse content = some (.obj kvs))
    (hexps : JSValue.lookup "exports" kvs = .arr exps)
    (hmd : JSValue.lookup "metadata" kvs = .obj md)
    (hrec : ∀ e ∈ exps, e.isNullish = false ∧ strictEq (e.field "path") path = false)
    (hrt : J.parse (J.stringify (withNewExport kvs md exps path (.arr cs) clock.second)) =
      some (withNewExport kvs md exps path (.arr cs) clock.second)) :
    (∃ r, (createExport env J clock path (.arr cs) fs).response = some r ∧ r.status = 200) ∧
    (getExports env J (createExport env J clock path (.arr cs) fs).fs).exports.filter
        (fun e => strictEq (e.field "path") path) =
      [.obj [("path", path), ("clients", .arr (cs.map clientRecord)), ("metadata", .obj [])]] := by
  rw [createExport_ok env J clock path cs fs content kvs md exps hwf hw hiso hmax hpath hne hcs
    hhost hcfg hdoc hexps hmd hrec]
  refine ⟨⟨_, rfl, rfl⟩, ?_⟩
  have hfield : (withNewExport kvs md exps path (.arr cs) clock.second).field "exports" =
      .arr (exps ++ [.obj [("path", path), ("clients", .arr cs)]]) := by
    simp only [withNewExport, JSValue.field]
    rw [lookup_assign_ne _ _ _ _ (by decide), lookup_assign_self]
  rw [getExports, parseExportsFile_of_parse env J _ _ _ _ rfl hrt hfield, parseExports_append,
    List.filter_append]
  have hold : (parseExports 0 exps).exports.filter (fun e => strictEq (e.field "path") path)
      = [] := by
    rw [List.filter_eq_nil_iff]
    intro x hx
    obtain ⟨⟨e, he, hp⟩, -⟩ := parseExports_mem 0 exps x hx
    rw [hp, (hrec e he).2]
    simp
  rw [hold, List.nil_append]
  simp [parseExports, parseExport_new _ path cs hpath hne hcs, JSValue.field, JSValue.lookup,
    strictEq_self_of_validatePath path hpath]
set_option maxRecDepth 100000 in
/-- Witness of C4: creating `/srv/data` for `192.168.1.0/24` on the example file
system. -/
theorem create_then_load_witness :
    (∃ r, (createExport defaultEnv
        (exampleJson (.obj exampleKvs)
          (withNewExport exampleKvs [] exampleExports (.str "/srv/data") (.arr exampleClients)
            exampleClock.second) exampleText createdText isExampleDoc)
        exampleClock (.str "/srv/data") (.arr exampleClients) exampleFS).response = some r ∧
      r.status = 200) ∧
    (getExports defaultEnv
        (exampleJson (.obj exampleKvs)
          (withNewExport exampleKvs [] exampleExports (.str "/srv/data") (.arr exampleClients)
            exampleClock.second) exampleText createdText isExampleDoc)
        (createExport defaultEnv
          (exampleJson (.obj exampleKvs)
            (withNewExport exampleKvs [] exampleExports (.str "/srv/data") (.arr exampleClients)
              exampleClock.second) exampleText createdText isExampleDoc)
          exampleClock (.str "/srv/data") (.arr exampleClients) exampleFS).fs).exports.filter
        (fun e => strictEq (e.field "path") (.str "/srv/data")) =
      [.obj [("path", .str "/srv/data"), ("clients", .arr (exampleClients.map clientRecord)),
        ("metadata", .obj [])]] :=
  create_then_load defaultEnv _ exampleClock (.str "/srv/data") exampleClients exampleFS
    exampleText exampleKvs [] exampleExports
    (by simp [FS.WellFormed, readdir, exampleFS]) (fun _ => rfl) (by decide) (by decide)
    (by decide) (List.cons_ne_nil _ _) (by decide) (by rfl) rfl (by rfl) rfl rfl (by decide)
    (by rfl)
theorem strictEq_str_iff (a : JSValue) (s : String) :
    strictEq a (.str s) = true ↔ a = .str s := by
  cases a <;> simp [strictEq]

theorem truthy_of_field_str (x : JSValue) (k s : String) (h : x.field k = .str s) :
    x.truthy = true := by
  cases x <;> simp_all [JSValue.field, JSValue.truthy]

theorem findM_some (path : JSValue) (exps : List JSValue)
    (hall : ∀ x ∈ exps, x.isNullish = false)
    (hex : ∃ e ∈ exps, strictEq (e.field "path") path = true) :
    ∃ x ∈ exps, findM (hasPath path) exps = .ok x ∧ strictEq (x.field "path") path = true := by
  induction exps with
  | nil => simp at hex
  | cons y ys ih =>
    have hy := hall y (List.mem_cons_self _ _)
    simp only [findM, hasPath_of_not_nullish path y hy]
    cases hm : strictEq (y.field "path") path with
    | true => exact ⟨y, List.mem_cons_self _ _, rfl, hm⟩
    | false =>
      obtain ⟨e, he, hp⟩ := hex
      rcases List.mem_cons.1 he with rfl | he'
      · rw [hm] at hp; cases hp
      · obtain ⟨x, hx, hf, hxp⟩ := ih (fun z hz => hall z (List.mem_cons_of_mem _ hz)) ⟨e, he', hp⟩
        exact ⟨x, List.mem_cons_of_mem _ hx, hf, hxp⟩

/-! ## C5: create on an existing path -/

set_option maxRecDepth 100000 in
/-- C5 (as worded, refuted): the stored document holds the export `/srv/nfs`.
When the directory is no longer present on the host, create for `/srv/nfs`
answers 500 `Failed to create export`, not the conflict; and a create for that
path without clients answers the validation error. -/
theorem create_existing_path_not_always_conflict :
    exampleFS.config = some exampleText ∧
    (exampleJson (.obj exampleKvs) .null exampleText "null" isExampleDoc).parse exampleText =
      some (.obj exampleKvs) ∧
    (∃ e ∈ exampleExports, e.field "path" = .str "/srv/nfs") ∧
    createExport defaultEnv (exampleJson (.obj exampleKvs) .null exampleText "null" isExampleDoc)
        exampleClock (.str "/srv/nfs") (.arr exampleClients)
        { exampleFS with nodes := fun _ => false } =
      { response := some (errorResponse 500 "Failed to create export")
        fs := { exampleFS with nodes := fun _ => false } } ∧
    createExport defaultEnv (exampleJson (.obj exampleKvs) .null exampleText "null" isExampleDoc)
        exampleClock (.str "/srv/nfs") (.arr []) exampleFS =
      { response := some (errorResponse 400 "At least one client must be specified")
        fs := exampleFS } :=
  ⟨rfl, by rfl, ⟨_, List.mem_cons_self _ _, rfl⟩, by rfl, by rfl⟩

/-- C5 (amended): when the stored document already contains an export with the
given path, a create call that passes input validation, whose path is present on
the host and whose snapshot can be taken, answers 400 `Export already exists`,
and the content of the configuration file is unchanged. -/
theorem create_conflict (env : Env) (J : Json) (clock : Clock) (path : JSValue)
    (cs : List JSValue) (fs : FS) (content : String) (doc : JSValue) (exps : List JSValue)
    (hwf : fs.WellFormed) (hw : fs.Writable) (hiso : '/' ∉ clock.first.data)
    (hmax : 0 ≤ env.MAX_BACKUPS)
    (hpath : validatePath path = true) (hne : cs ≠ [])
    (hcs : ∀ c ∈ cs, c.isNullish = false ∧ validateIP (c.field "ip") = .ok true ∧
      isPermission (c.field "permission") = true)
    (hhost : accessValue env fs path = .ok ())
    (hcfg : fs.config = some content) (hdoc : J.parse content = some doc)
    (hexps : doc.field "exports" = .arr exps)
    (hall : ∀ x ∈ exps, x.isNullish = false)
    (hex : ∃ e ∈ exps, strictEq (e.field "path") path = true) :
    (createExport env J clock path (.arr cs) fs).response =
        some (errorResponse 400 "Export already exists") ∧
      (createExport env J clock path (.arr cs) fs).fs.config = fs.config := by
  cases cs with
  | nil => exact absurd rfl hne
  | cons c cs =>
    have hcv := clientsValid_true (c :: cs) hcs
    have hcb := createBackup_ok env clock.first content fs hwf hw hcfg hiso hmax
    have hrc : readConfig env J { fs with backups := afterBackup env clock.first content fs.backups }
        = doc := readConfig_of_parse env J _ content _ hcfg hdoc
    obtain ⟨x, -, hfind, hxp⟩ := findM_some path exps hall hex
    obtain ⟨s, rfl, -⟩ := validatePath_str path hpath
    have hxt : x.truthy = true := truthy_of_field_str x "path" s ((strictEq_str_iff _ _).1 hxp)
    simp [createExport, hpath, hcv, hhost, withBackup, hcb, hrc, createSteps,
      exportsOf_of_field doc exps hexps, hfind, hxt, commit]
set_option maxRecDepth 100000 in
/-- Witness of C5 (amended): creating `/srv/nfs` again on the example file
system. -/
theorem create_conflict_witness :
    (createExport defaultEnv (exampleJson (.obj exampleKvs) .null exampleText "null" isExampleDoc)
        exampleClock (.str "/srv/nfs") (.arr exampleClients) exampleFS).response =
        some (errorResponse 400 "Export already exists") ∧
      (createExport defaultEnv
        (exampleJson (.obj exampleKvs) .null exampleText "null" isExampleDoc)
        exampleClock (.str "/srv/nfs") (.arr exampleClients) exampleFS).fs.config =
        exampleFS.config :=
  create_conflict defaultEnv _ exampleClock (.str "/srv/nfs") exampleClients exampleFS
    exampleText (.obj exampleKvs) exampleExports
    (by simp [FS.WellFormed, readdir, exampleFS]) (fun _ => rfl) (by decide) (by decide)
    (by decide) (List.cons_ne_nil _ _) (by decide) (by rfl) rfl (by rfl) rfl (by decide)
    ⟨_, List.mem_cons_self _ _, by decide⟩

theorem findIndexM_at (p : JSValue → Except JSError Bool) (pre post : List JSValue)
    (e : JSValue) (hpre : ∀ x ∈ pre, p x = .ok false) (he : p e = .ok true) :
    findIndexM p (pre ++ e :: post) = .ok (some pre.length) := by
  induction pre with
  | nil => simp [findIndexM, he]
  | cons y ys ih =>
    have ih' := ih (fun z hz => hpre z (List.mem_cons_of_mem _ hz))
    rw [List.cons_append]
    simp only [findIndexM, hpre y (List.mem_cons_self _ _)]
    rw [ih']
    rfl

theorem getD_at (pre post : List JSValue) (e d : JSValue) :
    (pre ++ e :: post).getD pre.length d = e := by
  induction pre with
  | nil => rfl
  | cons y ys ih => simpa using ih

theorem eraseIdx_at (pre post : List JSValue) (e : JSValue) :
    (pre ++ e :: post).eraseIdx pre.length = pre ++ post := by
  induction pre with
  | nil => rfl
  | cons y ys ih => simpa using ih

theorem set_at (pre post : List JSValue) (e v : JSValue) :
    (pre ++ e :: post).set pre.length v = pre ++ v :: post := by
  induction pre with
  | nil => rfl
  | cons y ys ih => simp

theorem split_unique_path (exps : List JSValue) (e : JSValue) (s : String)
    (hnodup : (exps.map (fun x => x.field "path")).Nodup) (he : e ∈ exps)
    (hep : e.field "path" = .str s) :
    ∃ pre post, exps = pre ++ e :: post ∧
      ∀ x ∈ pre ++ post, strictEq (x.field "path") (.str s) = false := by
  obtain ⟨pre, post, rfl⟩ := List.append_of_mem he
  refine ⟨pre, post, rfl, ?_⟩
  intro x hx
  simp only [List.map_append, List.map_cons] at hnodup
  have h1 := List.nodup_append.1 hnodup
  have h2 := List.nodup_cons.1 h1.2.1
  cases hsx : strictEq (x.field "path") (.str s) with
  | false => rfl
  | true =>
    exfalso
    have hxp : x.field "path" = e.field "path" := by
      rw [hep]; exact (strictEq_str_iff _ _).1 hsx
    rcases List.mem_append.1 hx with hx | hx
    · exact h1.2.2 (List.mem_map_of_mem _ hx) (hxp ▸ List.mem_cons_self _ _)
    · exact h2.1 (hxp ▸ List.mem_map_of_mem _ hx)
theorem exportsOtherThan_split (s : String) (pre post : List JSValue) (e : JSValue)
    (hep : e.field "path" = .str s)
    (hothers : ∀ x ∈ pre ++ post, strictEq (x.field "path") (.str s) = false) :
    exportsOtherThan (.str s) (pre ++ e :: post) = pre ++ post := by
  have he : strictEq (e.field "path") (.str s) = true := (strictEq_str_iff _ _).2 hep
  have hpre : pre.filter (fun x => !strictEq (x.field "path") (.str s)) = pre :=
    List.filter_eq_self.2 (fun x hx => by simp [hothers x (List.mem_append_left _ hx)])
  have hpost : post.filter (fun x => !strictEq (x.field "path") (.str s)) = post :=
    List.filter_eq_self.2 (fun x hx => by simp [hothers x (List.mem_append_right _ hx)])
  simp [exportsOtherThan, List.filter_append, List.filter_cons, he, hpre, hpost]

theorem removeClientSteps_last (s : String) (ip : JSValue) (isoNow b : String)
    (kvs : List (String × JSValue)) (pre post : List JSValue) (e c : JSValue)
    (hexps : JSValue.lookup "exports" kvs = .arr (pre ++ e :: post))
    (hpre : ∀ x ∈ pre, x.isNullish = false ∧ strictEq (x.field "path") (.str s) = false)
    (hen : e.isNullish = false) (hep : e.field "path" = .str s)
    (hec : e.field "clients" = .arr [c]) (hcn : c.isNullish = false)
    (hcip : strictEq (c.field "ip") ip = true) :
    removeClientSteps (.str s) ip isoNow (.obj kvs) b =
      .ok (.save (withExports kvs (pre ++ post))
        { status := 200
          body := .obj [("message",
              .str "IP address removed and export deleted (no clients remaining)"),
            ("backup", .str b)] } true) := by
  have h1 : exportsOf (.obj kvs) = .ok (pre ++ e :: post) :=
    exportsOf_of_field _ _ (by simpa [JSValue.field])
  have h2 : findIndexM (hasPath (.str s)) (pre ++ e :: post) = .ok (some pre.length) :=
    findIndexM_at _ pre post e
      (fun x hx => by rw [hasPath_of_not_nullish _ x (hpre x hx).1, (hpre x hx).2])
      (by rw [hasPath_of_not_nullish _ e hen, (strictEq_str_iff _ _).2 hep])
  have h3 : findIndexM (hasIp ip) [c] = .ok (some 0) := by
    simp [findIndexM, hasIp_of_not_nullish ip c hcn, hcip]
  simp only [removeClientSteps, h1, h2, getD_at, clientsOf_of_field e [c] hec, h3, eraseIdx_at,
    setProp, withExports, List.eraseIdx_cons_zero, List.length_nil, if_true]

/-! ## C6: removing the last client deletes the export -/

/-- C6: with unique export paths in the stored document, removing the only
client of an export deletes the export: the call answers 200, a following load
lists no export with that path, and every export the load lists has at least one
client.  The file system is assumed to work and the serializer to round-trip the
document that is saved. -/
theorem remove_last_client_deletes_export (env : Env) (J : Json) (clock : Clock)
    (exportPath ip : JSValue) (fs : FS) (content : String) (kvs : List (String × JSValue))
    (exps : List JSValue) (e c : JSValue)
    (hwf : fs.WellFormed) (hw : fs.Writable) (hiso : '/' ∉ clock.first.data)
    (hmax : 0 ≤ env.MAX_BACKUPS)
    (hpath : validatePath exportPath = true) (hip : ip.truthy = true)
    (hcfg : fs.config = some content) (hdoc : J.parse content = some (.obj kvs))
    (hexps : JSValue.lookup "exports" kvs = .arr exps)
    (hall : ∀ x ∈ exps, x.isNullish = false)
    (hnodup : (exps.map (fun x => x.field "path")).Nodup)
    (he : e ∈ exps) (hep : e.field "path" = exportPath)
    (hec : e.field "clients" = .arr [c]) (hcn : c.isNullish = false)
    (hcip : strictEq (c.field "ip") ip = true)
    (hrt : J.parse (J.stringify (withExports kvs (exportsOtherThan exportPath exps))) =
      some (withExports kvs (exportsOtherThan exportPath exps))) :
    (removeClient env J clock exportPath ip fs).response =
        some { status := 200
               body := .obj [("message",
                   .str "IP address removed and export deleted (no clients remaining)"),
                 ("backup", .str (pathJoin env.BACKUP_DIR (backupName clock.first)))] } ∧
      ∀ x ∈ (getExports env J (removeClient env J clock exportPath ip fs).fs).exports,
        strictEq (x.field "path") exportPath = false ∧
          ∃ c' cs', x.field "clients" = .arr (c' :: cs') := by
  obtain ⟨s, rfl, -⟩ := validatePath_str exportPath hpath
  obtain ⟨pre, post, rfl, hothers⟩ := split_unique_path exps e s hnodup he hep
  have hcb := createBackup_ok env clock.first content fs hwf hw hcfg hiso hmax
  have hrc : readConfig env J { fs with backups := afterBackup env clock.first content fs.backups }
      = .obj kvs := readConfig_of_parse env J _ content _ hcfg hdoc
  have hsteps := removeClientSteps_last s ip clock.second
    (pathJoin env.BACKUP_DIR (backupName clock.first)) kvs pre post e c hexps
    (fun x hx => ⟨hall x (by simp [hx]), hothers x (List.mem_append_left _ hx)⟩)
    (hall e he) hep hec hcn hcip
  rw [exportsOtherThan_split s pre post e hep hothers] at hrt
  have hres : removeClient env J clock (.str s) ip fs =
      { response := some { status := 200
                           body := .obj [("message",
                               .str "IP address removed and export deleted (no clients remaining)"),
                             ("backup", .str (pathJoin env.BACKUP_DIR (backupName clock.first)))] }
        fs := { fs with
          backups := afterBackup env clock.first content fs.backups
          config := some (J.stringify (withExports kvs (pre ++ post))) } } := by
    simp only [removeClient, hpath, hip, Bool.not_true, Bool.false_eq_true, if_false, withBackup,
      hcb, hrc, hsteps]
    rw [commit_save_ok env J _
      { fs with backups := afterBackup env clock.first content fs.backups } _ _ _ (hw _)]
  rw [hres]
  refine ⟨rfl, ?_⟩
  have hfield : (withExports kvs (pre ++ post)).field "exports" = .arr (pre ++ post) := by
    simp only [withExports, JSValue.field]
    rw [lookup_assign_self]
  rw [getExports, parseExportsFile_of_parse env J _ _ _ _ rfl hrt hfield]
  intro x hx
  obtain ⟨⟨e', he', hp⟩, hc⟩ := parseExports_mem 0 _ x hx
  exact ⟨by rw [hp]; exact hothers e' he', hc⟩
set_option maxRecDepth 100000 in
/-- Witness of C6: removing `10.0.0.1`, the only client of `/srv/nfs`, on the
example file system. -/
theorem remove_last_client_deletes_export_witness :
    (removeClient defaultEnv
        (exampleJson (.obj exampleKvs) (withExports exampleKvs []) exampleText
          emptyExportsText isExampleDoc)
        exampleClock (.str "/srv/nfs") (.str "10.0.0.1") exampleFS).response =
        some { status := 200
               body := .obj [("message",
                   .str "IP address removed and export deleted (no clients remaining)"),
                 ("backup", .str (pathJoin defaultEnv.BACKUP_DIR
                   (backupName exampleClock.first)))] } ∧
      ∀ x ∈ (getExports defaultEnv
          (exampleJson (.obj exampleKvs) (withExports exampleKvs []) exampleText
            emptyExportsText isExampleDoc)
          (removeClient defaultEnv
            (exampleJson (.obj exampleKvs) (withExports exampleKvs []) exampleText
              emptyExportsText isExampleDoc)
            exampleClock (.str "/srv/nfs") (.str "10.0.0.1") exampleFS).fs).exports,
        strictEq (x.field "path") (.str "/srv/nfs") = false ∧
          ∃ c' cs', x.field "clients" = .arr (c' :: cs') :=
  remove_last_client_deletes_export defaultEnv _ exampleClock (.str "/srv/nfs")
    (.str "10.0.0.1") exampleFS exampleText exampleKvs exampleExports
    (.obj [("path", .str "/srv/nfs"),
      ("clients", .arr [.obj [("ip", .str "10.0.0.1"), ("permission", .str "rw")]])])
    (.obj [("ip", .str "10.0.0.1"), ("permission", .str "rw")])
    (by simp [FS.WellFormed, readdir, exampleFS]) (fun _ => rfl) (by decide) (by decide)
    (by decide) (by decide) rfl (by rfl) rfl (by decide) (by simp [exampleExports])
    (List.mem_cons_self _ _) rfl rfl rfl (by decide) (by rfl)
/-! ## Backup before write: lemmas -/

theorem commit_backups (env : Env) (J : Json) (failure : String) (fs : FS)
    (d : Except JSError Decision) :
    (commit env J failure fs d).fs.backups = fs.backups := by
  unfold commit
  split
  · rfl
  · rfl
  · simp only [writeFile, locate_config]
    split <;> rename_i heq
    · rfl
    · split at heq
      · cases heq
      · cases heq
        rfl
theorem withBackup_shape (env : Env) (J : Json) (failure iso : String) (fs : FS)
    (steps : JSValue → String → Except JSError Decision)
    (hwf : fs.WellFormed) (hiso : '/' ∉ iso.data)
    (h : (withBackup env J failure iso fs steps).fs.config ≠ fs.config ∨
      ∃ r, (withBackup env J failure iso fs steps).response = some r ∧ r.status = 200) :
    ∃ c, fs.config = some c ∧ 0 ≤ env.MAX_BACKUPS ∧
      (withBackup env J failure iso fs steps).fs.backups = afterBackup env iso c fs.backups := by
  have hframe := createBackup_frame env iso fs hwf hiso
  unfold withBackup at h ⊢
  rcases hcb : createBackup env iso fs with ⟨res, fs1⟩
  rw [hcb] at h hframe
  cases res with
  | error e =>
    exfalso
    simp only at h hframe
    rcases h with h | ⟨r, hr, hs⟩
    · exact h hframe.1
    · simp only [Option.some.injEq] at hr
      subst hr
      simp [errorResponse] at hs
  | ok b =>
    obtain ⟨c, hc, -, hfs1, hmax⟩ := createBackup_inv env iso b fs fs1 hwf hiso hcb
    refine ⟨c, hc, hmax, ?_⟩
    simp only [commit_backups]
    rw [hfs1]

theorem restoreWrite_backups (env : Env) (J : Json) (clock : Clock) (content : String)
    (fs fs' : FS) (h : restoreWrite env J clock content fs = .ok fs') :
    fs'.backups = fs.backups := by
  have hw : ∀ s fs'', writeFile env fs env.CONFIG_FILE s = .ok fs'' → fs''.backups = fs.backups := by
    intro s fs'' hs
    simp only [writeFile, locate_config] at hs
    split at hs
    · cases hs
    · cases hs
      rfl
  unfold restoreWrite at h
  simp only at h
  split at h
  · exact hw _ _ h
  · split at h
    · rename_i heq
      cases h
      exact hw _ _ heq
    · exact hw _ _ h

theorem restoreBackup_shape (env : Env) (J : Json) (clock : Clock) (filename : String) (fs : FS)
    (hwf : fs.WellFormed) (hiso : '/' ∉ clock.first.data)
    (h : (restoreBackup env J clock filename fs).fs.config ≠ fs.config ∨
      ∃ r, (restoreBackup env J clock filename fs).response = some r ∧ r.status = 200) :
    ∃ c, fs.config = some c ∧ 0 ≤ env.MAX_BACKUPS ∧
      (restoreBackup env J clock filename fs).fs.backups =
        afterBackup env clock.first c fs.backups := by
  have hframe := createBackup_frame env clock.first fs hwf hiso
  have h500 : ∀ (msg : String) (fs' : FS), fs'.config = fs.config →
      ¬ (({ response := some (errorResponse 500 msg), fs := fs' } : Result).fs.config ≠ fs.config ∨
        ∃ r, ({ response := some (errorResponse 500 msg), fs := fs' } : Result).response = some r ∧
          r.status = 200) := by
    intro msg fs' hfs'
    rintro (h | ⟨r, hr, hs⟩)
    · exact h hfs'
    · simp only [Option.some.injEq] at hr
      subst hr
      simp [errorResponse] at hs
  unfold restoreBackup at h ⊢
  by_cases hvalid : (filename = "" || !jsEndsWith filename ".bak") = true
  · rw [if_pos hvalid] at h
    exfalso
    rcases h with h | ⟨r, hr, hs⟩
    · exact h rfl
    · simp only [Option.some.injEq] at hr
      subst hr
      simp [errorResponse] at hs
  · rw [if_neg hvalid] at h ⊢
    simp only at h ⊢
    cases hacc : access env fs (pathJoin env.BACKUP_DIR filename) with
    | error e =>
      try rw [hacc] at h
      exact absurd h (h500 _ _ rfl)
    | ok u =>
      try rw [hacc] at h
      simp only at h ⊢
      rcases hcb : createBackup env clock.first fs with ⟨res, fs1⟩
      try rw [hcb] at h
      try rw [hcb] at hframe
      cases res with
      | error e => exact absurd h (h500 _ _ hframe.1)
      | ok b =>
        obtain ⟨c, hc, -, hfs1, hmax⟩ := createBackup_inv env clock.first b fs fs1 hwf hiso hcb
        refine ⟨c, hc, hmax, ?_⟩
        simp only at h ⊢
        cases hread : readFile env fs1 (pathJoin env.BACKUP_DIR filename) with
        | error e =>
          try rw [hread] at h
          exact absurd h (h500 _ _ hframe.1)
        | ok content =>
          try rw [hread] at h
          simp only at h ⊢
          cases hwrite : restoreWrite env J clock content fs1 with
          | error e =>
            try rw [hwrite] at h
            exact absurd h (h500 _ _ hframe.1)
          | ok fs2 =>
            simp only
            rw [restoreWrite_backups env J clock _ _ _ hwrite, hfs1]
theorem handle_cases (env : Env) (J : Json) (clock : Clock) (req : Request) (fs : FS) :
    (∃ o, handle env J clock req fs = { response := o, fs := fs } ∧
        ∀ r, o = some r → r.status ≠ 200) ∨
      (∃ failure steps, handle env J clock req fs = withBackup env J failure clock.first fs steps) ∨
      ∃ filename, req = .restore filename := by
  have e400 : ∀ (n : Nat) (msg : String), n ≠ 200 →
      ∀ r, some (errorResponse n msg) = some r → r.status ≠ 200 := by
    intro n msg hn r hr
    simp only [Option.some.injEq] at hr
    subst hr
    exact hn
  cases req with
  | create path clients =>
    simp only [handle, createExport]
    split
    · exact Or.inl ⟨_, rfl, e400 _ _ (by decide)⟩
    · split
      · split
        · exact Or.inl ⟨_, rfl, by simp⟩
        · exact Or.inl ⟨_, rfl, e400 _ _ (by decide)⟩
        · split
          · exact Or.inl ⟨_, rfl, e400 _ _ (by decide)⟩
          · exact Or.inr (Or.inl ⟨_, _, rfl⟩)
      · exact Or.inl ⟨_, rfl, e400 _ _ (by decide)⟩
  | replaceClients exportPath clients =>
    simp only [handle, replaceClients]
    split
    · exact Or.inl ⟨_, rfl, e400 _ _ (by decide)⟩
    · split
      · split
        · exact Or.inl ⟨_, rfl, by simp⟩
        · exact Or.inl ⟨_, rfl, e400 _ _ (by decide)⟩
        · exact Or.inr (Or.inl ⟨_, _, rfl⟩)
      · exact Or.inl ⟨_, rfl, e400 _ _ (by decide)⟩
  | deleteExport exportPath =>
    simp only [handle, deleteExport]
    split
    · exact Or.inl ⟨_, rfl, e400 _ _ (by decide)⟩
    · exact Or.inr (Or.inl ⟨_, _, rfl⟩)
  | addClient exportPath ip permission =>
    simp only [handle, addClient]
    split
    · exact Or.inl ⟨_, rfl, e400 _ _ (by decide)⟩
    · split
      · exact Or.inl ⟨_, rfl, e400 _ _ (by decide)⟩
      · split
        · exact Or.inl ⟨_, rfl, by simp⟩
        · exact Or.inl ⟨_, rfl, e400 _ _ (by decide)⟩
        · split
          · exact Or.inl ⟨_, rfl, e400 _ _ (by decide)⟩
          · exact Or.inr (Or.inl ⟨_, _, rfl⟩)
  | removeClient exportPath ip =>
    simp only [handle, removeClient]
    split
    · exact Or.inl ⟨_, rfl, e400 _ _ (by decide)⟩
    · split
      · exact Or.inl ⟨_, rfl, e400 _ _ (by decide)⟩
      · exact Or.inr (Or.inl ⟨_, _, rfl⟩)
  | restore filename => exact Or.inr (Or.inr ⟨_, rfl⟩)

theorem handle_shape (env : Env) (J : Json) (clock : Clock) (req : Request) (fs : FS)
    (hwf : fs.WellFormed) (hiso : '/' ∉ clock.first.data)
    (h : (handle env J clock req fs).fs.config ≠ fs.config ∨
      ∃ r, (handle env J clock req fs).response = some r ∧ r.status = 200) :
    ∃ c, fs.config = some c ∧ 0 ≤ env.MAX_BACKUPS ∧
      (handle env J clock req fs).fs.backups = afterBackup env clock.first c fs.backups := by
  rcases handle_cases env J clock req fs with ⟨o, ho, hs⟩ | ⟨failure, steps, hw⟩ | ⟨filename, rfl⟩
  · exfalso
    rw [ho] at h
    rcases h with h | ⟨r, hr, h200⟩
    · exact h rfl
    · exact hs r hr h200
  · rw [hw] at h ⊢
    exact withBackup_shape env J _ _ fs _ hwf hiso h
  · exact restoreBackup_shape env J clock filename fs hwf hiso h

/-! ## C7: backup before write -/

/-- C7: every call of create, replace-clients, delete-export, add-client,
remove-client or restore that answers 200 or changes the configuration file has
taken exactly one new snapshot: the configuration file existed, the backup
directory afterwards holds a file that was not there before, named after the
time of the call, whose content is the content the configuration file had before
the call, and every other file of the directory was already there with the same
content.  The clock is assumed to give a name newer than those of the existing
snapshots, and the retention count is not zero. -/
theorem snapshot_before_mutation (env : Env) (J : Json) (clock : Clock) (req : Request)
    (fs : FS) (hwf : fs.WellFormed) (hiso : '/' ∉ clock.first.data)
    (hmax : env.MAX_BACKUPS ≠ 0)
    (hfresh : ∀ n ∈ readdir fs, isBackupName n = true → nameLT n (backupName clock.first))
    (hmut : (handle env J clock req fs).fs.config ≠ fs.config ∨
      ∃ r, (handle env J clock req fs).response = some r ∧ r.status = 200) :
    ∃ content, fs.config = some content ∧
      lookupFile (backupName clock.first) fs.backups = none ∧
      lookupFile (backupName clock.first) (handle env J clock req fs).fs.backups = some content ∧
      ∀ n x, n ≠ backupName clock.first →
        lookupFile n (handle env J clock req fs).fs.backups = some x →
          lookupFile n fs.backups = some x := by
  obtain ⟨c, hc, h0, hb⟩ := handle_shape env J clock req fs hwf hiso hmut
  have h1 : 1 ≤ env.MAX_BACKUPS := by omega
  refine ⟨c, hc, ?_, ?_, ?_⟩
  · have hn := fresh_not_mem clock.first (readdir fs) hfresh
    cases hl : lookupFile (backupName clock.first) fs.backups with
    | none => rfl
    | some v =>
      exact absurd ((lookupFile_isSome_iff _ _).1 (by rw [hl]; rfl)) hn
  · rw [hb, lookupFile_afterBackup,
      if_neg (fresh_not_dropped env clock.first c fs.backups hwf.1 hfresh h1), if_pos rfl]
  · intro n x hn hx
    rw [hb, lookupFile_afterBackup] at hx
    split at hx
    · cases hx
    · simpa [hn] using hx
set_option maxRecDepth 100000 in
/-- Witness of C7: the example create request on the example file system with
one earlier snapshot. -/
theorem snapshot_before_mutation_witness :
    ∃ content, exampleFSWithBackup.config = some content ∧
      lookupFile (backupName exampleClock.first) exampleFSWithBackup.backups = none ∧
      lookupFile (backupName exampleClock.first)
        (handle defaultEnv
          (exampleJson (.obj exampleKvs)
            (withNewExport exampleKvs [] exampleExports (.str "/srv/data") (.arr exampleClients)
              exampleClock.second) exampleText createdText isExampleDoc)
          exampleClock (.create (.str "/srv/data") (.arr exampleClients))
          exampleFSWithBackup).fs.backups = some content ∧
      ∀ n x, n ≠ backupName exampleClock.first →
        lookupFile n
          (handle defaultEnv
            (exampleJson (.obj exampleKvs)
              (withNewExport exampleKvs [] exampleExports (.str "/srv/data")
                (.arr exampleClients) exampleClock.second) exampleText createdText isExampleDoc)
            exampleClock (.create (.str "/srv/data") (.arr exampleClients))
            exampleFSWithBackup).fs.backups = some x →
          lookupFile n exampleFSWithBackup.backups = some x :=
  snapshot_before_mutation defaultEnv _ exampleClock
    (.create (.str "/srv/data") (.arr exampleClients)) exampleFSWithBackup
    (by simp only [FS.WellFormed, readdir, exampleFSWithBackup]; decide) (by decide) (by decide)
    (by simp only [readdir, exampleFSWithBackup]; decide)
    (Or.inr ⟨_, rfl, rfl⟩)
/-! ## Retention: lemmas -/

theorem readdir_afterBackup (env : Env) (iso c : String) (fs : FS) :
    readdir { fs with backups := afterBackup env iso c fs.backups } =
      ((storeFile (backupName iso) c fs.backups).map Prod.fst).filter (fun n =>
        !((snapshotsNewestFirst ((storeFile (backupName iso) c fs.backups).map Prod.fst)).drop
          env.MAX_BACKUPS.toNat).contains n) := by
  simp only [readdir, afterBackup, List.filter_map]
  rfl

theorem wellFormed_afterBackup (env : Env) (iso c : String) (fs : FS) (hwf : fs.WellFormed)
    (hiso : '/' ∉ iso.data) :
    FS.WellFormed { fs with backups := afterBackup env iso c fs.backups } := by
  have h1 := wellFormed_storeFile fs (backupName iso) c hwf (isPlainName_backupName iso hiso)
  unfold FS.WellFormed at h1 ⊢
  rw [readdir_afterBackup]
  simp only [readdir] at h1
  exact ⟨h1.1.filter _, fun n hn => h1.2 n (List.mem_of_mem_filter hn)⟩

theorem mem_keptSnapshots_afterBackup (env : Env) (iso c : String) (fs : FS)
    (hwf : fs.WellFormed) (hiso : '/' ∉ iso.data) (n : String) :
    n ∈ keptSnapshots { fs with backups := afterBackup env iso c fs.backups } ↔
      n ∈ (snapshotsNewestFirst ((storeFile (backupName iso) c fs.backups).map Prod.fst)).take
        env.MAX_BACKUPS.toNat := by
  have h1 := wellFormed_storeFile fs (backupName iso) c hwf (isPlainName_backupName iso hiso)
  have hnd := nodup_snapshotsNewestFirst _ h1.1
  simp only [readdir] at hnd
  rw [mem_take_iff_of_nodup _ _ _ hnd, mem_snapshotsNewestFirst, keptSnapshots, List.mem_filter,
    readdir_afterBackup, List.mem_filter]
  constructor
  · rintro ⟨⟨hS, hd⟩, hb⟩
    exact ⟨⟨hS, hb⟩, by simpa using hd⟩
  · rintro ⟨⟨hS, hb⟩, hd⟩
    exact ⟨⟨hS, by simpa using hd⟩, hb⟩

theorem nodup_keptSnapshots (fs : FS) (hwf : fs.WellFormed) : (keptSnapshots fs).Nodup :=
  hwf.1.filter _

theorem keptSnapshots_perm_take (env : Env) (iso c : String) (fs : FS)
    (hwf : fs.WellFormed) (hiso : '/' ∉ iso.data) :
    (keptSnapshots { fs with backups := afterBackup env iso c fs.backups }).Perm
      ((snapshotsNewestFirst ((storeFile (backupName iso) c fs.backups).map Prod.fst)).take
        env.MAX_BACKUPS.toNat) := by
  have h1 := wellFormed_storeFile fs (backupName iso) c hwf (isPlainName_backupName iso hiso)
  have hnd := nodup_snapshotsNewestFirst _ h1.1
  simp only [readdir] at hnd
  rw [List.perm_ext_iff_of_nodup
    (nodup_keptSnapshots _ (wellFormed_afterBackup env iso c fs hwf hiso))
    (hnd.sublist (List.take_sublist _ _))]
  exact mem_keptSnapshots_afterBackup env iso c fs hwf hiso
theorem createBackup_retention (env : Env) (iso b : String) (fs fs' : FS) (hwf : fs.WellFormed)
    (hiso : '/' ∉ iso.data) (h : createBackup env iso fs = (.ok b, fs')) :
    ((keptSnapshots fs').length : Int) ≤ env.MAX_BACKUPS ∧
      ∀ k ∈ keptSnapshots fs', ∀ d, (d ∈ keptSnapshots fs ∨ d = backupName iso) →
        d ∉ keptSnapshots fs' → nameLE d k := by
  obtain ⟨c, -, -, rfl, hmax⟩ := createBackup_inv env iso b fs fs' hwf hiso h
  have hperm := keptSnapshots_perm_take env iso c fs hwf hiso
  have hmem := mem_keptSnapshots_afterBackup env iso c fs hwf hiso
  have hnd := nodup_snapshotsNewestFirst _
    (wellFormed_storeFile fs (backupName iso) c hwf (isPlainName_backupName iso hiso)).1
  simp only [readdir] at hnd
  constructor
  · rw [hperm.length_eq, List.length_take]
    omega
  · intro k hk d hd hdk
    rw [hmem] at hk hdk
    have hdL : d ∈ snapshotsNewestFirst ((storeFile (backupName iso) c fs.backups).map Prod.fst) := by
      rw [mem_snapshotsNewestFirst, mem_map_fst_storeFile]
      rcases hd with hd | rfl
      · simp only [keptSnapshots, List.mem_filter, readdir] at hd
        exact ⟨Or.inr hd.1, hd.2⟩
      · exact ⟨Or.inl rfl, isBackupName_backupName iso⟩
    have hdrop : d ∈ (snapshotsNewestFirst
        ((storeFile (backupName iso) c fs.backups).map Prod.fst)).drop env.MAX_BACKUPS.toNat := by
      by_contra hnot
      exact hdk ((mem_take_iff_of_nodup _ _ _ hnd).2 ⟨hdL, hnot⟩)
    exact take_ge_drop _ _ k d hk hdrop

theorem retentionInv_step (env : Env) (R : Nat) (seen : List String) (iso b : String)
    (fs fs' : FS) (hR : env.MAX_BACKUPS = R) (hinv : RetentionInv R seen fs)
    (hnew : backupName iso ∉ seen) (hiso : '/' ∉ iso.data)
    (h : createBackup env iso fs = (.ok b, fs')) :
    RetentionInv R (seen ++ [backupName iso]) fs' := by
  obtain ⟨hwf, hall, hlen, hord⟩ := hinv
  obtain ⟨c, -, -, rfl, -⟩ := createBackup_inv env iso b _ fs' hwf hiso h
  have hwf' := wellFormed_afterBackup env iso c fs hwf hiso
  have hmem := mem_keptSnapshots_afterBackup env iso c fs hwf hiso
  have hperm := keptSnapshots_perm_take env iso c fs hwf hiso
  have hndS := (wellFormed_storeFile fs (backupName iso) c hwf (isPlainName_backupName iso hiso)).1
  simp only [readdir] at hndS
  have hnd := nodup_snapshotsNewestFirst _ hndS
  have hxdir : backupName iso ∉ readdir fs := fun hx => hnew (hall _ hx).2
  -- every entry of the directory is a snapshot
  have hallS : ∀ n ∈ (storeFile (backupName iso) c fs.backups).map Prod.fst,
      isBackupName n = true := by
    intro n hn
    rcases (mem_map_fst_storeFile _ _ _ _).1 hn with rfl | hn
    · exact isBackupName_backupName iso
    · exact (hall n hn).1
  have hkeep : keptSnapshots { fs with backups := afterBackup env iso c fs.backups }
      = readdir { fs with backups := afterBackup env iso c fs.backups } := by
    unfold keptSnapshots
    rw [List.filter_eq_self]
    intro n hn
    rw [readdir_afterBackup] at hn
    exact hallS n (List.mem_of_mem_filter hn)
  -- the sorted list has one more element than the directory had
  have hLlen : (snapshotsNewestFirst
      ((storeFile (backupName iso) c fs.backups).map Prod.fst)).length
        = (readdir fs).length + 1 := by
    simp only [snapshotsNewestFirst, List.length_reverse, (jsSort_perm _).length_eq]
    rw [List.filter_eq_self.2 hallS, map_fst_storeFile]
    simp only [readdir] at hxdir
    rw [if_neg hxdir]
    simp [readdir]
  have hmemL : ∀ n, n ∈ snapshotsNewestFirst
      ((storeFile (backupName iso) c fs.backups).map Prod.fst) ↔
        n = backupName iso ∨ n ∈ readdir fs := by
    intro n
    rw [mem_snapshotsNewestFirst, mem_map_fst_storeFile]
    constructor
    · exact fun h => h.1
    · intro h
      refine ⟨h, ?_⟩
      rcases h with rfl | h
      · exact isBackupName_backupName iso
      · exact (hall n h).1
  refine ⟨hwf', ?_, ?_, ?_⟩
  · intro n hn
    rw [← hkeep, hmem] at hn
    have hn1 := (hmemL n).1 (List.mem_of_mem_take hn)
    rcases hn1 with rfl | hn1
    · exact ⟨isBackupName_backupName iso, by simp⟩
    · exact ⟨(hall n hn1).1, List.mem_append_left _ (hall n hn1).2⟩
  · rw [← hkeep, hperm.length_eq, List.length_take, hLlen, hlen, hR]
    simp only [Int.toNat_ofNat, List.length_append, List.length_singleton]
    omega
  · intro k hk d hd hdk
    rw [← hkeep, hmem] at hk hdk
    rw [hR, Int.toNat_ofNat] at hk hdk
    by_cases hdL : d ∈ snapshotsNewestFirst
        ((storeFile (backupName iso) c fs.backups).map Prod.fst)
    · have hdrop : d ∈ (snapshotsNewestFirst
          ((storeFile (backupName iso) c fs.backups).map Prod.fst)).drop R := by
        by_contra hnot
        exact hdk ((mem_take_iff_of_nodup _ _ _ hnd).2 ⟨hdL, hnot⟩)
      exact take_ge_drop _ _ k d hk hdrop
    · -- `d` was dropped earlier: the directory was full
      have hdx : d ≠ backupName iso := fun e => hdL ((hmemL d).2 (Or.inl e))
      have hddir : d ∉ readdir fs := fun e => hdL ((hmemL d).2 (Or.inr e))
      have hdseen : d ∈ seen := by
        rcases List.mem_append.1 hd with h' | h'
        · exact h'
        · exact absurd (List.mem_singleton.1 h') hdx
      rcases (hmemL k).1 (List.mem_of_mem_take hk) with rfl | hkdir
      · -- the new snapshot is kept: something else is dropped now
        have hsub : (readdir fs).length ≤ seen.length := by
          rw [hlen]; exact Nat.min_le_right _ _
        have hlt : (readdir fs).length < seen.length := by
          rcases Nat.lt_or_ge (readdir fs).length seen.length with h' | h'
          · exact h'
          · exfalso
            have hsubset : readdir fs ⊆ seen := fun n hn => (hall n hn).2
            have hperm' := (List.subperm_of_subset hwf.1 hsubset)
            have : seen ⊆ readdir fs := by
              have hs := List.Subperm.perm_of_length_le hperm' h'
              exact fun n hn => hs.symm.subset hn
            exact hddir (this hdseen)
        have hfull : (readdir fs).length = R := by omega
        have hdropne : (snapshotsNewestFirst
            ((storeFile (backupName iso) c fs.backups).map Prod.fst)).drop R ≠ [] := by
          intro hnil
          have := congrArg List.length hnil
          simp only [List.length_drop, hLlen, hfull, List.length_nil] at this
          omega
        obtain ⟨e, he⟩ := List.exists_mem_of_ne_nil _ hdropne
        have hex : e ≠ backupName iso := by
          rintro rfl
          exact ((mem_take_iff_of_nodup _ _ _ hnd).1 hk).2 he
        have hedir : e ∈ readdir fs := by
          rcases (hmemL e).1 (List.mem_of_mem_drop he) with h' | h'
          · exact absurd h' hex
          · exact h'
        exact unitsLE_trans _ _ _ (hord e hedir d hdseen hddir) (take_ge_drop _ _ _ e hk he)
      · exact hord k hkdir d hdseen hddir
theorem char_toNat_valid (c : Char) :
    c.toNat < 0xD800 ∨ (0xDFFF < c.toNat ∧ c.toNat < 0x110000) := c.valid

theorem char_toNat_inj (a b : Char) (h : a.toNat = b.toNat) : a = b := by
  apply Char.ext
  apply UInt32.ext
  exact h

theorem utf16_append_inj (a b : Char) (s t : List Nat) (h : utf16 a ++ s = utf16 b ++ t) :
    a = b ∧ s = t := by
  have ha := char_toNat_valid a
  have hb := char_toNat_valid b
  unfold utf16 at h
  by_cases h1 : a.toNat < 0x10000 <;> by_cases h2 : b.toNat < 0x10000
  · simp only [h1, h2, if_true, List.singleton_append, List.cons.injEq] at h
    exact ⟨char_toNat_inj a b h.1, h.2⟩
  · simp only [h1, h2, if_true, if_false, List.singleton_append, List.cons_append,
      List.nil_append, List.cons.injEq] at h
    omega
  · simp only [h1, h2, if_true, if_false, List.singleton_append, List.cons_append,
      List.nil_append, List.cons.injEq] at h
    omega
  · simp only [h1, h2, if_false, List.cons_append, List.nil_append, List.cons.injEq] at h
    obtain ⟨e1, e2, e3⟩ := h
    refine ⟨char_toNat_inj a b ?_, e3⟩
    omega

theorem codeUnits_injective (a b : String) (h : codeUnits a = codeUnits b) : a = b := by
  have key : ∀ x y : List Char, x.flatMap utf16 = y.flatMap utf16 → x = y := by
    intro x
    induction x with
    | nil =>
      intro y hy
      cases y with
      | nil => rfl
      | cons c cs =>
        exfalso
        simp only [List.flatMap_nil, List.flatMap_cons] at hy
        have := congrArg List.length hy
        unfold utf16 at this
        split at this <;> simp at this
    | cons c cs ih =>
      intro y hy
      cases y with
      | nil =>
        exfalso
        simp only [List.flatMap_nil, List.flatMap_cons] at hy
        have := congrArg List.length hy
        unfold utf16 at this
        split at this <;> simp at this
      | cons d ds =>
        simp only [List.flatMap_cons] at hy
        obtain ⟨e1, e2⟩ := utf16_append_inj c d _ _ hy
        rw [e1, ih ds e2]
  cases a; cases b
  simp only [codeUnits] at h
  rw [key _ _ h]

theorem unitsLE_antisymm (a b : List Nat) (hab : unitsLE a b = true) (hba : unitsLE b a = true) :
    a = b := by
  induction a generalizing b with
  | nil =>
    cases b with
    | nil => rfl
    | cons y ys => simp [unitsLE] at hba
  | cons x xs ih =>
    cases b with
    | nil => simp [unitsLE] at hab
    | cons y ys =>
      simp only [unitsLE, Bool.or_eq_true, decide_eq_true_eq, Bool.and_eq_true,
        beq_iff_eq] at hab hba
      rcases hab with h1 | ⟨h1, h1'⟩ <;> rcases hba with h2 | ⟨h2, h2'⟩
      · omega
      · omega
      · omega
      · rw [h1, ih ys h1' h2']

theorem nameLT_of_le_of_ne (a b : String) (h : nameLE a b) (hne : a ≠ b) : nameLT a b :=
  ⟨h, fun h' => hne (codeUnits_injective _ _ (unitsLE_antisymm _ _ h h'))⟩
theorem retentionInv_run (env : Env) (R : Nat) (hR : env.MAX_BACKUPS = R)
    (steps : List (String × String)) :
    ∀ (seen : List String) (fs fs' : FS), RetentionInv R seen fs →
      (∀ s ∈ steps, '/' ∉ s.1.data) →
      (seen ++ steps.map (fun s => backupName s.1)).Nodup →
      snapshotRun env steps fs = some fs' →
      RetentionInv R (seen ++ steps.map (fun s => backupName s.1)) fs' := by
  induction steps with
  | nil =>
    intro seen fs fs' hinv _ _ hrun
    simp only [snapshotRun, Option.some.injEq] at hrun
    subst hrun
    simpa using hinv
  | cons s rest ih =>
    intro seen fs fs' hinv hiso hnd hrun
    obtain ⟨iso, content⟩ := s
    simp only [snapshotRun] at hrun
    rcases hcb : createBackup env iso { fs with config := some content } with ⟨res, fs1⟩
    rw [hcb] at hrun
    cases res with
    | error e => simp at hrun
    | ok b =>
      simp only at hrun
      have hinv0 : RetentionInv R seen { fs with config := some content } := hinv
      have hnew : backupName iso ∉ seen := by
        intro hmem
        simp only [List.map_cons] at hnd
        exact (List.nodup_append.1 hnd).2.2 hmem (List.mem_cons_self _ _)
      have hstep := retentionInv_step env R seen iso b _ fs1 hR hinv0 hnew
        (hiso _ (List.mem_cons_self _ _)) hcb
      have := ih (seen ++ [backupName iso]) fs1 fs' hstep
        (fun s hs => hiso s (List.mem_cons_of_mem _ hs))
        (by simpa [List.append_assoc] using hnd) hrun
      simpa [List.append_assoc] using this

/-! ## C8: retention -/

/-- C8: after `N` successive snapshots with distinct names into an initially
empty backup directory, with retention count `R < N`, exactly `R` snapshot files
remain, all taken by these snapshots, and every snapshot that is gone has a name
strictly below every one that remains; and in general, whenever `createBackup`
returns, at most `MAX_BACKUPS` files named `exports-*.bak` remain, and every
snapshot that was removed has a name strictly below every one that remains. -/
theorem retention_keeps_newest :
    (∀ (env : Env) (R : Nat) (steps : List (String × String)) (fs0 fs : FS),
      env.MAX_BACKUPS = R → fs0.backups = [] →
      (∀ s ∈ steps, '/' ∉ s.1.data) →
      (steps.map (fun s => backupName s.1)).Nodup →
      R < steps.length →
      snapshotRun env steps fs0 = some fs →
      (keptSnapshots fs).length = R ∧
        (∀ k ∈ keptSnapshots fs, k ∈ steps.map (fun s => backupName s.1)) ∧
        ∀ k ∈ keptSnapshots fs, ∀ d ∈ steps.map (fun s => backupName s.1),
          d ∉ keptSnapshots fs → nameLT d k) ∧
    (∀ (env : Env) (iso b : String) (fs fs' : FS),
      fs.WellFormed → '/' ∉ iso.data →
      createBackup env iso fs = (.ok b, fs') →
      ((keptSnapshots fs').length : Int) ≤ env.MAX_BACKUPS ∧
        ∀ k ∈ keptSnapshots fs', ∀ d, (d ∈ keptSnapshots fs ∨ d = backupName iso) →
          d ∉ keptSnapshots fs' → nameLT d k) := by
  refine ⟨?_, fun env iso b fs fs' hwf hiso h =>
    ⟨(createBackup_retention env iso b fs fs' hwf hiso h).1, fun k hk d hd hdk =>
      nameLT_of_le_of_ne d k ((createBackup_retention env iso b fs fs' hwf hiso h).2 k hk d hd hdk)
        (fun e => hdk (e ▸ hk))⟩⟩
  intro env R steps fs0 fs hR hempty hiso hnd hlt hrun
  have hinv0 : RetentionInv R [] fs0 := by
    simp [RetentionInv, FS.WellFormed, readdir, hempty]
  obtain ⟨hwf, hall, hlen, hord⟩ :=
    retentionInv_run env R hR steps [] fs0 fs hinv0 hiso (by simpa using hnd) hrun
  simp only [List.nil_append] at hall hlen hord
  have hkeep : keptSnapshots fs = readdir fs := by
    unfold keptSnapshots
    rw [List.filter_eq_self]
    exact fun n hn => (hall n hn).1
  rw [hkeep]
  refine ⟨?_, fun k hk => (hall k hk).2, ?_⟩
  · rw [hlen, List.length_map]
    omega
  · intro k hk d hd hdk
    exact nameLT_of_le_of_ne d k (hord k hk d hd hdk) (fun e => hdk (e ▸ hk))

set_option maxRecDepth 100000 in
/-- Witness of C8: three snapshots with retention count 2 from the example file
system, and the last of them as a single `createBackup`. -/
theorem retention_keeps_newest_witness :
    (∃ fs, snapshotRun { defaultEnv with MAX_BACKUPS := 2 }
        [("2024-05-01T10:00:00.000Z", exampleText), ("2024-05-01T11:00:00.000Z", emptyExportsText),
          ("2024-05-01T12:00:00.000Z", exampleText)] exampleFS = some fs ∧
      (keptSnapshots fs).length = 2) ∧
    ((keptSnapshots (createBackup defaultEnv exampleClock.first exampleFSWithBackup).2).length
      : Int) ≤ 10 := by
  constructor
  · obtain ⟨fs, hfs⟩ := Option.isSome_iff_exists.1
      (by decide : (snapshotRun { defaultEnv with MAX_BACKUPS := 2 }
        [("2024-05-01T10:00:00.000Z", exampleText), ("2024-05-01T11:00:00.000Z", emptyExportsText),
          ("2024-05-01T12:00:00.000Z", exampleText)] exampleFS).isSome = true)
    exact ⟨fs, hfs, (retention_keeps_newest.1 { defaultEnv with MAX_BACKUPS := 2 } 2 _ exampleFS
      fs rfl rfl (by decide) (by decide) (by decide) hfs).1⟩
  · exact (retention_keeps_newest.2 defaultEnv exampleClock.first
      (pathJoin defaultEnv.BACKUP_DIR (backupName exampleClock.first)) exampleFSWithBackup _
      (by simp only [FS.WellFormed, readdir, exampleFSWithBackup]; decide) (by decide)
      (by rfl)).1
/-! ## Restore: lemmas -/

theorem isBackupName_endsWith (n : String) (h : isBackupName n = true) :
    jsEndsWith n ".bak" = true ∧ n ≠ "" := by
  simp only [isBackupName, Bool.and_eq_true] at h
  refine ⟨h.2, ?_⟩
  rintro rfl
  exact absurd h.1 (by decide)

theorem restoreWrite_ok (env : Env) (J : Json) (clock : Clock) (content : String) (fs : FS)
    (v : JSValue) (hw : fs.denied env.CONFIG_FILE = false) (hp : J.parse content = some v) :
    restoreWrite env J clock content fs = .ok { fs with config := some (J.stringify v) } := by
  simp [restoreWrite, hp, writeFile_config env fs _ hw]

theorem restoreWrite_inv (env : Env) (J : Json) (clock : Clock) (content : String)
    (fs fs' : FS) (h : restoreWrite env J clock content fs = .ok fs') :
    ∃ s, fs' = { fs with config := some s } := by
  have hw : ∀ s fs'', writeFile env fs env.CONFIG_FILE s = .ok fs'' →
      ∃ s', fs'' = { fs with config := some s' } := by
    intro s fs'' hs
    simp only [writeFile, locate_config] at hs
    split at hs
    · cases hs
    · cases hs
      exact ⟨_, rfl⟩
  unfold restoreWrite at h
  simp only at h
  split at h
  · exact hw _ _ h
  · split at h
    · rename_i heq
      cases h
      exact hw _ _ heq
    · exact hw _ _ h

theorem restoreBackup_ok (env : Env) (J : Json) (clock : Clock) (name : String) (fs : FS)
    (content sc : String) (v : JSValue)
    (hwf : fs.WellFormed) (hw : fs.Writable) (hiso : '/' ∉ clock.first.data)
    (hmax : 0 ≤ env.MAX_BACKUPS) (hcfg : fs.config = some content)
    (hname : isBackupName name = true) (hpl : isPlainName name = true)
    (hthere : (lookupFile name fs.backups).isSome = true)
    (hsurv : lookupFile name (afterBackup env clock.first content fs.backups) = some sc)
    (hp : J.parse sc = some v) :
    restoreBackup env J clock name fs =
      { response := some (restoredResponse name (pathJoin env.BACKUP_DIR (backupName clock.first)))
        fs := { fs with
          backups := afterBackup env clock.first content fs.backups
          config := some (J.stringify v) } } := by
  obtain ⟨hend, hne⟩ := isBackupName_endsWith name hname
  have hnc := isBackupName_ne_config name hname
  have hcb := createBackup_ok env clock.first content fs hwf hw hcfg hiso hmax
  have hrd : readFile env { fs with backups := afterBackup env clock.first content fs.backups }
      (pathJoin env.BACKUP_DIR name) = .ok sc := by
    rw [readFile_backup env _ name hpl hnc]
    simp only [hsurv]
  have hrw := restoreWrite_ok env J clock sc
    { fs with backups := afterBackup env clock.first content fs.backups } v (hw _) hp
  simp only [restoreBackup, hne, hend, decide_False, Bool.not_true, Bool.or_self,
    Bool.false_eq_true, if_false, access_backup env fs name hpl hnc, hthere, if_true, hcb, hrd,
    hrw]

theorem restoreBackup_inv (env : Env) (J : Json) (clock : Clock) (filename : String) (fs : FS)
    (hwf : fs.WellFormed) (hiso : '/' ∉ clock.first.data)
    (h : ∃ r, (restoreBackup env J clock filename fs).response = some r ∧ r.status = 200) :
    ∃ c sc s, fs.config = some c ∧ 0 ≤ env.MAX_BACKUPS ∧
      readFile env { fs with backups := afterBackup env clock.first c fs.backups }
        (pathJoin env.BACKUP_DIR filename) = .ok sc ∧
      restoreBackup env J clock filename fs =
        { response := some (restoredResponse filename
            (pathJoin env.BACKUP_DIR (backupName clock.first)))
          fs := { fs with
            backups := afterBackup env clock.first c fs.backups
            config := some s } } := by
  have h500 : ∀ (msg : String) (fs' : FS),
      ¬ ∃ r, ({ response := some (errorResponse 500 msg), fs := fs' } : Result).response = some r ∧
          r.status = 200 := by
    intro msg fs'
    rintro ⟨r, hr, hs⟩
    simp only [Option.some.injEq] at hr
    subst hr
    simp [errorResponse] at hs
  unfold restoreBackup at h ⊢
  by_cases hvalid : (filename = "" || !jsEndsWith filename ".bak") = true
  · rw [if_pos hvalid] at h
    exfalso
    obtain ⟨r, hr, hs⟩ := h
    simp only [Option.some.injEq] at hr
    subst hr
    simp [errorResponse] at hs
  · rw [if_neg hvalid] at h ⊢
    simp only at h ⊢
    cases hacc : access env fs (pathJoin env.BACKUP_DIR filename) with
    | error e =>
      try rw [hacc] at h
      exact absurd h (h500 _ _)
    | ok u =>
      try rw [hacc] at h
      simp only at h ⊢
      rcases hcb : createBackup env clock.first fs with ⟨res, fs1⟩
      try rw [hcb] at h
      cases res with
      | error e => exact absurd h (h500 _ _)
      | ok b =>
        obtain ⟨c, hc, hb, hfs1, hmax⟩ := createBackup_inv env clock.first b fs fs1 hwf hiso hcb
        subst hfs1
        simp only at h ⊢
        cases hread : readFile env
            { fs with backups := afterBackup env clock.first c fs.backups }
            (pathJoin env.BACKUP_DIR filename) with
        | error e =>
          try rw [hread] at h
          exact absurd h (h500 _ _)
        | ok content =>
          try rw [hread] at h
          simp only at h ⊢
          cases hwrite : restoreWrite env J clock content
              { fs with backups := afterBackup env clock.first c fs.backups } with
          | error e =>
            try rw [hwrite] at h
            exact absurd h (h500 _ _)
          | ok fs2 =>
            obtain ⟨s, rfl⟩ := restoreWrite_inv env J clock _ _ _ hwrite
            exact ⟨c, content, s, hc, hmax, hread, by rw [hb]⟩
theorem nameLT_trans (a b c : String) (hab : nameLT a b) (hbc : nameLT b c) : nameLT a c :=
  ⟨unitsLE_trans _ _ _ hab.1 hbc.1, fun hca => hbc.2 (unitsLE_trans _ _ _ hca hab.1)⟩

theorem second_not_dropped (env : Env) (t1 t2 c : String) (backups : List (String × String))
    (hnd : (backups.map Prod.fst).Nodup)
    (h1 : backupName t1 ∈ backups.map Prod.fst)
    (hfresh1 : ∀ n ∈ backups.map Prod.fst, isBackupName n = true → n ≠ backupName t1 →
      nameLT n (backupName t1))
    (h12 : nameLT (backupName t1) (backupName t2)) (hmax : 2 ≤ env.MAX_BACKUPS) :
    backupName t1 ∉ (snapshotsNewestFirst ((storeFile (backupName t2) c backups).map
      Prod.fst)).drop env.MAX_BACKUPS.toNat := by
  have hfresh2 : ∀ n ∈ backups.map Prod.fst, isBackupName n = true →
      nameLT n (backupName t2) := by
    intro n hn hb
    by_cases e : n = backupName t1
    · rw [e]; exact h12
    · exact nameLT_trans _ _ _ (hfresh1 n hn hb e) h12
  have hnew := fresh_not_mem t2 _ hfresh2
  have hnd' : ((storeFile (backupName t2) c backups).map Prod.fst).Nodup := by
    rw [map_fst_storeFile, if_neg hnew, List.nodup_append]
    refine ⟨hnd, by simp, ?_⟩
    intro a ha hb
    simp only [List.mem_singleton] at hb
    exact hnew (hb ▸ ha)
  have hL := nodup_snapshotsNewestFirst _ hnd'
  have hsorted := snapshotsNewestFirst_sorted ((storeFile (backupName t2) c backups).map Prod.fst)
  have hmemL : ∀ m, m ∈ snapshotsNewestFirst ((storeFile (backupName t2) c backups).map Prod.fst)
      → m = backupName t2 ∨ (m ∈ backups.map Prod.fst ∧ isBackupName m = true) := by
    intro m hm
    obtain ⟨hm1, hm2⟩ := (mem_snapshotsNewestFirst _ _).1 hm
    rcases (mem_map_fst_storeFile _ _ _ _).1 hm1 with h | h
    · exact Or.inl h
    · exact Or.inr ⟨h, hm2⟩
  obtain ⟨t, ht⟩ := head_of_greatest _ (backupName t2) hsorted
    ((mem_snapshotsNewestFirst _ _).2
      ⟨(mem_map_fst_storeFile _ _ _ _).2 (Or.inl rfl), isBackupName_backupName t2⟩)
    (by
      intro m hm hne
      rcases hmemL m hm with h | h
      · exact absurd h hne
      · exact hfresh2 m h.1 h.2)
  have h1L : backupName t1 ∈ snapshotsNewestFirst
      ((storeFile (backupName t2) c backups).map Prod.fst) :=
    (mem_snapshotsNewestFirst _ _).2
      ⟨(mem_map_fst_storeFile _ _ _ _).2 (Or.inr h1), isBackupName_backupName t1⟩
  have hne12 : backupName t1 ≠ backupName t2 := fun e => nameLT_irrefl _ (e ▸ h12)
  rw [ht] at hL hsorted h1L hmemL ⊢
  have h1t : backupName t1 ∈ t := by
    rcases List.mem_cons.1 h1L with h | h
    · exact absurd h hne12
    · exact h
  have hLt := List.nodup_cons.1 hL
  obtain ⟨t', ht'⟩ := head_of_greatest t (backupName t1) (List.pairwise_cons.1 hsorted).2 h1t
    (by
      intro m hm hne
      rcases hmemL m (List.mem_cons_of_mem _ hm) with h | h
      · exact absurd (h ▸ hm) hLt.1
      · exact hfresh1 m h.1 h.2 hne)
  rw [ht'] at hLt ⊢
  obtain ⟨k, hk⟩ : ∃ k, env.MAX_BACKUPS.toNat = k + 2 := ⟨env.MAX_BACKUPS.toNat - 2, by omega⟩
  rw [hk, List.drop_succ_cons, List.drop_succ_cons]
  intro h
  exact (List.nodup_cons.1 hLt.2).1 (List.mem_of_mem_drop h)

theorem retention_at_least_two (env : Env) (iso c s : String) (backups : List (String × String))
    (hfresh : ∀ n ∈ backups.map Prod.fst, isBackupName n = true → nameLT n (backupName iso))
    (hs : s ∈ backups.map Prod.fst) (hsb : isBackupName s = true) (hmax : 0 ≤ env.MAX_BACKUPS)
    (hkept : s ∉ (snapshotsNewestFirst ((storeFile (backupName iso) c backups).map
      Prod.fst)).drop env.MAX_BACKUPS.toNat) :
    2 ≤ env.MAX_BACKUPS := by
  have hnew := fresh_not_mem iso _ hfresh
  obtain ⟨t, ht⟩ := head_of_greatest _ (backupName iso) (snapshotsNewestFirst_sorted _)
    ((mem_snapshotsNewestFirst _ _).2
      ⟨(mem_map_fst_storeFile _ _ _ _).2 (Or.inl rfl), isBackupName_backupName iso⟩)
    (by
      intro m hm hne
      obtain ⟨hm1, hm2⟩ := (mem_snapshotsNewestFirst _ _).1 hm
      rcases (mem_map_fst_storeFile _ _ _ _).1 hm1 with h | h
      · exact absurd h hne
      · exact hfresh m h hm2)
  have hsL : s ∈ snapshotsNewestFirst ((storeFile (backupName iso) c backups).map Prod.fst) :=
    (mem_snapshotsNewestFirst _ _).2 ⟨(mem_map_fst_storeFile _ _ _ _).2 (Or.inr hs), hsb⟩
  rw [ht] at hkept hsL
  have hst : s ∈ t := by
    rcases List.mem_cons.1 hsL with h | h
    · exact absurd (h ▸ hs) hnew
    · exact h
  by_contra hlt
  have hcases : env.MAX_BACKUPS.toNat = 0 ∨ env.MAX_BACKUPS.toNat = 1 := by omega
  rcases hcases with h | h
  · rw [h] at hkept
    exact hkept (List.mem_cons_of_mem _ hst)
  · rw [h] at hkept
    exact hkept hst
/-! ## C9: restore, then load -/

set_option maxRecDepth 1000000 in
/-- C9 (the code fails the claim): with the backup directory at its retention
count, the oldest snapshot exists and its content parses, yet restoring it
answers 500: `createBackup`, called between the existence check and the read,
prunes that very snapshot, so the read throws.  The configuration file is left
as it was and the snapshot is gone. -/
theorem restore_oldest_snapshot_fails :
    lookupFile "exports-2024-04-21T09-00-00-000Z.bak" fullFS.backups = some emptyExportsText ∧
    twoDocJson.parse emptyExportsText = some (withExports exampleKvs []) ∧
    (restoreBackup defaultEnv twoDocJson exampleClock "exports-2024-04-21T09-00-00-000Z.bak"
        fullFS).response = some (errorResponse 500 "Failed to restore backup") ∧
    (restoreBackup defaultEnv twoDocJson exampleClock "exports-2024-04-21T09-00-00-000Z.bak"
        fullFS).fs.config = fullFS.config ∧
    lookupFile "exports-2024-04-21T09-00-00-000Z.bak"
      (restoreBackup defaultEnv twoDocJson exampleClock "exports-2024-04-21T09-00-00-000Z.bak"
        fullFS).fs.backups = none := by
  refine ⟨by rfl, by rfl, by rfl, by rfl, by rfl⟩
/-! ## C10: restore is reversible -/

/-- C10: a restore of a snapshot `S` that succeeds has taken a new snapshot whose
content is the content of the configuration file before the restore, and returns
its path; restoring that snapshot (by its file name) afterwards succeeds and
writes the pre-restore document back, so that the configuration file parses to
the same document as before the first restore.  The clock is assumed to move
forward, the file system to allow writing, and the serializer to round-trip the
pre-restore document. -/
theorem restore_is_reversible (env : Env) (J : Json) (clock1 clock2 : Clock) (S : String)
    (fs : FS) (content0 : String) (doc0 : JSValue)
    (hwf : fs.WellFormed) (hw : fs.Writable)
    (hiso1 : '/' ∉ clock1.first.data) (hiso2 : '/' ∉ clock2.first.data)
    (hS : S ∈ readdir fs) (hSb : isBackupName S = true)
    (hfresh1 : ∀ n ∈ readdir fs, isBackupName n = true → nameLT n (backupName clock1.first))
    (hfresh2 : nameLT (backupName clock1.first) (backupName clock2.first))
    (hcfg : fs.config = some content0) (hdoc0 : J.parse content0 = some doc0)
    (hrt : J.parse (J.stringify doc0) = some doc0)
    (hok : ∃ r, (restoreBackup env J clock1 S fs).response = some r ∧ r.status = 200) :
    (restoreBackup env J clock1 S fs).response =
        some (restoredResponse S (pathJoin env.BACKUP_DIR (backupName clock1.first))) ∧
      lookupFile (backupName clock1.first) (restoreBackup env J clock1 S fs).fs.backups =
        some content0 ∧
      (∃ r, (restoreBackup env J clock2 (backupName clock1.first)
          (restoreBackup env J clock1 S fs).fs).response = some r ∧ r.status = 200) ∧
      ((restoreBackup env J clock2 (backupName clock1.first)
          (restoreBackup env J clock1 S fs).fs).fs.config.bind J.parse) = some doc0 := by
  obtain ⟨c, sc, s, hc, hmax0, hread, hr1⟩ := restoreBackup_inv env J clock1 S fs hwf hiso1 hok
  rw [hcfg] at hc
  simp only [Option.some.injEq] at hc
  subst hc
  have hSpl : isPlainName S = true := hwf.2 S hS
  have hSne := isBackupName_ne_config S hSb
  -- the snapshot `S` survived the pruning, so the retention count is at least two
  have hsurvS : S ∉ (snapshotsNewestFirst
      ((storeFile (backupName clock1.first) content0 fs.backups).map Prod.fst)).drop
        env.MAX_BACKUPS.toNat := by
    intro hdrop
    rw [readFile_backup env _ S hSpl hSne] at hread
    simp only [lookupFile_afterBackup, if_pos hdrop] at hread
    cases hread
  have hmax2 : 2 ≤ env.MAX_BACKUPS :=
    retention_at_least_two env clock1.first content0 S fs.backups hfresh1 hS hSb hmax0 hsurvS
  have hmax1 : 1 ≤ env.MAX_BACKUPS := by omega
  -- the new snapshot holds the pre-restore content
  have hnew1 : lookupFile (backupName clock1.first)
      (afterBackup env clock1.first content0 fs.backups) = some content0 := by
    rw [lookupFile_afterBackup,
      if_neg (fresh_not_dropped env clock1.first content0 fs.backups hwf.1 hfresh1 hmax1),
      if_pos rfl]
  rw [hr1]
  refine ⟨rfl, hnew1, ?_⟩
  -- the second restore
  have hwf1 := wellFormed_afterBackup env clock1.first content0 fs hwf hiso1
  have hwf2 : FS.WellFormed { fs with
      backups := afterBackup env clock1.first content0 fs.backups
      config := some s } := hwf1
  have hw2 : FS.Writable { fs with
      backups := afterBackup env clock1.first content0 fs.backups
      config := some s } := hw
  have hmem1 : ∀ n ∈ (afterBackup env clock1.first content0 fs.backups).map Prod.fst,
      n = backupName clock1.first ∨ n ∈ fs.backups.map Prod.fst := by
    intro n hn
    have hn' : n ∈ readdir { fs with backups := afterBackup env clock1.first content0 fs.backups }
      := hn
    rw [readdir_afterBackup] at hn'
    exact (mem_map_fst_storeFile _ _ _ _).1 (List.mem_of_mem_filter hn')
  have hne12 : backupName clock1.first ≠ backupName clock2.first :=
    fun e => nameLT_irrefl _ (e ▸ hfresh2)
  have hsurv2 : lookupFile (backupName clock1.first)
      (afterBackup env clock2.first s (afterBackup env clock1.first content0 fs.backups))
        = some content0 := by
    rw [lookupFile_afterBackup,
      if_neg (second_not_dropped env clock1.first clock2.first s _ hwf1.1
        ((lookupFile_isSome_iff _ _).1 (by rw [hnew1]; rfl))
        (by
          intro n hn hb hne
          rcases hmem1 n hn with h | h
          · exact absurd h hne
          · exact hfresh1 n h hb)
        hfresh2 hmax2),
      if_neg hne12, hnew1]
  have hr2 := restoreBackup_ok env J clock2 (backupName clock1.first)
    { fs with
      backups := afterBackup env clock1.first content0 fs.backups
      config := some s } s content0 doc0 hwf2 hw2 hiso2 hmax0 rfl
    (isBackupName_backupName _) (isPlainName_backupName _ hiso1)
    (by simp only [hnew1]; rfl) hsurv2 hdoc0
  rw [hr2]
  exact ⟨⟨_, rfl, rfl⟩, by simpa using hrt⟩
set_option maxRecDepth 1000000 in
/-- Witness of C10: on the example file system with one earlier snapshot, that
snapshot is restored, then the snapshot the restore returned. -/
theorem restore_is_reversible_witness :
    (restoreBackup defaultEnv twoDocJson exampleClock "exports-2024-04-30T09-00-00-000Z.bak"
        exampleFSWithBackup).response =
        some (restoredResponse "exports-2024-04-30T09-00-00-000Z.bak"
          (pathJoin defaultEnv.BACKUP_DIR (backupName exampleClock.first))) ∧
      lookupFile (backupName exampleClock.first)
        (restoreBackup defaultEnv twoDocJson exampleClock "exports-2024-04-30T09-00-00-000Z.bak"
          exampleFSWithBackup).fs.backups = some exampleText ∧
      (∃ r, (restoreBackup defaultEnv twoDocJson laterClock (backupName exampleClock.first)
          (restoreBackup defaultEnv twoDocJson exampleClock
            "exports-2024-04-30T09-00-00-000Z.bak" exampleFSWithBackup).fs).response = some r ∧
        r.status = 200) ∧
      ((restoreBackup defaultEnv twoDocJson laterClock (backupName exampleClock.first)
          (restoreBackup defaultEnv twoDocJson exampleClock
            "exports-2024-04-30T09-00-00-000Z.bak" exampleFSWithBackup).fs).fs.config.bind
        twoDocJson.parse) = some (.obj exampleKvs) :=
  restore_is_reversible defaultEnv twoDocJson exampleClock laterClock
    "exports-2024-04-30T09-00-00-000Z.bak" exampleFSWithBackup exampleText (.obj exampleKvs)
    (by simp only [FS.WellFormed, readdir, exampleFSWithBackup]; decide) (fun _ => rfl)
    (by decide) (by decide) (by simp [readdir, exampleFSWithBackup]) (by decide)
    (by simp only [readdir, exampleFSWithBackup]; decide) (by decide) rfl (by rfl) (by rfl)
    ⟨_, rfl, rfl⟩

/-! ## Loading: lemmas -/

theorem jsToString_of_converts (v : JSValue) (h : v.converts = true) :
    ∃ s, jsToString v = .ok s := by
  unfold JSValue.converts at h
  cases hj : jsToString v with
  | ok s => exact ⟨s, rfl⟩
  | error e =>
    rw [hj] at h
    cases h

theorem readableClient_iff (c : JSValue) :
    readableClient c = true ↔ c.isNullish = false ∧ (c.field "ip").converts = true ∧
      (c.field "permission").converts = true := by
  simp only [readableClient, Bool.and_eq_true, Bool.not_eq_true', and_assoc]

theorem parseClient_cases (i : Nat) (c : JSValue) (hr : readableClient c = true) :
    (validClient c = true ∧ parseClient i c = .ok (.inr (clientRecord c))) ∨
      (validClient c = false ∧ ∃ msg, parseClient i c = .ok (.inl msg)) := by
  obtain ⟨hn, hip, hperm⟩ := (readableClient_iff c).1 hr
  obtain ⟨b, hb⟩ := validateIP_of_converts _ hip
  obtain ⟨s1, hs1⟩ := jsToString_of_converts _ hip
  obtain ⟨s2, hs2⟩ := jsToString_of_converts _ hperm
  cases b with
  | true =>
    cases hq : isPermission (c.field "permission") with
    | true => exact Or.inl ⟨by simp [validClient, hb, hq], parseClient_valid i c hn hb hq⟩
    | false =>
      refine Or.inr ⟨by simp [validClient, hb, hq], ?_⟩
      simp only [parseClient, getProp_of_not_nullish c _ hn, hb, hq, hs2]
      split
      · exact ⟨_, rfl⟩
      · exact ⟨_, rfl⟩
  | false =>
    refine Or.inr ⟨by simp [validClient, hb], ?_⟩
    simp only [parseClient, getProp_of_not_nullish c _ hn, hb, hs1]
    split
    · exact ⟨_, rfl⟩
    · exact ⟨_, rfl⟩

theorem parseClients_spec (i : Nat) (cs : List JSValue) (hn : ∀ c ∈ cs, readableClient c = true) :
    (parseClients i cs).2 = .ok ((cs.filter validClient).map clientRecord) ∧
      (parseClients i cs).1.length = (cs.filter (fun c => !validClient c)).length := by
  induction cs with
  | nil => exact ⟨rfl, rfl⟩
  | cons c cs ih =>
    obtain ⟨ih1, ih2⟩ := ih (fun x hx => hn x (List.mem_cons_of_mem _ hx))
    rcases parseClient_cases i c (hn c (List.mem_cons_self _ _)) with ⟨hv, hp⟩ | ⟨hv, msg, hp⟩
    · simp [parseClients, hp, hv, ih1, ih2]
    · simp [parseClients, hp, hv, ih1, ih2]

theorem parseExport_spec (i : Nat) (e : JSValue)
    (hn : (e.field "path").truthy = true → ∀ c ∈ clientEntries e, readableClient c = true) :
    (parseExport i e).2 = loadedExport e ∧ (parseExport i e).1.length = diagnosticCount e := by
  cases e with
  | obj kvs =>
    cases hc : JSValue.lookup "clients" kvs with
    | arr cs =>
      by_cases hp : (JSValue.lookup "path" kvs).truthy = true
      · have hcs : ∀ c ∈ cs, readableClient c = true := by
          simpa [clientEntries, JSValue.field, hc] using hn (by simpa [JSValue.field] using hp)
        obtain ⟨h1, h2⟩ := parseClients_spec i cs hcs
        have hsplit : parseClients i cs = ((parseClients i cs).1, (parseClients i cs).2) := rfl
        rw [h1] at hsplit
        cases hf : (cs.filter validClient).map clientRecord with
        | nil =>
          have hany : cs.any validClient = false := by
            rw [List.map_eq_nil_iff, List.filter_eq_nil_iff] at hf
            simpa using hf
          rw [hf] at hsplit
          have hpe : parseExport i (.obj kvs) =
              ((parseClients i cs).1 ++ [exportLabel i ++ "No valid clients found"], none) := by
            simp only [parseExport, getProp, hc, hp, Bool.not_true, Bool.false_eq_true,
              ↓reduceIte]
            rw [hsplit]
          rw [hpe]
          simp [loadedExport, diagnosticCount, hasPathAndClients, clientEntries, JSValue.field,
            JSValue.isArray, hany, h2, hc, hp]
        | cons v vs =>
          have hany : cs.any validClient = true := by
            by_contra hcon
            have : cs.filter validClient = [] := by
              rw [List.filter_eq_nil_iff]
              simpa using hcon
            simp [this] at hf
          rw [hf] at hsplit
          have hpe : parseExport i (.obj kvs) =
              ((parseClients i cs).1, some (.obj [("path", JSValue.lookup "path" kvs),
                ("clients", .arr (v :: vs)),
                ("metadata", metadataOrEmpty (JSValue.lookup "metadata" kvs))])) := by
            simp only [parseExport, getProp, hc, hp, Bool.not_true, Bool.false_eq_true,
              ↓reduceIte]
            rw [hsplit]
          rw [hpe]
          simp [loadedExport, diagnosticCount, hasPathAndClients, clientEntries, JSValue.field,
            JSValue.isArray, hany, h2, hc, hp, hf]
      · simp [parseExport, getProp, hc, hp, loadedExport, diagnosticCount, hasPathAndClients,
          JSValue.field]
    | undefined =>
      simp [parseExport, getProp, hc, loadedExport, diagnosticCount, hasPathAndClients,
        JSValue.field, JSValue.isArray]
    | null =>
      simp [parseExport, getProp, hc, loadedExport, diagnosticCount, hasPathAndClients,
        JSValue.field, JSValue.isArray]
    | bool _ =>
      simp [parseExport, getProp, hc, loadedExport, diagnosticCount, hasPathAndClients,
        JSValue.field, JSValue.isArray]
    | num _ =>
      simp [parseExport, getProp, hc, loadedExport, diagnosticCount, hasPathAndClients,
        JSValue.field, JSValue.isArray]
    | str _ =>
      simp [parseExport, getProp, hc, loadedExport, diagnosticCount, hasPathAndClients,
        JSValue.field, JSValue.isArray]
    | obj _ =>
      simp [parseExport, getProp, hc, loadedExport, diagnosticCount, hasPathAndClients,
        JSValue.field, JSValue.isArray]
  | undefined =>
    simp [parseExport, getProp, loadedExport, diagnosticCount, hasPathAndClients, JSValue.field,
      JSValue.truthy]
  | null =>
    simp [parseExport, getProp, loadedExport, diagnosticCount, hasPathAndClients, JSValue.field,
      JSValue.truthy]
  | bool _ =>
    simp [parseExport, getProp, loadedExport, diagnosticCount, hasPathAndClients, JSValue.field,
      JSValue.truthy]
  | num _ =>
    simp [parseExport, getProp, loadedExport, diagnosticCount, hasPathAndClients, JSValue.field,
      JSValue.truthy]
  | str _ =>
    simp [parseExport, getProp, loadedExport, diagnosticCount, hasPathAndClients, JSValue.field,
      JSValue.truthy]
  | arr _ =>
    simp [parseExport, getProp, loadedExport, diagnosticCount, hasPathAndClients, JSValue.field,
      JSValue.truthy]

/-! ## C11: what loading returns -/

set_option maxRecDepth 100000 in
/-- C11 (as worded, refuted): the configuration file parses to a document whose
only export has a path, a clients array and a valid client, followed by a `null`
entry in that array.  The claim has the export returned with its valid client;
`parseExportsFile` returns no export at all: reading `ip` of `null` throws, and
the `catch` around the export records one parse-error diagnostic. -/
theorem load_drops_export_with_null_client :
    loadJson.parse nullClientText = some (.obj [("exports", .arr [nullClientExport])]) ∧
    hasPathAndClients nullClientExport = true ∧
    (clientEntries nullClientExport).filter validClient =
      [.obj [("ip", .str "10.0.0.1"), ("permission", .str "rw")]] ∧
    (getExports defaultEnv loadJson { exampleFS with config := some nullClientText }).exports
      = [] ∧
    (getExports defaultEnv loadJson { exampleFS with config := some nullClientText }).errors
      = ["Export 1: Parse error - Cannot read properties of null (reading 'ip')"] :=
  ⟨by rfl, by rfl, by rfl, by rfl, by rfl⟩

set_option maxRecDepth 100000 in
/-- A second input on which the export is dropped with its valid client: the
second client has an ip that cannot be converted to a string, `validateIP`
throws, and the `catch` around the export records one parse-error diagnostic. -/
theorem load_drops_export_with_unconvertible_ip :
    unconvertibleIpJson.parse unconvertibleIpText =
      some (.obj [("exports", .arr [unconvertibleIpExport])]) ∧
    (clientEntries unconvertibleIpExport).filter validClient =
      [.obj [("ip", .str "10.0.0.1"), ("permission", .str "rw")]] ∧
    (getExports defaultEnv unconvertibleIpJson
        { exampleFS with config := some unconvertibleIpText }).exports = [] ∧
    (getExports defaultEnv unconvertibleIpJson
        { exampleFS with config := some unconvertibleIpText }).errors =
      ["Export 1: Parse error - Cannot convert object to primitive value"] :=
  ⟨by rfl, by rfl, by rfl, by rfl⟩

/-- C11 (amended): for every configuration file whose content parses to a
document with an exports array in which no client entry is `null` or has an ip
or a permission that cannot be converted to a string, load returns, in their
original order, exactly the records that have a path, a clients array and at
least one valid client, each carrying only its valid clients in order
(`loadedExport`); and the number of diagnostics is the sum over the records of
`diagnosticCount`: one for a record without path or clients array, otherwise one
for each client that is not valid and one more when no valid client is left. -/
theorem load_returns_valid_records (env : Env) (J : Json) (fs : FS) (content : String)
    (doc : JSValue) (exps : List JSValue)
    (hcfg : fs.config = some content) (hdoc : J.parse content = some doc)
    (hexps : doc.field "exports" = .arr exps)
    (hnn : ∀ e ∈ exps, (e.field "path").truthy = true →
      ∀ c ∈ clientEntries e, readableClient c = true) :
    (getExports env J fs).exports = exps.filterMap loadedExport ∧
      (getExports env J fs).errors.length = (exps.map diagnosticCount).sum := by
  rw [getExports, parseExportsFile_of_parse env J fs content doc exps hcfg hdoc hexps]
  have key : ∀ (xs : List JSValue) (i : Nat),
      (∀ e ∈ xs, (e.field "path").truthy = true →
        ∀ c ∈ clientEntries e, readableClient c = true) →
      (parseExports i xs).exports = xs.filterMap loadedExport ∧
        (parseExports i xs).errors.length = (xs.map diagnosticCount).sum := by
    intro xs
    induction xs with
    | nil => exact fun _ _ => ⟨rfl, rfl⟩
    | cons e xs ih =>
      intro i hn
      obtain ⟨ih1, ih2⟩ := ih (i + 1) (fun x hx => hn x (List.mem_cons_of_mem _ hx))
      obtain ⟨h1, h2⟩ := parseExport_spec i e (hn e (List.mem_cons_self _ _))
      constructor
      · simp only [parseExports, h1, ih1, List.filterMap_cons]
        cases loadedExport e <;> rfl
      · simp only [parseExports, List.length_append, h2, ih2, List.map_cons, List.sum_cons]
  exact key exps 0 hnn

set_option maxRecDepth 100000 in
/-- Witness of C11: a file with one well-formed export and one export without
`clients` yields exactly one export and exactly one diagnostic. -/
theorem load_returns_valid_records_witness :
    (getExports defaultEnv loadJson { exampleFS with config := some mixedText }).exports =
      [.obj [("path", .str "/srv/nfs"),
        ("clients", .arr [.obj [("ip", .str "10.0.0.1"), ("permission", .str "rw")]]),
        ("metadata", .obj [])]] ∧
    (getExports defaultEnv loadJson { exampleFS with config := some mixedText }).errors.length
      = 1 := by
  have h := load_returns_valid_records defaultEnv loadJson
    { exampleFS with config := some mixedText } mixedText
    (.obj [("exports", .arr mixedExports)]) mixedExports rfl (by rfl) rfl (by
      intro e he _ c hc
      simp only [mixedExports, List.mem_cons, List.mem_singleton, List.not_mem_nil,
        or_false] at he
      rcases he with rfl | rfl
      · simp only [clientEntries, JSValue.field, JSValue.lookup] at hc
        simp at hc
        subst hc
        rfl
      · simp [clientEntries, JSValue.field, JSValue.lookup] at hc)
  exact ⟨h.1.trans (by rfl), h.2.trans (by rfl)⟩

/-! ## C12: loading never throws -/

theorem parseExport_reports (i : Nat) (e : JSValue) :
    (parseExport i e).2.toList.length = 1 ∨
      ((parseExport i e).2 = none ∧ 1 ≤ (parseExport i e).1.length) := by
  unfold parseExport
  split
  · split
    · split
      · right; simp
      · split
        · right; simp
        · right; simp
        · left; simp
    · right; simp
  · right; simp
  · right; simp
  · right; simp

theorem parseExports_reports (i : Nat) (xs : List JSValue) :
    (parseExports i xs).exports.length ≤ xs.length ∧
      xs.length ≤ (parseExports i xs).exports.length + (parseExports i xs).errors.length := by
  induction xs generalizing i with
  | nil => simp [parseExports]
  | cons e xs ih =>
    obtain ⟨ih1, ih2⟩ := ih (i + 1)
    simp only [parseExports, List.length_append, List.length_cons]
    rcases parseExport_reports i e with h | ⟨h1, h2⟩
    · omega
    · rw [h1]
      simp only [Option.toList, List.length_nil]
      omega

/-- C12: `parseExportsFile` is a total function, every exception raised in it
being caught by one of its two `catch` blocks, so that load returns a result in
every state of the configuration file.  When the file is absent or its content
is not JSON, the result has no export and the single diagnostic `Configuration
file not found or invalid`; when the content is a JSON value without an exports
array, it has no export and a single diagnostic; and when there is an exports
array, whatever its entries (`null`, values of the wrong type, records with
`null` clients), at most one export is returned per entry and every entry is
either returned or reported by a diagnostic. -/
theorem load_never_throws (env : Env) (J : Json) (fs : FS) :
    ((fs.config = none ∨ ∃ c, fs.config = some c ∧ J.parse c = none) →
      (getExports env J fs).exports = [] ∧
        (getExports env J fs).errors = ["Configuration file not found or invalid"]) ∧
    (∀ c v, fs.config = some c → J.parse c = some v → (v.field "exports").isArray = false →
      (getExports env J fs).exports = [] ∧ (getExports env J fs).errors.length = 1) ∧
    (∀ c v xs, fs.config = some c → J.parse c = some v → v.field "exports" = .arr xs →
      (getExports env J fs).exports.length ≤ xs.length ∧
        xs.length ≤ (getExports env J fs).exports.length + (getExports env J fs).errors.length) := by
  refine ⟨?_, ?_, ?_⟩
  · rintro (h | ⟨c, hc, hp⟩)
    · simp [getExports, parseExportsFile, readFile_config, h]
    · simp [getExports, parseExportsFile, readFile_config, hc, hp]
  · intro c v hc hp harr
    simp only [getExports, parseExportsFile, readFile_config, hc, hp]
    cases v with
    | obj kvs =>
      simp only [JSValue.field] at harr
      simp only [getProp]
      cases hl : JSValue.lookup "exports" kvs <;> simp [hl, JSValue.isArray] at harr ⊢
    | undefined => simp [getProp]
    | null => simp [getProp]
    | bool _ => simp [getProp]
    | num _ => simp [getProp]
    | str _ => simp [getProp]
    | arr _ => simp [getProp]
  · intro c v xs hc hp hx
    rw [getExports, parseExportsFile_of_parse env J fs c v xs hc hp hx]
    exact parseExports_reports 0 xs

set_option maxRecDepth 100000 in
/-- Witness of C12: with the configuration file absent, load returns no export
and one diagnostic; with the document whose export holds a `null` client, it
returns a result as well. -/
theorem load_never_throws_witness :
    ((getExports defaultEnv loadJson { exampleFS with config := none }).exports = [] ∧
      (getExports defaultEnv loadJson { exampleFS with config := none }).errors =
        ["Configuration file not found or invalid"]) ∧
    ((getExports defaultEnv loadJson { exampleFS with config := some nullClientText }).exports.length
        ≤ 1 ∧
      1 ≤ (getExports defaultEnv loadJson
          { exampleFS with config := some nullClientText }).exports.length +
        (getExports defaultEnv loadJson
          { exampleFS with config := some nullClientText }).errors.length) :=
  ⟨(load_never_throws defaultEnv loadJson { exampleFS with config := none }).1 (Or.inl rfl),
   (load_never_throws defaultEnv loadJson { exampleFS with config := some nullClientText }).2.2
     nullClientText (.obj [("exports", .arr [nullClientExport])]) [nullClientExport] rfl
     (by rfl) rfl⟩

/-! ## C13: loading and the path of a record -/

theorem parseExports_errors_append (i : Nat) (xs ys : List JSValue) :
    (parseExports i (xs ++ ys)).errors =
      (parseExports i xs).errors ++ (parseExports (i + xs.length) ys).errors := by
  induction xs generalizing i with
  | nil => simp [parseExports]
  | cons x xs ih =>
    have : i + 1 + xs.length = i + (xs.length + 1) := by omega
    rw [List.cons_append]
    simp only [parseExports, List.length_cons, List.append_assoc]
    rw [ih, this]

theorem parseExport_truthy (i : Nat) (e x : JSValue) (h : (parseExport i e).2 = some x) :
    (e.field "path").truthy = true := by
  unfold parseExport at h
  cases e <;> simp [getProp] at h
  rename_i kvs
  split at h
  · split at h
    · simp at h
    · rename_i hp
      simpa [JSValue.field] using hp
  · simp at h

theorem parseExport_missing_path (i : Nat) (e : JSValue)
    (h : (e.field "path").truthy = false) :
    (parseExport i e).2 = none ∧ ∃ msg, (parseExport i e).1 = [exportLabel i ++ msg] := by
  cases e with
  | obj kvs =>
    have hp : (JSValue.lookup "path" kvs).truthy = false := by simpa [JSValue.field] using h
    refine ⟨?_, "Invalid export configuration", ?_⟩
    · simp only [parseExport, getProp]
      split <;> simp [hp]
    · simp only [parseExport, getProp]
      split <;> simp [hp]
  | undefined =>
    refine ⟨rfl, "Parse error - " ++ (JSError.typeError
      "Cannot read properties of undefined (reading 'path')").message, ?_⟩
    simp only [parseExport, getProp, String.append_assoc]
    rfl
  | null =>
    refine ⟨rfl, "Parse error - " ++ (JSError.typeError
      "Cannot read properties of null (reading 'path')").message, ?_⟩
    simp only [parseExport, getProp, String.append_assoc]
    rfl
  | bool _ => exact ⟨rfl, "Invalid export configuration", rfl⟩
  | num _ => exact ⟨rfl, "Invalid export configuration", rfl⟩
  | str _ => exact ⟨rfl, "Invalid export configuration", rfl⟩
  | arr _ => exact ⟨rfl, "Invalid export configuration", rfl⟩

theorem parseExports_present_path (i : Nat) (exps : List JSValue) (x : JSValue)
    (h : x ∈ (parseExports i exps).exports) :
    ∃ e ∈ exps, x.field "path" = e.field "path" ∧ (e.field "path").truthy = true := by
  induction exps generalizing i with
  | nil => simp [parseExports] at h
  | cons e exps ih =>
    simp only [parseExports, List.mem_append, Option.mem_toList, Option.mem_def] at h
    rcases h with h | h
    · exact ⟨e, List.mem_cons_self _ _, (parseExport_path i e x h).1, parseExport_truthy i e x h⟩
    · obtain ⟨e', he', hp⟩ := ih _ h
      exact ⟨e', List.mem_cons_of_mem _ he', hp⟩

set_option maxRecDepth 100000 in
/-- C13 (as worded, refuted): the only export of the file has the path
`relative/path`, for which `validatePath` is false, and a valid client; load
returns it, and records no diagnostic. -/
theorem load_keeps_malformed_path :
    validatePath (.str "relative/path") = false ∧
    relativePathJson.parse relativePathText = some (.obj [("exports", .arr relativePathExports)]) ∧
    (getExports defaultEnv relativePathJson
        { exampleFS with config := some relativePathText }).exports =
      [.obj [("path", .str "relative/path"),
        ("clients", .arr [.obj [("ip", .str "10.0.0.1"), ("permission", .str "rw")]]),
        ("metadata", .obj [])]] ∧
    (getExports defaultEnv relativePathJson
        { exampleFS with config := some relativePathText }).errors = [] :=
  ⟨by rfl, by rfl, by rfl, by rfl⟩

/-- C13 (amended): every export returned by load has a path that is present (not
absent, `null` or empty), the path of a record of the file; a record whose path
is missing is dropped from the result, which then consists of the exports loaded
from the records before it and after it, and a diagnostic labelled with the
position of the record is recorded for it.  The form of the path is not
checked. -/
theorem load_checks_path_presence (env : Env) (J : Json) (fs : FS) (content : String)
    (doc : JSValue) (exps : List JSValue)
    (hcfg : fs.config = some content) (hdoc : J.parse content = some doc)
    (hexps : doc.field "exports" = .arr exps) :
    (∀ x ∈ (getExports env J fs).exports,
      (x.field "path").truthy = true ∧ ∃ e ∈ exps, x.field "path" = e.field "path") ∧
    ∀ pre e post, exps = pre ++ e :: post → (e.field "path").truthy = false →
      (getExports env J fs).exports =
          (parseExports 0 pre).exports ++ (parseExports (pre.length + 1) post).exports ∧
        ∃ msg, exportLabel pre.length ++ msg ∈ (getExports env J fs).errors := by
  rw [getExports, parseExportsFile_of_parse env J fs content doc exps hcfg hdoc hexps]
  constructor
  · intro x hx
    obtain ⟨e, he, hp, ht⟩ := parseExports_present_path 0 exps x hx
    exact ⟨hp ▸ ht, e, he, hp⟩
  · intro pre e post hsplit hfalsy
    obtain ⟨hnone, msg, hmsg⟩ := parseExport_missing_path (0 + pre.length) e hfalsy
    subst hsplit
    rw [parseExports_append, parseExports_errors_append]
    constructor
    · simp only [parseExports, hnone, Option.toList, List.nil_append]
      simp
    · refine ⟨msg, ?_⟩
      simp only [parseExports, hmsg, List.mem_append, List.mem_cons]
      simp

set_option maxRecDepth 100000 in
/-- Witness of C13: in a file whose first record has no path and whose second
record is well formed, the returned export has the path `/srv/nfs` of the second
record, the first record is dropped and a diagnostic `Export 1: ...` is
recorded. -/
theorem load_checks_path_presence_witness :
    (∀ x ∈ (getExports defaultEnv missingPathJson
        { exampleFS with config := some missingPathText }).exports,
      (x.field "path").truthy = true ∧
        ∃ e ∈ missingPathExports, x.field "path" = e.field "path") ∧
    (getExports defaultEnv missingPathJson
        { exampleFS with config := some missingPathText }).exports =
      (parseExports 0 []).exports ++ (parseExports 1 exampleExports).exports ∧
    ∃ msg, exportLabel 0 ++ msg ∈ (getExports defaultEnv missingPathJson
      { exampleFS with config := some missingPathText }).errors :=
  ⟨(load_checks_path_presence defaultEnv missingPathJson
      { exampleFS with config := some missingPathText } missingPathText
      (.obj [("exports", .arr missingPathExports)]) missingPathExports rfl (by rfl) rfl).1,
    (load_checks_path_presence defaultEnv missingPathJson
      { exampleFS with config := some missingPathText } missingPathText
      (.obj [("exports", .arr missingPathExports)]) missingPathExports rfl (by rfl) rfl).2
      [] _ exampleExports rfl rfl⟩

/-! ## C14: a failed snapshot aborts the operation -/

theorem handle_of_accepted (env : Env) (J : Json) (clock : Clock) (req : Request) (fs : FS)
    (hacc : req.Accepted env fs) :
    (handle env J clock req fs =
        withBackup env J req.failure clock.first fs (req.steps clock)) ∨
      ∃ filename, req = .restore filename := by
  cases req with
  | create path clients =>
    obtain ⟨hp, ⟨cs, rfl, hne, hcs⟩, hacc⟩ := hacc
    left
    cases cs with
    | nil => exact absurd rfl hne
    | cons c cs =>
      simp [handle, createExport, hp, clientsValid_true _ hcs, hacc, Request.failure,
        Request.steps]
  | replaceClients exportPath clients =>
    obtain ⟨hp, cs, rfl, hne, hcs⟩ := hacc
    left
    cases cs with
    | nil => exact absurd rfl hne
    | cons c cs =>
      simp [handle, replaceClients, hp, clientsValid_true _ hcs, Request.failure, Request.steps]
  | deleteExport exportPath =>
    left
    have hp : validatePath (.str exportPath) = true := hacc
    simp [handle, deleteExport, hp, Request.failure, Request.steps]
  | addClient exportPath ip permission =>
    obtain ⟨hp, hip, hperm⟩ := hacc
    left
    simp [handle, addClient, hp, hip, hperm, validateIP_truthy _ hip,
      isPermission_truthy _ hperm, Request.failure, Request.steps]
  | removeClient exportPath ip =>
    obtain ⟨hp, hip⟩ := hacc
    left
    simp [handle, removeClient, hp, hip, Request.failure, Request.steps]
  | restore filename => exact Or.inr ⟨_, rfl⟩

/-- C14: for every call of create, replace-clients, delete-export, add-client,
remove-client or restore that passes the checks made before the snapshot, if
`createBackup` throws, the call is answered with status 500 and the message of
the handler's `catch` block, and the configuration file is as it was before the
call.  The directory listing is assumed to hold plain names and the timestamp no
separator. -/
theorem snapshot_failure_aborts (env : Env) (J : Json) (clock : Clock) (req : Request)
    (fs : FS) (e : JSError) (hwf : fs.WellFormed) (hiso : '/' ∉ clock.first.data)
    (hacc : req.Accepted env fs)
    (hfail : (createBackup env clock.first fs).1 = .error e) :
    (handle env J clock req fs).response = some (errorResponse 500 req.failure) ∧
      (handle env J clock req fs).fs.config = fs.config := by
  have hframe := (createBackup_frame env clock.first fs hwf hiso).1
  rcases hcb : createBackup env clock.first fs with ⟨res, fs1⟩
  rw [hcb] at hfail hframe
  simp only at hfail hframe
  subst hfail
  rcases handle_of_accepted env J clock req fs hacc with h | ⟨filename, rfl⟩
  · rw [h]
    constructor
    · simp only [withBackup, hcb]
    · simpa only [withBackup, hcb] using hframe
  · obtain ⟨hne, hbak, hacc⟩ := hacc
    constructor
    · simp [handle, restoreBackup, hne, hbak, hacc, hcb, Request.failure]
    · simpa [handle, restoreBackup, hne, hbak, hacc, hcb] using hframe

set_option maxRecDepth 100000 in
/-- Witness of C14: the configuration file is absent, so that `createBackup`
throws on reading it; deleting the export `/srv/nfs` answers 500. -/
theorem snapshot_failure_aborts_witness :
    (handle defaultEnv twoDocJson exampleClock (.deleteExport "/srv/nfs")
        { exampleFS with config := none }).response =
      some (errorResponse 500 "Failed to delete export") ∧
    (handle defaultEnv twoDocJson exampleClock (.deleteExport "/srv/nfs")
        { exampleFS with config := none }).fs.config = none :=
  snapshot_failure_aborts defaultEnv twoDocJson exampleClock (.deleteExport "/srv/nfs")
    { exampleFS with config := none } (.ioError "ENOENT")
    (by simp [FS.WellFormed, readdir, exampleFS]) (by decide)
    (show validatePath (.str "/srv/nfs") = true by decide) (by rfl)

/-! ## C15: the checks made before durable state is touched -/

theorem addClient_rejected (env : Env) (J : Json) (clock : Clock) (exportPath : String)
    (ip permission : JSValue) (fs : FS)
    (h : validatePath (.str exportPath) = false ∨ validateIP ip = .ok false ∨
      (ip.converts = true ∧ isPermission permission = false)) :
    ∃ msg, addClient env J clock exportPath ip permission fs =
      { response := some (errorResponse 400 msg), fs := fs } := by
  unfold addClient
  split
  · exact ⟨_, rfl⟩
  · split
    · exact ⟨_, rfl⟩
    · split
      · rename_i hp _ _ e hi
        exfalso
        have hc := (validateIP_error_iff ip).1 ⟨e, hi⟩
        rcases h with h | h | h
        · simp [h] at hp
        · rw [h] at hi
          cases hi
        · rw [h.1] at hc
          cases hc
      · exact ⟨_, rfl⟩
      · split
        · exact ⟨_, rfl⟩
        · rename_i hp _ _ hi hq
          exfalso
          rcases h with h | h | h
          · simp [h] at hp
          · rw [h] at hi
            cases hi
          · simp [h.2] at hq

set_option maxRecDepth 100000 in
/-- C15 (as worded, refuted): `999.1.1.1` fails `validateIP`, yet remove-client
for the export `/srv/nfs` with that ip is not rejected by validation: a snapshot
is written to the backup directory, which was empty, and the call ends with the
lookup error 404. -/
theorem remove_client_skips_ip_validation :
    validateIP (.str "999.1.1.1") = .ok false ∧
    exampleFS.backups = [] ∧
    (handle defaultEnv twoDocJson exampleClock
        (.removeClient (.str "/srv/nfs") (.str "999.1.1.1")) exampleFS).response =
      some (errorResponse 404 "IP address not found for this export") ∧
    (handle defaultEnv twoDocJson exampleClock
        (.removeClient (.str "/srv/nfs") (.str "999.1.1.1")) exampleFS).fs.backups =
      [("exports-2024-05-01T10-00-00-000Z.bak", exampleText)] :=
  ⟨by rfl, by rfl, by rfl, by rfl⟩

/-- C15 (amended): create, replace-clients and add-client check the path and
every ip and permission they are given with the validators, delete-export checks
its path, and remove-client checks its path with `validatePath` and its ip for
presence only; a call that fails one of these checks, no check throwing (no
client entry is `null` and every ip can be converted to a string), is answered
with status 400 and the whole file system, configuration file and backup
directory included, is left as it was. -/
theorem checks_before_durable_state (env : Env) (J : Json) (clock : Clock) (req : Request)
    (fs : FS) (h : req.FailsChecks) :
    ∃ msg, handle env J clock req fs = { response := some (errorResponse 400 msg), fs := fs } := by
  cases req with
  | create path clients => exact invalidExportInput_rejected path clients fs _ h
  | replaceClients exportPath clients =>
    exact invalidExportInput_rejected (.str exportPath) clients fs _ h
  | deleteExport exportPath =>
    have hp : validatePath (.str exportPath) = false := h
    exact ⟨"Invalid path", by simp [handle, deleteExport, hp]⟩
  | addClient exportPath ip permission =>
    exact addClient_rejected env J clock exportPath ip permission fs h
  | removeClient exportPath ip =>
    simp only [handle, removeClient]
    split
    · exact ⟨_, rfl⟩
    · split
      · exact ⟨_, rfl⟩
      · rename_i hp hi
        exfalso
        rcases h with h | h
        · simp [h] at hp
        · simp [h] at hi
  | restore _ => exact absurd h (by simp [Request.FailsChecks])

set_option maxRecDepth 100000 in
/-- Witness of C15: delete-export with the path `relative/path`, remove-client
without ip, and add-client with the ip `999.1.1.1`, on the example file
system. -/
theorem checks_before_durable_state_witness :
    (∃ msg, handle defaultEnv twoDocJson exampleClock (.deleteExport "relative/path") exampleFS =
      { response := some (errorResponse 400 msg), fs := exampleFS }) ∧
    (∃ msg, handle defaultEnv twoDocJson exampleClock
        (.removeClient (.str "/srv/nfs") .undefined) exampleFS =
      { response := some (errorResponse 400 msg), fs := exampleFS }) ∧
    (∃ msg, handle defaultEnv twoDocJson exampleClock
        (.addClient "/srv/nfs" (.str "999.1.1.1") (.str "rw")) exampleFS =
      { response := some (errorResponse 400 msg), fs := exampleFS }) :=
  ⟨checks_before_durable_state _ _ _ (.deleteExport "relative/path") _
      (show validatePath (.str "relative/path") = false by decide),
    checks_before_durable_state _ _ _ (.removeClient (.str "/srv/nfs") .undefined) _
      (Or.inr rfl),
    checks_before_durable_state _ _ _ (.addClient "/srv/nfs" (.str "999.1.1.1") (.str "rw")) _
      (Or.inr (Or.inl (by decide)))⟩

/-! ## C16: what a lookup error leaves behind -/

theorem steps_save_status (clock : Clock) (req : Request) (config c : JSValue) (b : String)
    (r : Response) (f : Bool) (h : req.steps clock config b = .ok (.save c r f)) :
    r.status = 200 := by
  cases req with
  | create path clients =>
    simp only [Request.steps, createSteps] at h
    repeat' split at h
    all_goals first
      | (cases h; done)
      | (simp only [Except.ok.injEq, Decision.save.injEq] at h
         obtain ⟨-, rfl, -⟩ := h
         rfl)
  | replaceClients exportPath clients =>
    simp only [Request.steps, replaceSteps] at h
    repeat' split at h
    all_goals first
      | (cases h; done)
      | (simp only [Except.ok.injEq, Decision.save.injEq] at h
         obtain ⟨-, rfl, -⟩ := h
         rfl)
  | deleteExport exportPath =>
    simp only [Request.steps, deleteSteps] at h
    repeat' split at h
    all_goals first
      | (cases h; done)
      | (simp only [Except.ok.injEq, Decision.save.injEq] at h
         obtain ⟨-, rfl, -⟩ := h
         rfl)
  | addClient exportPath ip permission =>
    simp only [Request.steps, addClientSteps] at h
    repeat' split at h
    all_goals first
      | (cases h; done)
      | (simp only [Except.ok.injEq, Decision.save.injEq] at h
         obtain ⟨-, rfl, -⟩ := h
         rfl)
  | removeClient exportPath ip =>
    simp only [Request.steps, removeClientSteps] at h
    repeat' split at h
    all_goals first
      | (cases h; done)
      | (simp only [Except.ok.injEq, Decision.save.injEq] at h
         obtain ⟨-, rfl, -⟩ := h
         rfl)
  | restore _ => cases h

theorem errorResponse_not_lookup (n : Nat) (msg : String) (hn : n ≠ 404)
    (hmsg : n = 400 → msg ≠ "Export already exists" ∧
      msg ≠ "IP address already exists for this export") :
    ¬ (errorResponse n msg).IsLookupError := by
  rintro (h | ⟨h4, h | h⟩)
  · exact hn h
  · simp only [errorResponse, JSValue.obj.injEq, List.cons.injEq, Prod.mk.injEq,
      JSValue.str.injEq, true_and, and_true] at h
    exact (hmsg h4).1 h
  · simp only [errorResponse, JSValue.obj.injEq, List.cons.injEq, Prod.mk.injEq,
      JSValue.str.injEq, true_and, and_true] at h
    exact (hmsg h4).2 h

theorem handle_cases_steps (env : Env) (J : Json) (clock : Clock) (req : Request) (fs : FS) :
    (∃ o, handle env J clock req fs = { response := o, fs := fs } ∧
        ∀ r, o = some r → ¬ r.IsLookupError) ∨
      handle env J clock req fs =
        withBackup env J req.failure clock.first fs (req.steps clock) ∨
      ∃ filename, req = .restore filename := by
  have early : ∀ (n : Nat) (msg : String), n ≠ 404 →
      (n = 400 → msg ≠ "Export already exists" ∧
        msg ≠ "IP address already exists for this export") →
      ∀ r, some (errorResponse n msg) = some r → ¬ r.IsLookupError := by
    intro n msg hn hmsg r hr
    simp only [Option.some.injEq] at hr
    subst hr
    exact errorResponse_not_lookup n msg hn hmsg
  cases req with
  | create path clients =>
    simp only [handle, createExport]
    split
    · exact Or.inl ⟨_, rfl, early _ _ (by decide) (fun _ => by decide)⟩
    · split
      · split
        · exact Or.inl ⟨_, rfl, by simp⟩
        · exact Or.inl ⟨_, rfl, early _ _ (by decide) (fun _ => by decide)⟩
        · split
          · exact Or.inl ⟨_, rfl, early _ _ (by decide) (fun _ => by decide)⟩
          · exact Or.inr (Or.inl rfl)
      · exact Or.inl ⟨_, rfl, early _ _ (by decide) (fun _ => by decide)⟩
  | replaceClients exportPath clients =>
    simp only [handle, replaceClients]
    split
    · exact Or.inl ⟨_, rfl, early _ _ (by decide) (fun _ => by decide)⟩
    · split
      · split
        · exact Or.inl ⟨_, rfl, by simp⟩
        · exact Or.inl ⟨_, rfl, early _ _ (by decide) (fun _ => by decide)⟩
        · exact Or.inr (Or.inl rfl)
      · exact Or.inl ⟨_, rfl, early _ _ (by decide) (fun _ => by decide)⟩
  | deleteExport exportPath =>
    simp only [handle, deleteExport]
    split
    · exact Or.inl ⟨_, rfl, early _ _ (by decide) (fun _ => by decide)⟩
    · exact Or.inr (Or.inl rfl)
  | addClient exportPath ip permission =>
    simp only [handle, addClient]
    split
    · exact Or.inl ⟨_, rfl, early _ _ (by decide) (fun _ => by decide)⟩
    · split
      · exact Or.inl ⟨_, rfl, early _ _ (by decide) (fun _ => by decide)⟩
      · split
        · exact Or.inl ⟨_, rfl, by simp⟩
        · exact Or.inl ⟨_, rfl, early _ _ (by decide) (fun _ => by decide)⟩
        · split
          · exact Or.inl ⟨_, rfl, early _ _ (by decide) (fun _ => by decide)⟩
          · exact Or.inr (Or.inl rfl)
  | removeClient exportPath ip =>
    simp only [handle, removeClient]
    split
    · exact Or.inl ⟨_, rfl, early _ _ (by decide) (fun _ => by decide)⟩
    · split
      · exact Or.inl ⟨_, rfl, early _ _ (by decide) (fun _ => by decide)⟩
      · exact Or.inr (Or.inl rfl)
  | restore filename => exact Or.inr (Or.inr ⟨_, rfl⟩)

theorem restoreBackup_not_lookup (env : Env) (J : Json) (clock : Clock) (filename : String)
    (fs : FS) (r : Response) (h : (restoreBackup env J clock filename fs).response = some r) :
    ¬ r.IsLookupError := by
  have e500 : ¬ (errorResponse 500 "Failed to restore backup").IsLookupError :=
    errorResponse_not_lookup _ _ (by decide) (fun h => absurd h (by decide))
  unfold restoreBackup at h
  split at h
  · simp only [Option.some.injEq] at h
    subst h
    exact errorResponse_not_lookup _ _ (by decide) (fun _ => by decide)
  · simp only at h
    repeat' split at h
    all_goals simp only [Option.some.injEq] at h
    all_goals subst h
    all_goals first
      | exact e500
      | (rintro (h | ⟨h, -⟩) <;> simp [restoredResponse] at h)

theorem withBackup_lookup_error (env : Env) (J : Json) (clock : Clock) (req : Request)
    (fs : FS) (r : Response) (hwf : fs.WellFormed) (hiso : '/' ∉ clock.first.data)
    (h : (withBackup env J req.failure clock.first fs (req.steps clock)).response = some r)
    (hr : r.IsLookupError) :
    ∃ c, fs.config = some c ∧ 0 ≤ env.MAX_BACKUPS ∧
      (withBackup env J req.failure clock.first fs (req.steps clock)).fs =
        { fs with backups := afterBackup env clock.first c fs.backups } := by
  have e500 : ∀ msg, ¬ (errorResponse 500 msg).IsLookupError := fun msg =>
    errorResponse_not_lookup _ _ (by decide) (fun h => absurd h (by decide))
  have h200 : ∀ x : Response, x.status = 200 → ¬ x.IsLookupError := by
    rintro x hx (h | ⟨h, -⟩) <;> rw [hx] at h <;> cases h
  unfold withBackup at h ⊢
  rcases hcb : createBackup env clock.first fs with ⟨res, fs1⟩
  rw [hcb] at h
  cases res with
  | error e =>
    simp only [Option.some.injEq] at h
    subst h
    exact absurd hr (e500 _)
  | ok b =>
    obtain ⟨c, hc, -, hfs1, hmax⟩ := createBackup_inv env clock.first b fs fs1 hwf hiso hcb
    refine ⟨c, hc, hmax, ?_⟩
    simp only at h ⊢
    cases hst : req.steps clock (readConfig env J fs1) b with
    | error e =>
      rw [hst] at h
      simp only [commit, Option.some.injEq] at h
      subst h
      exact absurd hr (e500 _)
    | ok d =>
      cases d with
      | reject r' =>
        simp only [commit]
        exact hfs1
      | save config r' f =>
        exfalso
        have hs := steps_save_status clock req _ _ _ _ _ hst
        rw [hst] at h
        simp only [commit] at h
        split at h
        · simp only [Option.some.injEq] at h
          subst h
          split at hr
          · exact h200 _ hs hr
          · exact e500 _ hr
        · simp only [Option.some.injEq] at h
          subst h
          exact h200 _ hs hr

theorem fresh_snapshot_lookup (env : Env) (iso c : String) (fs : FS) (hwf : fs.WellFormed)
    (hfresh : ∀ n ∈ readdir fs, isBackupName n = true → nameLT n (backupName iso))
    (hmax : 1 ≤ env.MAX_BACKUPS) :
    lookupFile (backupName iso) fs.backups = none ∧
      lookupFile (backupName iso) (afterBackup env iso c fs.backups) = some c := by
  constructor
  · have hn := fresh_not_mem iso (readdir fs) hfresh
    cases hl : lookupFile (backupName iso) fs.backups with
    | none => rfl
    | some v => exact absurd ((lookupFile_isSome_iff _ _).1 (by rw [hl]; rfl)) hn
  · rw [lookupFile_afterBackup, if_neg (fresh_not_dropped env iso c fs.backups hwf.1 hfresh hmax),
      if_pos rfl]

set_option maxRecDepth 100000 in
/-- C16 (as worded, refuted): on the example file system, whose backup directory
is empty, delete-export of the unknown path `/srv/missing` fails with NotFound
and create of the existing path `/srv/nfs` fails with Conflict; in both cases
the configuration file is unchanged, but the backup directory now holds a
snapshot. -/
theorem lookup_error_leaves_snapshot :
    exampleFS.backups = [] ∧
    handle defaultEnv twoDocJson exampleClock (.deleteExport "/srv/missing") exampleFS =
      { response := some (errorResponse 404 "Export not found")
        fs := { exampleFS with
          backups := [("exports-2024-05-01T10-00-00-000Z.bak", exampleText)] } } ∧
    handle defaultEnv twoDocJson exampleClock
        (.create (.str "/srv/nfs") (.arr exampleClients)) exampleFS =
      { response := some (errorResponse 400 "Export already exists")
        fs := { exampleFS with
          backups := [("exports-2024-05-01T10-00-00-000Z.bak", exampleText)] } } :=
  ⟨by rfl, by rfl, by rfl⟩

/-- C16 (amended): when a call of create, replace-clients, delete-export,
add-client or remove-client fails with a lookup error (NotFound, or Conflict),
the configuration file is unchanged and nothing but the backup directory has
changed: the snapshot taken before the lookup has been stored and the snapshots
beyond the retention count pruned.  With a clock that gives a name newer than
those of the existing snapshots and a retention count other than zero, the new
snapshot, which holds the content of the configuration file, is a file that was
not there before the call. -/
theorem lookup_error_effects (env : Env) (J : Json) (clock : Clock) (req : Request) (fs : FS)
    (r : Response) (hwf : fs.WellFormed) (hiso : '/' ∉ clock.first.data)
    (hresp : (handle env J clock req fs).response = some r) (hr : r.IsLookupError) :
    ∃ c, fs.config = some c ∧
      (handle env J clock req fs).fs.config = fs.config ∧
      (handle env J clock req fs).fs =
        { fs with backups := afterBackup env clock.first c fs.backups } ∧
      ((∀ n ∈ readdir fs, isBackupName n = true → nameLT n (backupName clock.first)) →
        env.MAX_BACKUPS ≠ 0 →
        lookupFile (backupName clock.first) fs.backups = none ∧
          lookupFile (backupName clock.first) (handle env J clock req fs).fs.backups =
            some c) := by
  rcases handle_cases_steps env J clock req fs with ⟨o, ho, hno⟩ | hw | ⟨filename, rfl⟩
  · rw [ho] at hresp
    exact absurd hr (hno r hresp)
  · rw [hw] at hresp ⊢
    obtain ⟨c, hc, hmax, hfs⟩ := withBackup_lookup_error env J clock req fs r hwf hiso hresp hr
    refine ⟨c, hc, by rw [hfs], hfs, ?_⟩
    intro hfresh hne
    rw [hfs]
    exact fresh_snapshot_lookup env clock.first c fs hwf hfresh (by omega)
  · exact absurd hr (restoreBackup_not_lookup env J clock filename fs r hresp)

set_option maxRecDepth 100000 in
/-- Witness of C16: add-client of the ip `10.0.0.1`, which the export `/srv/nfs`
already has, on the example file system with one earlier snapshot. -/
theorem lookup_error_effects_witness :
    ∃ c, exampleFSWithBackup.config = some c ∧
      (handle defaultEnv twoDocJson exampleClock
        (.addClient "/srv/nfs" (.str "10.0.0.1") (.str "ro")) exampleFSWithBackup).fs.config =
        exampleFSWithBackup.config ∧
      (handle defaultEnv twoDocJson exampleClock
        (.addClient "/srv/nfs" (.str "10.0.0.1") (.str "ro")) exampleFSWithBackup).fs =
        { exampleFSWithBackup with
          backups := afterBackup defaultEnv exampleClock.first c exampleFSWithBackup.backups } ∧
      lookupFile (backupName exampleClock.first) exampleFSWithBackup.backups = none ∧
      lookupFile (backupName exampleClock.first)
        (handle defaultEnv twoDocJson exampleClock
          (.addClient "/srv/nfs" (.str "10.0.0.1") (.str "ro"))
          exampleFSWithBackup).fs.backups = some c := by
  obtain ⟨c, hc, h1, h2, h3⟩ := lookup_error_effects defaultEnv twoDocJson exampleClock
    (.addClient "/srv/nfs" (.str "10.0.0.1") (.str "ro")) exampleFSWithBackup
    (errorResponse 400 "IP address already exists for this export")
    (by simp [FS.WellFormed, readdir, exampleFSWithBackup, exampleFS]; decide) (by decide)
    (by rfl) (Or.inr ⟨rfl, Or.inr rfl⟩)
  exact ⟨c, hc, h1, h2,
    h3 (by simp only [readdir, exampleFSWithBackup]; decide) (by decide)⟩

/-! ## C17: the modification time -/

set_option maxRecDepth 100000 in
/-- C17 (the code fails the claim): the stored document has one export with one
client and the modification time `2024-04-30T09:00:00.000Z`.  Removing that
client succeeds and deletes the export, and the document saved still carries the
old modification time, not the time of the call: the branch of the handler that
deletes the export does not set `lastModified`.  The other branch does: when the
export has a second client, the document saved carries the time of the call. -/
theorem cascade_delete_keeps_old_lastModified :
    stampedJson.parse stampedText = some (.obj stampedKvs) ∧
    removeClientSteps (.str "/srv/nfs") (.str "10.0.0.1") exampleClock.second (.obj stampedKvs)
        "backup" =
      .ok (.save
        (.obj [("exports", .arr []),
          ("metadata", .obj [("lastModified", .str "2024-04-30T09:00:00.000Z")])])
        ⟨200, .obj [("message",
            .str "IP address removed and export deleted (no clients remaining)"),
          ("backup", .str "backup")]⟩ true) ∧
    (handle defaultEnv stampedJson exampleClock
        (.removeClient (.str "/srv/nfs") (.str "10.0.0.1"))
        { exampleFS with config := some stampedText }).response =
      some ⟨200, .obj [("message",
          .str "IP address removed and export deleted (no clients remaining)"),
        ("backup", .str "/var/backups/nfs-web-ui/exports-2024-05-01T10-00-00-000Z.bak")]⟩ ∧
    (handle defaultEnv stampedJson exampleClock
        (.removeClient (.str "/srv/nfs") (.str "10.0.0.1"))
        { exampleFS with config := some stampedText }).fs.config = some stampedEmptyText ∧
    (stampedJson.parse stampedEmptyText).map
        (fun d => (d.field "metadata").field "lastModified") =
      some (.str "2024-04-30T09:00:00.000Z") ∧
    exampleClock.second = "2024-05-01T10:00:00.005Z" ∧
    removeClientSteps (.str "/srv/nfs") (.str "10.0.0.1") exampleClock.second
        (.obj [("exports", .arr twoClientExports),
          ("metadata", .obj [("lastModified", .str "2024-04-30T09:00:00.000Z")])])
        "backup" =
      .ok (.save
        (.obj [("exports", .arr [.obj [("path", .str "/srv/nfs"),
            ("clients", .arr [.obj [("ip", .str "10.0.0.2"), ("permission", .str "ro")]])]]),
          ("metadata", .obj [("lastModified", .str "2024-05-01T10:00:00.005Z")])])
        ⟨200, .obj [("message", .str "IP address removed successfully"),
          ("export", .obj [("path", .str "/srv/nfs"),
            ("clients", .arr [.obj [("ip", .str "10.0.0.2"), ("permission", .str "ro")]])]),
          ("backup", .str "backup")]⟩ true) :=
  ⟨by rfl, by rfl, by rfl, by rfl, by rfl, by rfl, by rfl⟩

/-! ## C18: add-client -/

theorem handle_accepted_eq (env : Env) (J : Json) (clock : Clock) (req : Request) (fs : FS)
    (content : String) (doc : JSValue)
    (hwf : fs.WellFormed) (hw : fs.Writable) (hiso : '/' ∉ clock.first.data)
    (hmax : 0 ≤ env.MAX_BACKUPS) (hacc : req.Accepted env fs)
    (hnr : ∀ filename, req ≠ .restore filename)
    (hcfg : fs.config = some content) (hdoc : J.parse content = some doc) :
    handle env J clock req fs =
      commit env J req.failure { fs with backups := afterBackup env clock.first content fs.backups }
        (req.steps clock doc (pathJoin env.BACKUP_DIR (backupName clock.first))) := by
  rcases handle_of_accepted env J clock req fs hacc with h | ⟨filename, rfl⟩
  · have hcb := createBackup_ok env clock.first content fs hwf hw hcfg hiso hmax
    have hrc : readConfig env J
        { fs with backups := afterBackup env clock.first content fs.backups } = doc :=
      readConfig_of_parse env J _ content _ hcfg hdoc
    rw [h]
    simp only [withBackup, hcb, hrc]
  · exact absurd rfl (hnr filename)

theorem findM_hasIp_some (ip : JSValue) (cs : List JSValue)
    (hall : ∀ c ∈ cs, c.isNullish = false)
    (hex : ∃ c ∈ cs, strictEq (c.field "ip") ip = true) :
    ∃ x ∈ cs, findM (hasIp ip) cs = .ok x ∧ strictEq (x.field "ip") ip = true := by
  induction cs with
  | nil =>
    obtain ⟨c, hc, -⟩ := hex
    cases hc
  | cons c cs ih =>
    by_cases hc : strictEq (c.field "ip") ip = true
    · refine ⟨c, List.mem_cons_self _ _, ?_, hc⟩
      simp [findM, hasIp_of_not_nullish ip c (hall c (List.mem_cons_self _ _)), hc]
    · have hc' : strictEq (c.field "ip") ip = false := by simpa using hc
      obtain ⟨x, hx, hf, hxp⟩ := ih (fun y hy => hall y (List.mem_cons_of_mem _ hy)) (by
        obtain ⟨y, hy, hyp⟩ := hex
        rcases List.mem_cons.1 hy with rfl | hy
        · rw [hc'] at hyp; cases hyp
        · exact ⟨y, hy, hyp⟩)
      refine ⟨x, List.mem_cons_of_mem _ hx, ?_, hxp⟩
      simp [findM, hasIp_of_not_nullish ip c (hall c (List.mem_cons_self _ _)), hc', hf]

theorem addClientSteps_found (s ip : String) (permission : JSValue) (isoNow b : String)
    (kvs md : List (String × JSValue)) (pre post : List JSValue)
    (ekvs : List (String × JSValue)) (cs : List JSValue)
    (hexps : JSValue.lookup "exports" kvs = .arr (pre ++ .obj ekvs :: post))
    (hmd : JSValue.lookup "metadata" kvs = .obj md)
    (hpre : ∀ x ∈ pre, x.isNullish = false ∧ strictEq (x.field "path") (.str s) = false)
    (hep : JSValue.lookup "path" ekvs = .str s)
    (hec : JSValue.lookup "clients" ekvs = .arr cs)
    (hcn : ∀ c ∈ cs, c.isNullish = false) :
    ((∃ c ∈ cs, strictEq (c.field "ip") (.str ip) = true) →
      addClientSteps s (.str ip) permission isoNow (.obj kvs) b =
        .ok (.reject (errorResponse 400 "IP address already exists for this export"))) ∧
    ((∀ c ∈ cs, strictEq (c.field "ip") (.str ip) = false) →
      addClientSteps s (.str ip) permission isoNow (.obj kvs) b =
        .ok (.save (withAddedClient kvs md pre post ekvs cs (.str ip) permission isoNow)
          { status := 200
            body := .obj [("message", .str "IP address added successfully"),
              ("export", .obj (JSValue.assign "clients"
                (.arr (cs ++ [.obj [("ip", .str ip), ("permission", permission)]])) ekvs)),
              ("backup", .str b)] } false)) := by
  have h1 : exportsOf (.obj kvs) = .ok (pre ++ .obj ekvs :: post) :=
    exportsOf_of_field _ _ (by simpa [JSValue.field])
  have h2 : findIndexM (hasPath (.str s)) (pre ++ .obj ekvs :: post) = .ok (some pre.length) :=
    findIndexM_at _ pre post _
      (fun x hx => by rw [hasPath_of_not_nullish _ x (hpre x hx).1, (hpre x hx).2])
      (by simp [hasPath, getProp, hep, strictEq])
  have h3 : clientsOf (.obj ekvs) = .ok cs := clientsOf_of_field _ _ (by simpa [JSValue.field])
  constructor
  · intro hex
    obtain ⟨x, hx, hfind, hxp⟩ := findM_hasIp_some (.str ip) cs hcn hex
    have hxt : x.truthy = true := truthy_of_field_str x "ip" ip ((strictEq_str_iff _ _).1 hxp)
    simp only [addClientSteps, h1, h2, getD_at, h3, hfind, hxt, if_true]
  · intro hno
    have hfind : findM (hasIp (.str ip)) cs = .ok .undefined :=
      findM_none _ _ (fun c hc => by rw [hasIp_of_not_nullish (.str ip) c (hcn c hc), hno c hc])
    have h4 : JSValue.lookup "metadata"
        (JSValue.assign "exports"
          (.arr (pre ++ .obj (JSValue.assign "clients"
            (.arr (cs ++ [.obj [("ip", .str ip), ("permission", permission)]])) ekvs) :: post))
          kvs) = .obj md := by
      rw [lookup_assign_ne _ _ _ _ (by decide), hmd]
    simp only [addClientSteps, h1, h2, getD_at, h3, hfind, JSValue.truthy, Bool.false_eq_true,
      if_false, setProp, set_at, touch_obj _ md isoNow h4, withAddedClient]

theorem strictEq_str_false_iff (a : JSValue) (s : String) :
    strictEq a (.str s) = false ↔ a ≠ .str s := by
  constructor
  · intro h heq
    rw [(strictEq_str_iff a s).2 heq] at h
    cases h
  · intro h
    cases hs : strictEq a (.str s) with
    | false => rfl
    | true => exact absurd ((strictEq_str_iff a s).1 hs) h

theorem addClientSteps_notFound (s : String) (ip permission : JSValue) (isoNow b : String)
    (kvs : List (String × JSValue)) (exps : List JSValue)
    (hexps : JSValue.lookup "exports" kvs = .arr exps)
    (hno : ∀ x ∈ exps, x.isNullish = false ∧ strictEq (x.field "path") (.str s) = false) :
    addClientSteps s ip permission isoNow (.obj kvs) b =
      .ok (.reject (errorResponse 404 "Export not found")) := by
  have h1 : exportsOf (.obj kvs) = .ok exps := exportsOf_of_field _ _ (by simpa [JSValue.field])
  have h2 : findIndexM (hasPath (.str s)) exps = .ok none :=
    findIndexM_none _ _ (fun x hx => by
      rw [hasPath_of_not_nullish _ x (hno x hx).1, (hno x hx).2])
  simp only [addClientSteps, h1, h2]

/-- C18: for a stored document (an object with an `exports` array of records and
a `metadata` map) and a valid path, ip and permission: add-client answers 404
`Export not found` when no export has that path; when an export has it, the
first such export having a clients array of records, add-client answers 400 `IP
address already exists for this export` and leaves the configuration file
unchanged if one of its clients has that ip, and otherwise answers 200 and saves
the document `withAddedClient`, which differs from the stored one only in that
the client is appended at the end of that export's client list and in
`metadata.lastModified`; client ips that were pairwise distinct are so after the
call.  The file system is assumed to work. -/
theorem add_client_appends (env : Env) (J : Json) (clock : Clock) (exportPath ip : String)
    (permission : JSValue) (fs : FS) (content : String) (kvs md : List (String × JSValue))
    (exps : List JSValue)
    (hwf : fs.WellFormed) (hw : fs.Writable) (hiso : '/' ∉ clock.first.data)
    (hmax : 0 ≤ env.MAX_BACKUPS)
    (hpath : validatePath (.str exportPath) = true) (hip : validateIP (.str ip) = .ok true)
    (hperm : isPermission permission = true)
    (hcfg : fs.config = some content) (hdoc : J.parse content = some (.obj kvs))
    (hexps : JSValue.lookup "exports" kvs = .arr exps)
    (hmd : JSValue.lookup "metadata" kvs = .obj md)
    (hall : ∀ x ∈ exps, x.isNullish = false) :
    ((∀ x ∈ exps, x.field "path" ≠ .str exportPath) →
      (addClient env J clock exportPath (.str ip) permission fs).response =
          some (errorResponse 404 "Export not found") ∧
        (addClient env J clock exportPath (.str ip) permission fs).fs.config = fs.config) ∧
    ∀ (pre post : List JSValue) (ekvs : List (String × JSValue)) (cs : List JSValue),
      exps = pre ++ .obj ekvs :: post →
      (∀ x ∈ pre, x.field "path" ≠ .str exportPath) →
      JSValue.lookup "path" ekvs = .str exportPath →
      JSValue.lookup "clients" ekvs = .arr cs →
      (∀ c ∈ cs, c.isNullish = false) →
      ((∃ c ∈ cs, c.field "ip" = .str ip) →
        (addClient env J clock exportPath (.str ip) permission fs).response =
            some (errorResponse 400 "IP address already exists for this export") ∧
          (addClient env J clock exportPath (.str ip) permission fs).fs.config = fs.config) ∧
      ((∀ c ∈ cs, c.field "ip" ≠ .str ip) →
        (∃ r, (addClient env J clock exportPath (.str ip) permission fs).response = some r ∧
          r.status = 200) ∧
        (addClient env J clock exportPath (.str ip) permission fs).fs.config =
          some (J.stringify
            (withAddedClient kvs md pre post ekvs cs (.str ip) permission clock.second)) ∧
        (cs.Pairwise (fun a b => a.field "ip" ≠ b.field "ip") →
          List.Pairwise (fun a b : JSValue => a.field "ip" ≠ b.field "ip")
            (cs ++ [JSValue.obj [("ip", .str ip), ("permission", permission)]]))) := by
  have heq := handle_accepted_eq env J clock (.addClient exportPath (.str ip) permission) fs
    content (.obj kvs) hwf hw hiso hmax ⟨hpath, hip, hperm⟩ (fun _ h => by cases h) hcfg hdoc
  simp only [handle, Request.failure, Request.steps] at heq
  rw [heq]
  constructor
  · intro hno
    rw [addClientSteps_notFound exportPath _ _ _ _ kvs exps hexps
      (fun x hx => ⟨hall x hx, (strictEq_str_false_iff _ _).2 (hno x hx)⟩)]
    exact ⟨rfl, rfl⟩
  · intro pre post ekvs cs hsplit hpre hep hec hcn
    subst hsplit
    obtain ⟨hconf, happ⟩ := addClientSteps_found exportPath ip permission clock.second
      (pathJoin env.BACKUP_DIR (backupName clock.first)) kvs md pre post ekvs cs hexps hmd
      (fun x hx => ⟨hall x (List.mem_append_left _ hx), (strictEq_str_false_iff _ _).2 (hpre x hx)⟩)
      hep hec hcn
    constructor
    · rintro ⟨c, hc, hcip⟩
      rw [hconf ⟨c, hc, (strictEq_str_iff _ _).2 hcip⟩]
      exact ⟨rfl, rfl⟩
    · intro hno
      rw [happ (fun c hc => (strictEq_str_false_iff _ _).2 (hno c hc)),
        commit_save_ok env J _
          { fs with backups := afterBackup env clock.first content fs.backups } _ _ _ (hw _)]
      refine ⟨⟨_, rfl, rfl⟩, rfl, ?_⟩
      intro hpw
      rw [List.pairwise_append]
      refine ⟨hpw, by simp, ?_⟩
      intro a ha b hb
      rw [List.mem_singleton] at hb
      subst hb
      simpa [JSValue.field, JSValue.lookup] using hno a ha

set_option maxRecDepth 100000 in
/-- Witness of C18: on the example file system, whose document has the export
`/srv/nfs` with the client `10.0.0.1`: add-client for the unknown path
`/srv/other` answers 404, add-client of `10.0.0.1` to `/srv/nfs` answers 400, and
add-client of `10.0.0.2` answers 200 and saves the document with the client
appended. -/
theorem add_client_appends_witness :
    ((addClient defaultEnv twoDocJson exampleClock "/srv/other" (.str "10.0.0.2") (.str "ro")
        exampleFS).response = some (errorResponse 404 "Export not found") ∧
      (addClient defaultEnv twoDocJson exampleClock "/srv/other" (.str "10.0.0.2") (.str "ro")
        exampleFS).fs.config = exampleFS.config) ∧
    ((addClient defaultEnv twoDocJson exampleClock "/srv/nfs" (.str "10.0.0.1") (.str "ro")
        exampleFS).response =
        some (errorResponse 400 "IP address already exists for this export") ∧
      (addClient defaultEnv twoDocJson exampleClock "/srv/nfs" (.str "10.0.0.1") (.str "ro")
        exampleFS).fs.config = exampleFS.config) ∧
    ((∃ r, (addClient defaultEnv twoDocJson exampleClock "/srv/nfs" (.str "10.0.0.2")
        (.str "ro") exampleFS).response = some r ∧ r.status = 200) ∧
      (addClient defaultEnv twoDocJson exampleClock "/srv/nfs" (.str "10.0.0.2") (.str "ro")
        exampleFS).fs.config =
        some (twoDocJson.stringify
          (.obj [("exports", .arr [.obj [("path", .str "/srv/nfs"),
              ("clients", .arr [.obj [("ip", .str "10.0.0.1"), ("permission", .str "rw")],
                .obj [("ip", .str "10.0.0.2"), ("permission", .str "ro")]])]]),
            ("metadata", .obj [("lastModified", .str "2024-05-01T10:00:00.005Z")])]))) := by
  have hwf : exampleFS.WellFormed := by simp [FS.WellFormed, readdir, exampleFS]
  have hnn : ∀ x ∈ exampleExports, x.isNullish = false := by
    intro x hx
    simp only [exampleExports, List.mem_singleton] at hx
    subst hx
    rfl
  refine ⟨?_, ?_, ?_⟩
  · exact (add_client_appends defaultEnv twoDocJson exampleClock "/srv/other" "10.0.0.2"
      (.str "ro") exampleFS exampleText exampleKvs [] exampleExports hwf (fun _ => rfl)
      (by decide) (by decide) (by decide) (by decide) (by decide) rfl (by rfl) rfl rfl hnn).1
      (by
        intro x hx
        simp only [exampleExports, List.mem_singleton] at hx
        subst hx
        simp [JSValue.field, JSValue.lookup])
  · exact ((add_client_appends defaultEnv twoDocJson exampleClock "/srv/nfs" "10.0.0.1"
      (.str "ro") exampleFS exampleText exampleKvs [] exampleExports hwf (fun _ => rfl)
      (by decide) (by decide) (by decide) (by decide) (by decide) rfl (by rfl) rfl rfl hnn).2
      [] [] [("path", .str "/srv/nfs"),
        ("clients", .arr [.obj [("ip", .str "10.0.0.1"), ("permission", .str "rw")]])]
      [.obj [("ip", .str "10.0.0.1"), ("permission", .str "rw")]] rfl (by simp) rfl rfl
      (by simp [JSValue.isNullish])).1 ⟨_, List.mem_singleton.2 rfl, rfl⟩
  · have h := ((add_client_appends defaultEnv twoDocJson exampleClock "/srv/nfs" "10.0.0.2"
      (.str "ro") exampleFS exampleText exampleKvs [] exampleExports hwf (fun _ => rfl)
      (by decide) (by decide) (by decide) (by decide) (by decide) rfl (by rfl) rfl rfl hnn).2
      [] [] [("path", .str "/srv/nfs"),
        ("clients", .arr [.obj [("ip", .str "10.0.0.1"), ("permission", .str "rw")]])]
      [.obj [("ip", .str "10.0.0.1"), ("permission", .str "rw")]] rfl (by simp) rfl rfl
      (by simp [JSValue.isNullish])).2 (by simp [JSValue.field, JSValue.lookup])
    exact ⟨h.1, h.2.1⟩

/-! ## C19: replace-clients -/

theorem replaceSteps_found (s : String) (clients : JSValue) (isoNow b : String)
    (kvs md : List (String × JSValue)) (pre post : List JSValue) (e : JSValue)
    (hexps : JSValue.lookup "exports" kvs = .arr (pre ++ e :: post))
    (hmd : JSValue.lookup "metadata" kvs = .obj md)
    (hpre : ∀ x ∈ pre, x.isNullish = false ∧ strictEq (x.field "path") (.str s) = false)
    (hep : e.field "path" = .str s) :
    replaceSteps s clients isoNow (.obj kvs) b =
      .ok (.save (withReplacedExport kvs md pre post s clients isoNow)
        { status := 200
          body := .obj [("message", .str "Export updated successfully"),
            ("export", .obj [("path", .str s), ("clients", clients)]),
            ("backup", .str b)] } false) := by
  have h1 : exportsOf (.obj kvs) = .ok (pre ++ e :: post) :=
    exportsOf_of_field _ _ (by simpa [JSValue.field])
  have hen : e.isNullish = false := by
    cases e <;> simp_all [JSValue.field, JSValue.isNullish]
  have h2 : findIndexM (hasPath (.str s)) (pre ++ e :: post) = .ok (some pre.length) :=
    findIndexM_at _ pre post _
      (fun x hx => by rw [hasPath_of_not_nullish _ x (hpre x hx).1, (hpre x hx).2])
      (by rw [hasPath_of_not_nullish _ e hen, hep]; simp [strictEq])
  have h4 : JSValue.lookup "metadata"
      (JSValue.assign "exports"
        (.arr (pre ++ .obj [("path", .str s), ("clients", clients)] :: post)) kvs) = .obj md := by
    rw [lookup_assign_ne _ _ _ _ (by decide), hmd]
  simp only [replaceSteps, h1, h2, setProp, set_at, touch_obj _ md isoNow h4,
    withReplacedExport]

theorem replaceSteps_notFound (s : String) (clients : JSValue) (isoNow b : String)
    (kvs : List (String × JSValue)) (exps : List JSValue)
    (hexps : JSValue.lookup "exports" kvs = .arr exps)
    (hno : ∀ x ∈ exps, x.isNullish = false ∧ strictEq (x.field "path") (.str s) = false) :
    replaceSteps s clients isoNow (.obj kvs) b =
      .ok (.reject (errorResponse 404 "Export not found")) := by
  have h1 : exportsOf (.obj kvs) = .ok exps := exportsOf_of_field _ _ (by simpa [JSValue.field])
  have h2 : findIndexM (hasPath (.str s)) exps = .ok none :=
    findIndexM_none _ _ (fun x hx => by
      rw [hasPath_of_not_nullish _ x (hno x hx).1, (hno x hx).2])
  simp only [replaceSteps, h1, h2]

set_option maxRecDepth 100000 in
/-- C19 (as worded, refuted): the stored export `/srv/nfs` carries the metadata
map `owner: ops`.  Replacing its clients answers 200, and the export of the
document saved is the record made of the path and the new clients: the metadata
map is gone. -/
theorem replace_clients_drops_metadata :
    describedJson.parse describedText = some (.obj describedKvs) ∧
    replaceSteps "/srv/nfs" (.arr exampleClients) exampleClock.second (.obj describedKvs)
        "backup" =
      .ok (.save
        (.obj [("exports",
            .arr [.obj [("path", .str "/srv/nfs"), ("clients", .arr exampleClients)]]),
          ("metadata", .obj [("lastModified", .str "2024-05-01T10:00:00.005Z")])])
        ⟨200, .obj [("message", .str "Export updated successfully"),
          ("export", .obj [("path", .str "/srv/nfs"), ("clients", .arr exampleClients)]),
          ("backup", .str "backup")]⟩ false) ∧
    (∃ r, (handle defaultEnv describedJson exampleClock
        (.replaceClients "/srv/nfs" (.arr exampleClients))
        { exampleFS with config := some describedText }).response = some r ∧ r.status = 200) ∧
    (handle defaultEnv describedJson exampleClock
        (.replaceClients "/srv/nfs" (.arr exampleClients))
        { exampleFS with config := some describedText }).fs.config = some replacedText ∧
    (describedJson.parse replacedText).map
        (fun d => (d.field "exports", hasExportMetadata d)) =
      some (.arr [.obj [("path", .str "/srv/nfs"), ("clients", .arr exampleClients)]], false) :=
  ⟨by rfl, by rfl, ⟨_, by rfl, by rfl⟩, by rfl, by rfl⟩

/-- C19 (amended): for a stored document (an object with an `exports` array of
records and a `metadata` map) and a valid path and client list, replace-clients
answers 404 `Export not found` when no export has the given path; otherwise it
answers 200 and saves the document `withReplacedExport`, in which the first
export with that path is replaced, at its position, by the record made of the
path and the supplied client list, so that the export keeps its path and its
position and loses its other properties, its metadata map among them; every
other export is unchanged, and `metadata.lastModified` of the document is set.
The file system is assumed to work. -/
theorem replace_clients_overwrites (env : Env) (J : Json) (clock : Clock) (exportPath : String)
    (clients : JSValue) (fs : FS) (content : String) (kvs md : List (String × JSValue))
    (exps : List JSValue)
    (hwf : fs.WellFormed) (hw : fs.Writable) (hiso : '/' ∉ clock.first.data)
    (hmax : 0 ≤ env.MAX_BACKUPS)
    (hpath : validatePath (.str exportPath) = true) (hclients : AcceptedClients clients)
    (hcfg : fs.config = some content) (hdoc : J.parse content = some (.obj kvs))
    (hexps : JSValue.lookup "exports" kvs = .arr exps)
    (hmd : JSValue.lookup "metadata" kvs = .obj md)
    (hall : ∀ x ∈ exps, x.isNullish = false) :
    ((∀ x ∈ exps, x.field "path" ≠ .str exportPath) →
      (replaceClients env J clock exportPath clients fs).response =
          some (errorResponse 404 "Export not found") ∧
        (replaceClients env J clock exportPath clients fs).fs.config = fs.config) ∧
    ∀ (pre post : List JSValue) (e : JSValue),
      exps = pre ++ e :: post →
      (∀ x ∈ pre, x.field "path" ≠ .str exportPath) →
      e.field "path" = .str exportPath →
      (∃ r, (replaceClients env J clock exportPath clients fs).response = some r ∧
        r.status = 200) ∧
      (replaceClients env J clock exportPath clients fs).fs.config =
        some (J.stringify
          (withReplacedExport kvs md pre post exportPath clients clock.second)) := by
  have heq := handle_accepted_eq env J clock (.replaceClients exportPath clients) fs
    content (.obj kvs) hwf hw hiso hmax ⟨hpath, hclients⟩ (fun _ h => by cases h) hcfg hdoc
  simp only [handle, Request.failure, Request.steps] at heq
  rw [heq]
  constructor
  · intro hno
    rw [replaceSteps_notFound exportPath _ _ _ kvs exps hexps
      (fun x hx => ⟨hall x hx, (strictEq_str_false_iff _ _).2 (hno x hx)⟩)]
    exact ⟨rfl, rfl⟩
  · intro pre post e hsplit hpre hep
    subst hsplit
    rw [replaceSteps_found exportPath clients clock.second _ kvs md pre post e hexps hmd
      (fun x hx => ⟨hall x (List.mem_append_left _ hx), (strictEq_str_false_iff _ _).2 (hpre x hx)⟩)
      hep,
      commit_save_ok env J _
        { fs with backups := afterBackup env clock.first content fs.backups } _ _ _ (hw _)]
    exact ⟨⟨_, rfl, rfl⟩, rfl⟩

set_option maxRecDepth 100000 in
/-- Witness of C19: replacing the clients of `/srv/nfs` in the document whose
export carries a metadata map. -/
theorem replace_clients_overwrites_witness :
    (∃ r, (replaceClients defaultEnv describedJson exampleClock "/srv/nfs"
        (.arr exampleClients) { exampleFS with config := some describedText }).response =
        some r ∧ r.status = 200) ∧
      (replaceClients defaultEnv describedJson exampleClock "/srv/nfs" (.arr exampleClients)
        { exampleFS with config := some describedText }).fs.config =
        some (describedJson.stringify
          (withReplacedExport describedKvs [] [] [] "/srv/nfs" (.arr exampleClients)
            exampleClock.second)) :=
  (replace_clients_overwrites defaultEnv describedJson exampleClock "/srv/nfs"
    (.arr exampleClients) { exampleFS with config := some describedText } describedText
    describedKvs []
    [.obj [("path", .str "/srv/nfs"),
      ("clients", .arr [.obj [("ip", .str "10.0.0.1"), ("permission", .str "rw")]]),
      ("metadata", .obj [("owner", .str "ops")])]]
    (by simp [FS.WellFormed, readdir, exampleFS]) (fun _ => rfl) (by decide) (by decide)
    (by decide)
    ⟨exampleClients, rfl, List.cons_ne_nil _ _, by
      intro c hc
      simp only [exampleClients, List.mem_singleton] at hc
      subst hc
      exact ⟨rfl, by decide, by decide⟩⟩
    rfl (by rfl) rfl rfl (by simp [JSValue.isNullish])).2 [] [] _ rfl (by simp) rfl

/-! ## C20: restore of a snapshot that is not JSON -/

theorem restoreWrite_fallback (env : Env) (J : Json) (clock : Clock) (content : String)
    (fs : FS) (hw : fs.denied env.CONFIG_FILE = false) (hp : J.parse content = none) :
    restoreWrite env J clock content fs =
      .ok { fs with config := some (J.stringify (basicConfig clock.second clock.third)) } := by
  simp [restoreWrite, hp, writeFile_config env fs _ hw]

/-- C20: when the content of the chosen snapshot does not parse, restore does
not fail: it answers 200 with the path of the pre-restore snapshot, and the
configuration file is overwritten with a fresh document whose exports list is
empty and whose metadata carries the time of the restore as `created` and
`lastModified`.  The file system is assumed to work, and the chosen snapshot to
be still in the backup directory once the pre-restore snapshot has been taken and
the directory pruned. -/
theorem restore_unparsable_snapshot (env : Env) (J : Json) (clock : Clock) (S : String)
    (fs : FS) (content sc : String)
    (hwf : fs.WellFormed) (hw : fs.Writable) (hiso : '/' ∉ clock.first.data)
    (hmax : 0 ≤ env.MAX_BACKUPS) (hcfg : fs.config = some content)
    (hSb : isBackupName S = true) (hS : lookupFile S fs.backups = some sc)
    (hsurv : lookupFile S (afterBackup env clock.first content fs.backups) = some sc)
    (hp : J.parse sc = none) :
    (restoreBackup env J clock S fs).response =
        some (restoredResponse S (pathJoin env.BACKUP_DIR (backupName clock.first))) ∧
      (restoreBackup env J clock S fs).fs.config =
        some (J.stringify (basicConfig clock.second clock.third)) ∧
      (basicConfig clock.second clock.third).field "exports" = .arr [] ∧
      (basicConfig clock.second clock.third).field "metadata" =
        .obj [("created", .str clock.second), ("version", .str "1.0"),
          ("description", .str "NFS Exports restored from backup"),
          ("lastModified", .str clock.third)] := by
  obtain ⟨hend, hne⟩ := isBackupName_endsWith S hSb
  have hnc := isBackupName_ne_config S hSb
  have hmem : S ∈ readdir fs := (lookupFile_isSome_iff S fs.backups).1 (by rw [hS]; rfl)
  have hpl : isPlainName S = true := hwf.2 S hmem
  have hcb := createBackup_ok env clock.first content fs hwf hw hcfg hiso hmax
  have hrd : readFile env { fs with backups := afterBackup env clock.first content fs.backups }
      (pathJoin env.BACKUP_DIR S) = .ok sc := by
    rw [readFile_backup env _ S hpl hnc]
    simp only [hsurv]
  have hrw := restoreWrite_fallback env J clock sc
    { fs with backups := afterBackup env clock.first content fs.backups } (hw _) hp
  have hres : restoreBackup env J clock S fs =
      { response := some (restoredResponse S (pathJoin env.BACKUP_DIR (backupName clock.first)))
        fs := { fs with
          backups := afterBackup env clock.first content fs.backups
          config := some (J.stringify (basicConfig clock.second clock.third)) } } := by
    simp only [restoreBackup, hne, hend, decide_False, Bool.not_true, Bool.or_self,
      Bool.false_eq_true, if_false, access_backup env fs S hpl hnc, hS, Option.isSome_some,
      if_true, hcb, hrd, hrw]
  rw [hres]
  exact ⟨rfl, rfl, rfl, rfl⟩

set_option maxRecDepth 100000 in
/-- Witness of C20: restoring a snapshot in the format of `/etc/exports` on a
file system whose backup directory holds that snapshot only. -/
theorem restore_unparsable_snapshot_witness :
    (restoreBackup defaultEnv twoDocJson exampleClock "exports-2024-04-30T09-00-00-000Z.bak"
        legacyFS).response =
        some (restoredResponse "exports-2024-04-30T09-00-00-000Z.bak"
          (pathJoin defaultEnv.BACKUP_DIR (backupName exampleClock.first))) ∧
      (restoreBackup defaultEnv twoDocJson exampleClock "exports-2024-04-30T09-00-00-000Z.bak"
        legacyFS).fs.config =
        some (twoDocJson.stringify (basicConfig exampleClock.second exampleClock.third)) ∧
      (basicConfig exampleClock.second exampleClock.third).field "exports" = .arr [] ∧
      (basicConfig exampleClock.second exampleClock.third).field "metadata" =
        .obj [("created", .str exampleClock.second), ("version", .str "1.0"),
          ("description", .str "NFS Exports restored from backup"),
          ("lastModified", .str exampleClock.third)] :=
  restore_unparsable_snapshot defaultEnv twoDocJson exampleClock
    "exports-2024-04-30T09-00-00-000Z.bak" legacyFS exampleText "/srv/nfs 10.0.0.1(rw)"
    (by simp [FS.WellFormed, readdir, legacyFS, exampleFS]; decide) (fun _ => rfl) (by decide)
    (by decide) rfl (by decide) (by rfl) (by rfl) (by rfl)

/-! ## C21: a failure while pruning -/

theorem unlink_ok_denied (env : Env) (fs fs' : FS) (p : String)
    (h : unlink env fs p = .ok fs') : fs.denied p = false ∧ fs'.denied = fs.denied := by
  unfold unlink at h
  split at h
  · cases h
  · rename_i hden
    refine ⟨by simpa using hden, ?_⟩
    split at h
    · split at h
      · cases h; rfl
      · cases h
    · split at h
      · cases h; rfl
      · cases h
    · split at h
      · cases h; rfl
      · cases h

theorem unlinkAll_denied (env : Env) (l : List String) (fs : FS) (d : String) (hd : d ∈ l)
    (hden : fs.denied (pathJoin env.BACKUP_DIR d) = true) :
    ∃ e, (unlinkAll env l fs).1 = .error e := by
  induction l generalizing fs with
  | nil => cases hd
  | cons f rest ih =>
    simp only [unlinkAll]
    cases hu : unlink env fs (pathJoin env.BACKUP_DIR f) with
    | error e => exact ⟨e, rfl⟩
    | ok fs' =>
      obtain ⟨hf, hsame⟩ := unlink_ok_denied env fs fs' _ hu
      rcases List.mem_cons.1 hd with rfl | hd'
      · rw [hden] at hf
        cases hf
      · exact ih fs' hd' (by rw [hsame]; exact hden)

theorem createBackup_pruning_error (env : Env) (iso c d : String) (fs : FS)
    (hiso : '/' ∉ iso.data) (hcfg : fs.config = some c)
    (hwb : fs.denied (pathJoin env.BACKUP_DIR (backupName iso)) = false)
    (hmax : 0 ≤ env.MAX_BACKUPS)
    (hd : d ∈ (snapshotsNewestFirst ((storeFile (backupName iso) c fs.backups).map
      Prod.fst)).drop env.MAX_BACKUPS.toNat)
    (hden : fs.denied (pathJoin env.BACKUP_DIR d) = true) :
    ∃ e, (createBackup env iso fs).1 = .error e := by
  have hpl := isPlainName_backupName iso hiso
  have hbn := isBackupName_backupName iso
  have hlen : env.MAX_BACKUPS.toNat <
      (snapshotsNewestFirst ((storeFile (backupName iso) c fs.backups).map Prod.fst)).length := by
    by_contra hcon
    rw [List.drop_of_length_le (by omega)] at hd
    cases hd
  have hgt : ((snapshotsNewestFirst ((storeFile (backupName iso) c fs.backups).map
      Prod.fst)).length : Int) > env.MAX_BACKUPS := by omega
  obtain ⟨e, he⟩ := unlinkAll_denied env _
    { fs with backups := storeFile (backupName iso) c fs.backups } d hd hden
  simp only [createBackup, ensureBackupDir, readFile_config, hcfg, writeFile, hwb,
    Bool.false_eq_true, ↓reduceIte, locate_backup env _ hpl (isBackupName_ne_config _ hbn)]
  simp only [snapshotsNewestFirst, readdir, hcfg] at hgt he ⊢
  rw [if_pos hgt, if_neg (by omega)]
  split
  · exact ⟨_, rfl⟩
  · rename_i heq
    rw [heq] at he
    cases he

theorem handle_backup_error (env : Env) (J : Json) (clock : Clock) (req : Request)
    (fs : FS) (e : JSError) (hwf : fs.WellFormed) (hiso : '/' ∉ clock.first.data)
    (hacc : req.Accepted env fs)
    (hfail : (createBackup env clock.first fs).1 = .error e) :
    (handle env J clock req fs).response = some (errorResponse 500 req.failure) ∧
      (handle env J clock req fs).fs.config = fs.config := by
  have hframe := (createBackup_frame env clock.first fs hwf hiso).1
  rcases hcb : createBackup env clock.first fs with ⟨res, fs1⟩
  rw [hcb] at hfail hframe
  simp only at hfail hframe
  subst hfail
  rcases handle_of_accepted env J clock req fs hacc with h | ⟨filename, rfl⟩
  · rw [h]
    constructor
    · simp only [withBackup, hcb]
    · simpa only [withBackup, hcb] using hframe
  · obtain ⟨hne, hbak, hacc⟩ := hacc
    constructor
    · simp [handle, restoreBackup, hne, hbak, hacc, hcb, Request.failure]
    · simpa [handle, restoreBackup, hne, hbak, hacc, hcb] using hframe

set_option maxRecDepth 1000000 in
/-- C21 (as worded, refuted): the backup directory is at its retention count and
its oldest snapshot cannot be deleted.  `createBackup` writes the new snapshot,
fails to unlink the oldest one, and throws that error instead of returning the
name of the new snapshot; delete-export of `/srv/nfs`, which requested the
snapshot, answers 500 and the configuration file keeps the export. -/
theorem pruning_failure_fails_backup :
    (createBackup defaultEnv exampleClock.first protectedFS).1 = .error (.ioError "EACCES") ∧
    lookupFile (backupName exampleClock.first)
      (createBackup defaultEnv exampleClock.first protectedFS).2.backups = some exampleText ∧
    (handle defaultEnv twoDocJson exampleClock (.deleteExport "/srv/nfs") protectedFS).response =
      some (errorResponse 500 "Failed to delete export") ∧
    (handle defaultEnv twoDocJson exampleClock (.deleteExport "/srv/nfs") protectedFS).fs.config =
      some exampleText :=
  ⟨by rfl, by rfl, by rfl, by rfl⟩

/-- C21 (amended): if deleting an old snapshot during pruning fails, the failure
is escalated: `createBackup` throws instead of returning the name of the new
snapshot, and the call that requested the snapshot answers 500 with the message
of its `catch` block and leaves the configuration file as it was.  Stated for a
snapshot `d` among those beyond the retention count whose path is protected
against deletion, with the configuration file present and the new snapshot
writable. -/
theorem pruning_failure_escalates (env : Env) (J : Json) (clock : Clock) (req : Request)
    (fs : FS) (c d : String) (hwf : fs.WellFormed) (hiso : '/' ∉ clock.first.data)
    (hacc : req.Accepted env fs) (hcfg : fs.config = some c)
    (hwb : fs.denied (pathJoin env.BACKUP_DIR (backupName clock.first)) = false)
    (hmax : 0 ≤ env.MAX_BACKUPS)
    (hd : d ∈ (snapshotsNewestFirst ((storeFile (backupName clock.first) c fs.backups).map
      Prod.fst)).drop env.MAX_BACKUPS.toNat)
    (hden : fs.denied (pathJoin env.BACKUP_DIR d) = true) :
    (∃ e, (createBackup env clock.first fs).1 = .error e) ∧
      (handle env J clock req fs).response = some (errorResponse 500 req.failure) ∧
      (handle env J clock req fs).fs.config = fs.config := by
  obtain ⟨e, he⟩ := createBackup_pruning_error env clock.first c d fs hiso hcfg hwb hmax hd hden
  exact ⟨⟨e, he⟩, handle_backup_error env J clock req fs e hwf hiso hacc he⟩

set_option maxRecDepth 1000000 in
/-- Witness of C21: add-client on the file system whose oldest snapshot cannot be
deleted. -/
theorem pruning_failure_escalates_witness :
    (∃ e, (createBackup defaultEnv exampleClock.first protectedFS).1 = .error e) ∧
      (handle defaultEnv twoDocJson exampleClock
        (.addClient "/srv/nfs" (.str "10.0.0.2") (.str "ro")) protectedFS).response =
        some (errorResponse 500 "Failed to add IP address") ∧
      (handle defaultEnv twoDocJson exampleClock
        (.addClient "/srv/nfs" (.str "10.0.0.2") (.str "ro")) protectedFS).fs.config =
        protectedFS.config :=
  pruning_failure_escalates defaultEnv twoDocJson exampleClock
    (.addClient "/srv/nfs" (.str "10.0.0.2") (.str "ro")) protectedFS exampleText
    "exports-2024-04-21T09-00-00-000Z.bak"
    (by simp [FS.WellFormed, readdir, protectedFS, fullFS, tenBackups]; decide) (by decide)
    ⟨by decide, by decide, by decide⟩ rfl (by rfl) (by decide) (by decide) (by rfl)

/-! ## C22: path uniqueness -/

theorem hasPath_ok (p e : JSValue) (b : Bool) (h : hasPath p e = .ok b) :
    b = strictEq (e.field "path") p := by
  cases e <;> simp [hasPath, getProp, JSValue.field] at h ⊢ <;> exact h.symm

theorem findIndexM_some_split (p : JSValue → Except JSError Bool) (xs : List JSValue) (i : Nat)
    (h : findIndexM p xs = .ok (some i)) :
    ∃ pre e post, xs = pre ++ e :: post ∧ pre.length = i ∧ p e = .ok true := by
  induction xs generalizing i with
  | nil => simp [findIndexM] at h
  | cons x xs ih =>
    simp only [findIndexM] at h
    cases hx : p x with
    | error e => simp [hx] at h
    | ok b =>
      cases b with
      | true =>
        simp only [hx, Except.ok.injEq, Option.some.injEq] at h
        exact ⟨[], x, xs, rfl, by simpa using h, hx⟩
      | false =>
        simp only [hx] at h
        cases hr : findIndexM p xs with
        | error e => simp [hr] at h
        | ok r =>
          simp only [hr, Except.ok.injEq] at h
          cases r with
          | none => simp at h
          | some j =>
            simp only [Option.map_some', Option.some.injEq] at h
            obtain ⟨pre, e, post, hsplit, hlen, he⟩ := ih j hr
            exact ⟨x :: pre, e, post, by rw [hsplit]; rfl, by simp [hlen, h], he⟩

theorem findM_hasPath_falsy (s : String) (xs : List JSValue) (r : JSValue)
    (h : findM (hasPath (.str s)) xs = .ok r) (hr : r.truthy = false) :
    ∀ x ∈ xs, x.field "path" ≠ .str s := by
  induction xs with
  | nil => intro x hx; cases hx
  | cons y ys ih =>
    simp only [findM] at h
    cases hy : hasPath (.str s) y with
    | error e => simp [hy] at h
    | ok b =>
      have hb := hasPath_ok _ _ _ hy
      cases b with
      | true =>
        simp only [hy, Except.ok.injEq] at h
        subst h
        have := truthy_of_field_str y "path" s ((strictEq_str_iff _ _).1 hb.symm)
        rw [this] at hr
        cases hr
      | false =>
        simp only [hy] at h
        intro x hx
        rcases List.mem_cons.1 hx with rfl | hx
        · exact (strictEq_str_false_iff _ _).1 hb.symm
        · exact ih h x hx

theorem touch_exports (config d : JSValue) (iso : String) (h : touch config iso = .ok d) :
    d.field "exports" = config.field "exports" := by
  cases config with
  | obj kvs =>
    simp only [touch, getProp] at h
    cases hm : setProp (JSValue.lookup "metadata" kvs) "lastModified" (.str iso) with
    | error e => simp [hm] at h
    | ok md =>
      simp only [hm] at h
      simp only [setProp, Except.ok.injEq] at h
      subst h
      simp only [JSValue.field]
      exact lookup_assign_ne _ _ _ _ (by decide)
  | undefined => simp [touch, getProp] at h
  | null => simp [touch, getProp] at h
  | bool _ => simp [touch, getProp, setProp] at h
  | num _ => simp [touch, getProp, setProp] at h
  | str _ => simp [touch, getProp, setProp] at h
  | arr _ => simp [touch, getProp, setProp] at h

theorem exportsOf_ok (config : JSValue) (exps : List JSValue) (h : exportsOf config = .ok exps) :
    ∃ kvs, config = .obj kvs ∧ JSValue.lookup "exports" kvs = .arr exps := by
  cases config <;> simp [exportsOf, getProp] at h
  rename_i kvs
  refine ⟨kvs, rfl, ?_⟩
  cases hl : JSValue.lookup "exports" kvs <;> simp [hl] at h
  rw [h]

theorem set_exports_then_touch (kvs : List (String × JSValue)) (xs : List JSValue)
    (d : JSValue) (iso : String)
    (h : touch (.obj (JSValue.assign "exports" (.arr xs) kvs)) iso = .ok d) :
    d.field "exports" = .arr xs := by
  rw [touch_exports _ _ _ h]
  simp only [JSValue.field]
  exact lookup_assign_self _ _ _

theorem uniquePaths_set (pre post : List JSValue) (e v : JSValue)
    (hv : v.field "path" = e.field "path") (h : UniquePaths (pre ++ e :: post)) :
    UniquePaths (pre ++ v :: post) := by
  simpa [UniquePaths, hv] using h

theorem uniquePaths_eraseIdx (exps : List JSValue) (i : Nat) (h : UniquePaths exps) :
    UniquePaths (exps.eraseIdx i) :=
  List.Nodup.sublist (List.Sublist.map _ (List.eraseIdx_sublist exps i)) h

theorem uniquePaths_append_new (exps : List JSValue) (v : JSValue)
    (hnew : ∀ x ∈ exps, x.field "path" ≠ v.field "path") (h : UniquePaths exps) :
    UniquePaths (exps ++ [v]) := by
  simp only [UniquePaths, List.map_append, List.map_cons, List.map_nil]
  rw [List.nodup_append]
  refine ⟨h, List.nodup_singleton _, ?_⟩
  intro a ha hb
  rw [List.mem_singleton] at hb
  obtain ⟨x, hx, rfl⟩ := List.mem_map.1 ha
  exact hnew x hx hb

theorem field_path_setProp_clients (e e1 v : JSValue) (s : String)
    (hep : e.field "path" = .str s) (h : setProp e "clients" v = .ok e1) :
    e1.field "path" = e.field "path" := by
  cases e <;> simp [JSValue.field] at hep
  rename_i kvs
  simp only [setProp, Except.ok.injEq] at h
  subst h
  simp only [JSValue.field]
  exact lookup_assign_ne _ _ _ _ (by decide)

theorem createSteps_unique (s : String) (clients : JSValue) (iso b : String)
    (config d : JSValue) (r : Response) (f : Bool)
    (h : createSteps (.str s) clients iso config b = .ok (.save d r f)) :
    ∃ exps exps', config.field "exports" = .arr exps ∧ d.field "exports" = .arr exps' ∧
      (UniquePaths exps → UniquePaths exps') := by
  simp only [createSteps] at h
  cases he : exportsOf config with
  | error e => simp [he] at h
  | ok exps =>
    obtain ⟨kvs, rfl, hk⟩ := exportsOf_ok config exps he
    simp only [he] at h
    cases hf : findM (hasPath (.str s)) exps with
    | error e => simp [hf] at h
    | ok x =>
      simp only [hf] at h
      by_cases hx : x.truthy = true
      · simp [hx] at h
      · have hx' : x.truthy = false := by simpa using hx
        simp only [hx', Bool.false_eq_true, if_false, setProp] at h
        cases ht : touch (.obj (JSValue.assign "exports"
            (.arr (exps ++ [.obj [("path", .str s), ("clients", clients)]])) kvs)) iso with
        | error e => simp [ht] at h
        | ok d' =>
          simp only [ht, Except.ok.injEq, Decision.save.injEq] at h
          obtain ⟨rfl, -, -⟩ := h
          refine ⟨exps, _, by simpa [JSValue.field] using hk,
            set_exports_then_touch kvs _ _ iso ht, ?_⟩
          intro hu
          exact uniquePaths_append_new exps _
            (fun y hy => by
              simpa [JSValue.field, JSValue.lookup] using findM_hasPath_falsy s exps x hf hx' y hy)
            hu

theorem replaceSteps_unique (s : String) (clients : JSValue) (iso b : String)
    (config d : JSValue) (r : Response) (f : Bool)
    (h : replaceSteps s clients iso config b = .ok (.save d r f)) :
    ∃ exps exps', config.field "exports" = .arr exps ∧ d.field "exports" = .arr exps' ∧
      (UniquePaths exps → UniquePaths exps') := by
  simp only [replaceSteps] at h
  cases he : exportsOf config with
  | error e => simp [he] at h
  | ok exps =>
    obtain ⟨kvs, rfl, hk⟩ := exportsOf_ok config exps he
    simp only [he] at h
    cases hf : findIndexM (hasPath (.str s)) exps with
    | error e => simp [hf] at h
    | ok o =>
      cases o with
      | none => simp [hf] at h
      | some i =>
        simp only [hf, setProp] at h
        obtain ⟨pre, e, post, rfl, rfl, hp⟩ := findIndexM_some_split _ _ _ hf
        have hep : e.field "path" = .str s :=
          (strictEq_str_iff _ _).1 (hasPath_ok _ _ _ hp).symm
        rw [set_at] at h
        cases ht : touch (.obj (JSValue.assign "exports"
            (.arr (pre ++ .obj [("path", .str s), ("clients", clients)] :: post)) kvs)) iso with
        | error e => simp [ht] at h
        | ok d' =>
          simp only [ht, Except.ok.injEq, Decision.save.injEq] at h
          obtain ⟨rfl, -, -⟩ := h
          refine ⟨_, _, by simpa [JSValue.field] using hk,
            set_exports_then_touch kvs _ _ iso ht, ?_⟩
          exact uniquePaths_set pre post e _ (by rw [hep]; rfl)

theorem deleteSteps_unique (s : String) (iso b : String)
    (config d : JSValue) (r : Response) (f : Bool)
    (h : deleteSteps s iso config b = .ok (.save d r f)) :
    ∃ exps exps', config.field "exports" = .arr exps ∧ d.field "exports" = .arr exps' ∧
      (UniquePaths exps → UniquePaths exps') := by
  simp only [deleteSteps] at h
  cases he : exportsOf config with
  | error e => simp [he] at h
  | ok exps =>
    obtain ⟨kvs, rfl, hk⟩ := exportsOf_ok config exps he
    simp only [he] at h
    cases hf : findIndexM (hasPath (.str s)) exps with
    | error e => simp [hf] at h
    | ok o =>
      cases o with
      | none => simp [hf] at h
      | some i =>
        simp only [hf, setProp] at h
        cases ht : touch (.obj (JSValue.assign "exports" (.arr (exps.eraseIdx i)) kvs)) iso with
        | error e => simp [ht] at h
        | ok d' =>
          simp only [ht, Except.ok.injEq, Decision.save.injEq] at h
          obtain ⟨rfl, -, -⟩ := h
          exact ⟨_, _, by simpa [JSValue.field] using hk,
            set_exports_then_touch kvs _ _ iso ht, uniquePaths_eraseIdx exps i⟩

theorem addClientSteps_unique (s : String) (ip permission : JSValue) (iso b : String)
    (config d : JSValue) (r : Response) (f : Bool)
    (h : addClientSteps s ip permission iso config b = .ok (.save d r f)) :
    ∃ exps exps', config.field "exports" = .arr exps ∧ d.field "exports" = .arr exps' ∧
      (UniquePaths exps → UniquePaths exps') := by
  simp only [addClientSteps] at h
  cases he : exportsOf config with
  | error e => simp [he] at h
  | ok exps =>
    obtain ⟨kvs, rfl, hk⟩ := exportsOf_ok config exps he
    simp only [he] at h
    cases hf : findIndexM (hasPath (.str s)) exps with
    | error e => simp [hf] at h
    | ok o =>
      cases o with
      | none => simp [hf] at h
      | some i =>
        simp only [hf] at h
        obtain ⟨pre, e, post, rfl, rfl, hp⟩ := findIndexM_some_split _ _ _ hf
        have hep : e.field "path" = .str s :=
          (strictEq_str_iff _ _).1 (hasPath_ok _ _ _ hp).symm
        rw [getD_at] at h
        cases hc : clientsOf e with
        | error e' => simp [hc] at h
        | ok cs =>
          simp only [hc] at h
          cases hm : findM (hasIp ip) cs with
          | error e' => simp [hm] at h
          | ok x =>
            simp only [hm] at h
            split at h
            · cases h
            · cases hs : setProp e "clients"
                (.arr (cs ++ [.obj [("ip", ip), ("permission", permission)]])) with
              | error e' => simp [hs] at h
              | ok e1 =>
                rw [hs] at h
                simp only [setProp, set_at] at h
                cases ht : touch (.obj (JSValue.assign "exports"
                    (.arr (pre ++ e1 :: post)) kvs)) iso with
                | error e' => simp [ht] at h
                | ok d' =>
                  simp only [ht, Except.ok.injEq, Decision.save.injEq] at h
                  obtain ⟨rfl, -, -⟩ := h
                  refine ⟨_, _, by simpa [JSValue.field] using hk,
                    set_exports_then_touch kvs _ _ iso ht, ?_⟩
                  exact uniquePaths_set pre post e e1
                    (field_path_setProp_clients e e1 _ s hep hs)

theorem removeClientSteps_unique (s : String) (ip : JSValue) (iso b : String)
    (config d : JSValue) (r : Response) (f : Bool)
    (h : removeClientSteps (.str s) ip iso config b = .ok (.save d r f)) :
    ∃ exps exps', config.field "exports" = .arr exps ∧ d.field "exports" = .arr exps' ∧
      (UniquePaths exps → UniquePaths exps') := by
  simp only [removeClientSteps] at h
  cases he : exportsOf config with
  | error e => simp [he] at h
  | ok exps =>
    obtain ⟨kvs, rfl, hk⟩ := exportsOf_ok config exps he
    simp only [he] at h
    cases hf : findIndexM (hasPath (.str s)) exps with
    | error e => simp [hf] at h
    | ok o =>
      cases o with
      | none => simp [hf] at h
      | some i =>
        simp only [hf] at h
        obtain ⟨pre, e, post, rfl, rfl, hp⟩ := findIndexM_some_split _ _ _ hf
        have hep : e.field "path" = .str s :=
          (strictEq_str_iff _ _).1 (hasPath_ok _ _ _ hp).symm
        rw [getD_at] at h
        cases hc : clientsOf e with
        | error e' => simp [hc] at h
        | ok cs =>
          simp only [hc] at h
          cases hm : findIndexM (hasIp ip) cs with
          | error e' => simp [hm] at h
          | ok o' =>
            cases o' with
            | none => simp [hm] at h
            | some j =>
              simp only [hm] at h
              split at h
              · simp only [setProp, Except.ok.injEq, Decision.save.injEq] at h
                obtain ⟨rfl, -, -⟩ := h
                refine ⟨_, (pre ++ e :: post).eraseIdx pre.length,
                  by simpa [JSValue.field] using hk, ?_, ?_⟩
                · simp only [JSValue.field]
                  exact lookup_assign_self _ _ _
                · exact uniquePaths_eraseIdx _ _
              · cases hs : setProp e "clients" (.arr (cs.eraseIdx j)) with
                | error e' => simp [hs] at h
                | ok e1 =>
                  rw [hs] at h
                  simp only [setProp, set_at] at h
                  cases ht : touch (.obj (JSValue.assign "exports"
                      (.arr (pre ++ e1 :: post)) kvs)) iso with
                  | error e' => simp [ht] at h
                  | ok d' =>
                    simp only [ht, Except.ok.injEq, Decision.save.injEq] at h
                    obtain ⟨rfl, -, -⟩ := h
                    refine ⟨_, _, by simpa [JSValue.field] using hk,
                      set_exports_then_touch kvs _ _ iso ht, ?_⟩
                    exact uniquePaths_set pre post e e1
                      (field_path_setProp_clients e e1 _ s hep hs)

theorem steps_unique (clock : Clock) (req : Request) (config d : JSValue) (b : String)
    (r : Response) (f : Bool) (hp : req.pathIsString)
    (h : req.steps clock config b = .ok (.save d r f)) :
    ∃ exps exps', config.field "exports" = .arr exps ∧ d.field "exports" = .arr exps' ∧
      (UniquePaths exps → UniquePaths exps') := by
  cases req with
  | create path clients =>
    obtain ⟨s, rfl⟩ := hp
    exact createSteps_unique s clients _ b config d r f h
  | replaceClients exportPath clients => exact replaceSteps_unique exportPath clients _ b config d r f h
  | deleteExport exportPath => exact deleteSteps_unique exportPath _ b config d r f h
  | addClient exportPath ip permission =>
    exact addClientSteps_unique exportPath ip permission _ b config d r f h
  | removeClient exportPath ip =>
    obtain ⟨s, rfl⟩ := hp
    exact removeClientSteps_unique s ip _ b config d r f h
  | restore _ => cases h

theorem steps_reject_status (clock : Clock) (req : Request) (config : JSValue) (b : String)
    (r : Response) (h : req.steps clock config b = .ok (.reject r)) : r.status ≠ 200 := by
  cases req with
  | create path clients =>
    simp only [Request.steps, createSteps] at h
    repeat' split at h
    all_goals first
      | (cases h; done)
      | (simp only [Except.ok.injEq, Decision.reject.injEq] at h
         subst h
         simp [errorResponse])
  | replaceClients exportPath clients =>
    simp only [Request.steps, replaceSteps] at h
    repeat' split at h
    all_goals first
      | (cases h; done)
      | (simp only [Except.ok.injEq, Decision.reject.injEq] at h
         subst h
         simp [errorResponse])
  | deleteExport exportPath =>
    simp only [Request.steps, deleteSteps] at h
    repeat' split at h
    all_goals first
      | (cases h; done)
      | (simp only [Except.ok.injEq, Decision.reject.injEq] at h
         subst h
         simp [errorResponse])
  | addClient exportPath ip permission =>
    simp only [Request.steps, addClientSteps] at h
    repeat' split at h
    all_goals first
      | (cases h; done)
      | (simp only [Except.ok.injEq, Decision.reject.injEq] at h
         subst h
         simp [errorResponse])
  | removeClient exportPath ip =>
    simp only [Request.steps, removeClientSteps] at h
    repeat' split at h
    all_goals first
      | (cases h; done)
      | (simp only [Except.ok.injEq, Decision.reject.injEq] at h
         subst h
         simp [errorResponse])
  | restore _ => cases h

theorem handle_cases_ok (env : Env) (J : Json) (clock : Clock) (req : Request) (fs : FS)
    (r : Response) (hnr : ∀ filename, req ≠ .restore filename)
    (hresp : (handle env J clock req fs).response = some r) (h200 : r.status = 200) :
    handle env J clock req fs = withBackup env J req.failure clock.first fs (req.steps clock) ∧
      req.pathIsString := by
  have early : ∀ (n : Nat) (msg : String), n ≠ 200 → some (errorResponse n msg) ≠ some r := by
    intro n msg hn hr
    simp only [Option.some.injEq] at hr
    subst hr
    exact hn h200
  cases req with
  | create path clients =>
    simp only [handle, createExport] at hresp ⊢
    split at hresp
    · exact absurd hresp (early _ _ (by decide))
    · rename_i hp
      have hp' : validatePath path = true := by simpa using hp
      obtain ⟨s, hs, -⟩ := validatePath_str path hp'
      split at hresp
      · split at hresp
        · cases hresp
        · exact absurd hresp (early _ _ (by decide))
        · split at hresp
          · exact absurd hresp (early _ _ (by decide))
          · rw [if_neg hp]
            exact ⟨rfl, s, hs⟩
      · exact absurd hresp (early _ _ (by decide))
  | replaceClients exportPath clients =>
    simp only [handle, replaceClients] at hresp ⊢
    split at hresp
    · exact absurd hresp (early _ _ (by decide))
    · rename_i hp
      split at hresp
      · split at hresp
        · cases hresp
        · exact absurd hresp (early _ _ (by decide))
        · rw [if_neg hp]
          exact ⟨rfl, trivial⟩
      · exact absurd hresp (early _ _ (by decide))
  | deleteExport exportPath =>
    simp only [handle, deleteExport] at hresp ⊢
    split at hresp
    · exact absurd hresp (early _ _ (by decide))
    · rename_i hp
      rw [if_neg hp]
      exact ⟨rfl, trivial⟩
  | addClient exportPath ip permission =>
    simp only [handle, addClient] at hresp ⊢
    split at hresp
    · exact absurd hresp (early _ _ (by decide))
    · split at hresp
      · exact absurd hresp (early _ _ (by decide))
      · split at hresp
        · cases hresp
        · exact absurd hresp (early _ _ (by decide))
        · split at hresp
          · exact absurd hresp (early _ _ (by decide))
          · rename_i h1 h2 _ _ h4
            rw [if_neg h1, if_neg h2, if_neg h4]
            exact ⟨rfl, trivial⟩
  | removeClient exportPath ip =>
    simp only [handle, removeClient] at hresp ⊢
    split at hresp
    · exact absurd hresp (early _ _ (by decide))
    · rename_i hp
      have hp' : validatePath exportPath = true := by simpa using hp
      obtain ⟨s, hs, -⟩ := validatePath_str exportPath hp'
      split at hresp
      · exact absurd hresp (early _ _ (by decide))
      · rename_i hi
        rw [if_neg hp, if_neg hi]
        exact ⟨rfl, s, hs⟩
  | restore filename => exact absurd rfl (hnr filename)

/-- C22: for a stored document whose exports have pairwise distinct paths, after
a call of create, replace-clients, delete-export, add-client or remove-client
that answers 200, the configuration file holds the serialized form of a document
whose exports have pairwise distinct paths.  The directory listing is assumed to
hold plain names, the timestamp no separator, and the configuration file to be
writable. -/
theorem path_uniqueness_preserved (env : Env) (J : Json) (clock : Clock) (req : Request)
    (fs : FS) (content : String) (doc : JSValue) (exps : List JSValue) (r : Response)
    (hwf : fs.WellFormed) (hiso : '/' ∉ clock.first.data)
    (hw : fs.denied env.CONFIG_FILE = false)
    (hnr : ∀ filename, req ≠ .restore filename)
    (hcfg : fs.config = some content) (hdoc : J.parse content = some doc)
    (hexps : doc.field "exports" = .arr exps) (huniq : UniquePaths exps)
    (hresp : (handle env J clock req fs).response = some r) (h200 : r.status = 200) :
    ∃ d exps', (handle env J clock req fs).fs.config = some (J.stringify d) ∧
      d.field "exports" = .arr exps' ∧ UniquePaths exps' := by
  obtain ⟨heq, hps⟩ := handle_cases_ok env J clock req fs r hnr hresp h200
  rw [heq] at hresp ⊢
  have e500 : ∀ msg, some (errorResponse 500 msg) ≠ some r := by
    intro msg hr
    simp only [Option.some.injEq] at hr
    subst hr
    cases h200
  unfold withBackup at hresp ⊢
  rcases hcb : createBackup env clock.first fs with ⟨res, fs1⟩
  rw [hcb] at hresp
  cases res with
  | error e => exact absurd hresp (e500 _)
  | ok b =>
    obtain ⟨c, hc, -, hfs1, -⟩ := createBackup_inv env clock.first b fs fs1 hwf hiso hcb
    have hrc : readConfig env J fs1 = doc :=
      readConfig_of_parse env J fs1 content doc (by rw [hfs1]; exact hcfg) hdoc
    simp only [hrc] at hresp ⊢
    cases hst : req.steps clock doc b with
    | error e =>
      rw [hst] at hresp
      exact absurd hresp (e500 _)
    | ok dec =>
      cases dec with
      | reject r' =>
        rw [hst] at hresp
        simp only [commit, Option.some.injEq] at hresp
        subst hresp
        exact absurd h200 (steps_reject_status clock req doc b _ hst)
      | save d r' f =>
        obtain ⟨exps0, exps', h0, h1, himp⟩ := steps_unique clock req doc d b r' f hps hst
        rw [hexps] at h0
        cases h0
        refine ⟨d, exps', ?_, h1, himp huniq⟩
        rw [commit_save_ok env J _ fs1 d r' f (by rw [hfs1]; exact hw)]

set_option maxRecDepth 100000 in
/-- Witness of C22: add-client of `10.0.0.2` to the export `/srv/nfs` of the
example document. -/
theorem path_uniqueness_preserved_witness :
    ∃ d exps', (handle defaultEnv twoDocJson exampleClock
        (.addClient "/srv/nfs" (.str "10.0.0.2") (.str "ro")) exampleFS).fs.config =
        some (twoDocJson.stringify d) ∧
      d.field "exports" = .arr exps' ∧ UniquePaths exps' :=
  path_uniqueness_preserved defaultEnv twoDocJson exampleClock
    (.addClient "/srv/nfs" (.str "10.0.0.2") (.str "ro")) exampleFS exampleText
    (.obj exampleKvs) exampleExports
    ⟨200, .obj [("message", .str "IP address added successfully"),
      ("export", .obj [("path", .str "/srv/nfs"),
        ("clients", .arr [.obj [("ip", .str "10.0.0.1"), ("permission", .str "rw")],
          .obj [("ip", .str "10.0.0.2"), ("permission", .str "ro")]])]),
      ("backup", .str "/var/backups/nfs-web-ui/exports-2024-05-01T10-00-00-000Z.bak")]⟩
    (by simp [FS.WellFormed, readdir, exampleFS]) (by decide) rfl (fun _ h => by cases h) rfl
    (by rfl) rfl (by simp [UniquePaths, exampleExports]) (by rfl) rfl

/-! ## C23: the file names restore and delete-backup accept -/

set_option maxRecDepth 1000000 in
/-- C23 (the code fails the claim): the file name `../old.bak` is not of the form
`exports-<timestamp>.bak` and has a `..` component; joined to the backup
directory it denotes `/var/backups/old.bak`, outside that directory.
delete-backup accepts it and deletes that file, and restore accepts it, reads
that file and overwrites the configuration file with its content: both handlers
test the file name with `endsWith('.bak')` only. -/
theorem backup_filename_escapes_directory :
    isBackupName "../old.bak" = false ∧
    pathJoin defaultEnv.BACKUP_DIR "../old.bak" = "/var/backups/old.bak" ∧
    outsideFS.backups = [] ∧
    outsideFS.other "/var/backups/old.bak" = some emptyExportsText ∧
    (deleteBackup defaultEnv "../old.bak" outsideFS).response =
      some ⟨200, .obj [("message", .str "Backup deleted successfully")]⟩ ∧
    (deleteBackup defaultEnv "../old.bak" outsideFS).fs.other "/var/backups/old.bak" = none ∧
    (restoreBackup defaultEnv twoDocJson exampleClock "../old.bak" outsideFS).response =
      some (restoredResponse "../old.bak"
        "/var/backups/nfs-web-ui/exports-2024-05-01T10-00-00-000Z.bak") ∧
    outsideFS.config = some exampleText ∧
    (restoreBackup defaultEnv twoDocJson exampleClock "../old.bak" outsideFS).fs.config =
      some emptyExportsText :=
  ⟨by rfl, by rfl, by rfl, by rfl, by rfl, by rfl, by rfl, by rfl, by rfl⟩

/-! ## C24: success is reported after the write -/

set_option maxRecDepth 1000000 in
/-- C24 (the code fails the claim): the configuration file cannot be written.
remove-client of the client `10.0.0.1` of `/srv/nfs` answers 200, the response
being sent before `fs.writeFile` is called, and the configuration file is
unchanged; delete-export of `/srv/nfs` on the same file system, like the three
other handlers, writes first and answers 500. -/
theorem remove_client_answers_before_write :
    writeFile defaultEnv readOnlyConfigFS defaultEnv.CONFIG_FILE "x" =
      .error (.ioError "EACCES") ∧
    (handle defaultEnv twoDocJson exampleClock
        (.removeClient (.str "/srv/nfs") (.str "10.0.0.1")) readOnlyConfigFS).response =
      some ⟨200, .obj [("message",
          .str "IP address removed and export deleted (no clients remaining)"),
        ("backup", .str "/var/backups/nfs-web-ui/exports-2024-05-01T10-00-00-000Z.bak")]⟩ ∧
    (handle defaultEnv twoDocJson exampleClock
        (.removeClient (.str "/srv/nfs") (.str "10.0.0.1")) readOnlyConfigFS).fs.config =
      some exampleText ∧
    (handle defaultEnv twoDocJson exampleClock (.deleteExport "/srv/nfs")
        readOnlyConfigFS).response = some (errorResponse 500 "Failed to delete export") ∧
    (handle defaultEnv twoDocJson exampleClock (.deleteExport "/srv/nfs")
        readOnlyConfigFS).fs.config = some exampleText :=
  ⟨by rfl, by rfl, by rfl, by rfl, by rfl⟩

/-! ## C25: create without configuration file -/

set_option maxRecDepth 1000000 in
/-- C25 (the code fails the claim): the configuration file does not exist, the
path `/srv/data` is valid and present on the host and the client is valid.
create answers 500 and writes nothing: `createBackup`, called before the block
that falls back to the default document, throws on reading the missing file. -/
theorem create_without_config_file_fails :
    validatePath (.str "/srv/data") = true ∧
    clientsValid exampleClients = .ok true ∧
    access defaultEnv { exampleFS with config := none } "/srv/data" = .ok () ∧
    (createBackup defaultEnv exampleClock.first { exampleFS with config := none }).1 =
      .error (.ioError "ENOENT") ∧
    readConfig defaultEnv twoDocJson { exampleFS with config := none } = defaultConfig ∧
    (handle defaultEnv twoDocJson exampleClock
        (.create (.str "/srv/data") (.arr exampleClients))
        { exampleFS with config := none }).response =
      some (errorResponse 500 "Failed to create export") ∧
    (handle defaultEnv twoDocJson exampleClock
        (.create (.str "/srv/data") (.arr exampleClients))
        { exampleFS with config := none }).fs.config = none ∧
    (handle defaultEnv twoDocJson exampleClock
        (.create (.str "/srv/data") (.arr exampleClients))
        { exampleFS with config := none }).fs.backups = [] :=
  ⟨by rfl, by rfl, by rfl, by rfl, by rfl, by rfl, by rfl, by rfl⟩

/-! ## Time stamps: lemmas -/

theorem yearOfEra_le (doe : Nat) (h : doe < 146097) : yearOfEra doe ≤ 399 := by
  simp only [yearOfEra]
  omega

theorem dayOfYear_le (doe : Nat) : dayOfYear doe ≤ 365 := by
  simp only [dayOfYear]
  omega

theorem era_lex (a b : Nat) (h : a < b) (hb : b < 146097) :
    yearOfEra a < yearOfEra b ∨ (yearOfEra a = yearOfEra b ∧ dayOfYear a < dayOfYear b) := by
  simp only [yearOfEra, dayOfYear]
  omega

theorem era_end (a : Nat) (h : 146037 ≤ a) (ha : a < 146097) :
    yearOfEra a = 399 ∧ 306 ≤ dayOfYear a := by
  simp only [yearOfEra, dayOfYear]
  omega

theorem month_lex (a b : Nat) (h : a < b) (hb : b ≤ 365) :
    (civilMonth a ≤ 2 ↔ 306 ≤ a) ∧ (civilMonth b ≤ 2 ↔ 306 ≤ b) ∧
    ((306 ≤ a ↔ 306 ≤ b) →
      civilMonth a < civilMonth b ∨ (civilMonth a = civilMonth b ∧ civilDay a < civilDay b)) := by
  simp only [civilMonth, civilDay, monthIndex]
  refine ⟨?_, ?_, ?_⟩
  · split <;> omega
  · split <;> omega
  · intro hside
    split <;> split <;> omega

theorem civil_lex (z1 z2 : Nat) (h0 : 146037 ≤ z1) (h : z1 < z2) :
    civilYear z1 < civilYear z2 ∨
      (civilYear z1 = civilYear z2 ∧
        (civilMonth (dayOfYear (z1 % 146097)) < civilMonth (dayOfYear (z2 % 146097)) ∨
          (civilMonth (dayOfYear (z1 % 146097)) = civilMonth (dayOfYear (z2 % 146097)) ∧
            civilDay (dayOfYear (z1 % 146097)) < civilDay (dayOfYear (z2 % 146097))))) := by
  have hy1 := yearOfEra_le (z1 % 146097) (Nat.mod_lt _ (by decide))
  have hy2 := yearOfEra_le (z2 % 146097) (Nat.mod_lt _ (by decide))
  have hd1 := dayOfYear_le (z1 % 146097)
  have hd2 := dayOfYear_le (z2 % 146097)
  have hm1 : civilMonth (dayOfYear (z1 % 146097)) ≤ 2 ↔ 306 ≤ dayOfYear (z1 % 146097) := by
    simp only [civilMonth, monthIndex]
    split <;> omega
  have hm2 : civilMonth (dayOfYear (z2 % 146097)) ≤ 2 ↔ 306 ≤ dayOfYear (z2 % 146097) := by
    simp only [civilMonth, monthIndex]
    split <;> omega
  have hm1' : 1 ≤ civilMonth (dayOfYear (z1 % 146097)) := by
    simp only [civilMonth, monthIndex]
    split <;> omega
  have hm2' : 1 ≤ civilMonth (dayOfYear (z2 % 146097)) := by
    simp only [civilMonth, monthIndex]
    split <;> omega
  have hbase1 : z1 / 146097 = 0 →
      yearOfEra (z1 % 146097) = 399 ∧ 306 ≤ dayOfYear (z1 % 146097) := by
    intro he
    exact era_end _ (by omega) (Nat.mod_lt _ (by decide))
  have hbase2 : z2 / 146097 = 0 →
      yearOfEra (z2 % 146097) = 399 ∧ 306 ≤ dayOfYear (z2 % 146097) := by
    intro he
    exact era_end _ (by omega) (Nat.mod_lt _ (by decide))
  have hera : z1 / 146097 < z2 / 146097 ∨
      (z1 / 146097 = z2 / 146097 ∧ z1 % 146097 < z2 % 146097) := by omega
  have hlex : z1 / 146097 = z2 / 146097 →
      yearOfEra (z1 % 146097) < yearOfEra (z2 % 146097) ∨
        (yearOfEra (z1 % 146097) = yearOfEra (z2 % 146097) ∧
          dayOfYear (z1 % 146097) < dayOfYear (z2 % 146097)) := by
    intro he
    exact era_lex _ _ (by omega) (Nat.mod_lt _ (by decide))
  have hmd : dayOfYear (z1 % 146097) < dayOfYear (z2 % 146097) →
      (306 ≤ dayOfYear (z1 % 146097) ↔ 306 ≤ dayOfYear (z2 % 146097)) →
      civilMonth (dayOfYear (z1 % 146097)) < civilMonth (dayOfYear (z2 % 146097)) ∨
        (civilMonth (dayOfYear (z1 % 146097)) = civilMonth (dayOfYear (z2 % 146097)) ∧
          civilDay (dayOfYear (z1 % 146097)) < civilDay (dayOfYear (z2 % 146097))) := by
    intro hlt hside
    exact (month_lex _ _ hlt hd2).2.2 hside
  simp only [civilYear]
  generalize yearOfEra (z1 % 146097) = y1 at *
  generalize yearOfEra (z2 % 146097) = y2 at *
  generalize dayOfYear (z1 % 146097) = d1 at *
  generalize dayOfYear (z2 % 146097) = d2 at *
  generalize civilMonth d1 = m1 at *
  generalize civilMonth d2 = m2 at *
  generalize civilDay d1 = c1 at *
  generalize civilDay d2 = c2 at *
  generalize z1 / 146097 = e1 at *
  generalize z2 / 146097 = e2 at *
  split <;> split <;> omega

theorem era_before_end (a : Nat) (h : a < 146037) :
    yearOfEra a < 399 ∨ dayOfYear a < 306 := by
  simp only [yearOfEra, dayOfYear]
  omega

theorem civilMonth_range (d : Nat) (h : d ≤ 365) :
    1 ≤ civilMonth d ∧ civilMonth d ≤ 12 ∧ (civilMonth d ≤ 2 ↔ 306 ≤ d) := by
  simp only [civilMonth, monthIndex]
  split <;> omega

theorem civilDay_range (d : Nat) : 1 ≤ civilDay d ∧ civilDay d ≤ 31 := by
  simp only [civilDay, monthIndex]
  omega

theorem civilYear_lt (z : Nat) (h : z < 3798462) : civilYear z < 10000 := by
  have hy := yearOfEra_le (z % 146097) (Nat.mod_lt _ (by decide))
  have hm := (civilMonth_range _ (dayOfYear_le (z % 146097))).2.2
  have hend : 25 ≤ z / 146097 →
      yearOfEra (z % 146097) < 399 ∨ dayOfYear (z % 146097) < 306 := by
    intro he
    exact era_before_end _ (by omega)
  simp only [civilYear]
  generalize yearOfEra (z % 146097) = y at *
  generalize dayOfYear (z % 146097) = d at *
  generalize civilMonth d = m at *
  generalize hz : z / 146097 = e at *
  have he : e ≤ 25 := by omega
  split <;> omega

theorem time_lex (a b : Nat) (h : a < b) :
    a / 3600000 < b / 3600000 ∨ (a / 3600000 = b / 3600000 ∧
      (a % 3600000 / 60000 < b % 3600000 / 60000 ∨
        (a % 3600000 / 60000 = b % 3600000 / 60000 ∧
          (a % 60000 / 1000 < b % 60000 / 1000 ∨
            (a % 60000 / 1000 = b % 60000 / 1000 ∧ a % 1000 < b % 1000))))) := by
  omega

theorem utf16_stamp_digit (k : Nat) :
    utf16 (if digitChar (k % 10) = ':' ∨ digitChar (k % 10) = '.' then '-'
      else digitChar (k % 10)) = [48 + k % 10] := by
  have hk : k % 10 < 10 := Nat.mod_lt _ (by decide)
  generalize k % 10 = d at hk ⊢
  interval_cases d <;> rfl

theorem unitsLT_of_head_lt (x y : Nat) (a b : List Nat) (h : x < y) :
    unitsLT (x :: a) (y :: b) := by
  constructor
  · simp [unitsLE, h]
  · have h1 : ¬ y < x := by omega
    have h2 : y ≠ x := by omega
    simp [unitsLE, h1, h2]

theorem unitsLT_cons (x : Nat) (a b : List Nat) (h : unitsLT a b) :
    unitsLT (x :: a) (x :: b) := by
  constructor
  · simp [unitsLE, h.1]
  · simp [unitsLE, h.2]

theorem unitsLT_append_left (p a b : List Nat) (h : unitsLT a b) :
    unitsLT (p ++ a) (p ++ b) := by
  induction p with
  | nil => exact h
  | cons x p ih => exact unitsLT_cons x _ _ ih

theorem pad2u_lt (a b : Nat) (x y : List Nat) (h : a < b) (hb : b < 100) :
    unitsLT (pad2u a ++ x) (pad2u b ++ y) := by
  have hd : a / 10 % 10 < b / 10 % 10 ∨ (a / 10 % 10 = b / 10 % 10 ∧ a % 10 < b % 10) := by
    omega
  simp only [pad2u, List.cons_append, List.nil_append]
  rcases hd with h1 | ⟨h1, h2⟩
  · exact unitsLT_of_head_lt _ _ _ _ (by omega)
  · rw [h1]
    exact unitsLT_cons _ _ _ (unitsLT_of_head_lt _ _ _ _ (by omega))

theorem pad3u_lt (a b : Nat) (x y : List Nat) (h : a < b) (hb : b < 1000) :
    unitsLT (pad3u a ++ x) (pad3u b ++ y) := by
  have hd : a / 100 % 10 < b / 100 % 10 ∨ (a / 100 % 10 = b / 100 % 10 ∧
      (a / 10 % 10 < b / 10 % 10 ∨ (a / 10 % 10 = b / 10 % 10 ∧ a % 10 < b % 10))) := by
    omega
  simp only [pad3u, List.cons_append, List.nil_append]
  rcases hd with h1 | ⟨h1, h2 | ⟨h2, h3⟩⟩
  · exact unitsLT_of_head_lt _ _ _ _ (by omega)
  · rw [h1]
    exact unitsLT_cons _ _ _ (unitsLT_of_head_lt _ _ _ _ (by omega))
  · rw [h1, h2]
    exact unitsLT_cons _ _ _ (unitsLT_cons _ _ _ (unitsLT_of_head_lt _ _ _ _ (by omega)))

theorem pad4u_split (a : Nat) : pad4u a = pad2u (a / 100) ++ pad2u (a % 100) := by
  have h3 : a / 1000 % 10 = a / 100 / 10 % 10 := by
    rw [Nat.div_div_eq_div_mul]
  have h1 : a / 10 % 10 = a % 100 / 10 % 10 := by omega
  have h0 : a % 10 = a % 100 % 10 := by omega
  simp only [pad4u, pad2u, List.cons_append, List.nil_append]
  rw [h3, h1, h0]

theorem pad4u_lt (a b : Nat) (x y : List Nat) (h : a < b) (hb : b < 10000) :
    unitsLT (pad4u a ++ x) (pad4u b ++ y) := by
  have hd : a / 100 < b / 100 ∨ (a / 100 = b / 100 ∧ a % 100 < b % 100) := by omega
  rw [pad4u_split, pad4u_split, List.append_assoc, List.append_assoc]
  rcases hd with h1 | ⟨h1, h2⟩
  · exact pad2u_lt _ _ _ _ h1 (by omega)
  · rw [h1]
    exact unitsLT_append_left _ _ _ (pad2u_lt _ _ _ _ h2 (by omega))

theorem pad2u_step (a b : Nat) (x y : List Nat) (hb : b < 100)
    (h : a < b ∨ (a = b ∧ unitsLT x y)) : unitsLT (pad2u a ++ x) (pad2u b ++ y) := by
  rcases h with h | ⟨h, hxy⟩
  · exact pad2u_lt a b x y h hb
  · rw [h]
    exact unitsLT_append_left _ _ _ hxy

theorem pad4u_step (a b : Nat) (x y : List Nat) (hb : b < 10000)
    (h : a < b ∨ (a = b ∧ unitsLT x y)) : unitsLT (pad4u a ++ x) (pad4u b ++ y) := by
  rcases h with h | ⟨h, hxy⟩
  · exact pad4u_lt a b x y h hb
  · rw [h]
    exact unitsLT_append_left _ _ _ hxy

theorem timeUnits_lt (a b : Nat) (x y : List Nat) (h : a < b) (hb : b < 86400000) :
    unitsLT (timeUnits a ++ x) (timeUnits b ++ y) := by
  have hlex := time_lex a b h
  have h1 : b / 3600000 < 100 := by omega
  have h2 : b % 3600000 / 60000 < 100 := by omega
  have h3 : b % 60000 / 1000 < 100 := by omega
  have h4 : b % 1000 < 1000 := by omega
  simp only [timeUnits, List.append_assoc, List.cons_append]
  refine pad2u_step _ _ _ _ h1 (hlex.imp id (fun hh => ⟨hh.1, unitsLT_cons _ _ _ ?_⟩))
  refine pad2u_step _ _ _ _ h2 (hh.2.imp id (fun hm => ⟨hm.1, unitsLT_cons _ _ _ ?_⟩))
  refine pad2u_step _ _ _ _ h3 (hm.2.imp id (fun hs => ⟨hs.1, unitsLT_cons _ _ _ ?_⟩))
  exact pad3u_lt _ _ _ _ hs.2 h4

theorem dateUnits_lt (z1 z2 : Nat) (x y : List Nat) (h0 : 146037 ≤ z1) (h : z1 < z2)
    (h9 : z2 < 3798462) : unitsLT (dateUnits z1 ++ x) (dateUnits z2 ++ y) := by
  have hlex := civil_lex z1 z2 h0 h
  have h1 := civilYear_lt z2 h9
  have h2 := (civilMonth_range _ (dayOfYear_le (z2 % 146097))).2.1
  have h3 := (civilDay_range (dayOfYear (z2 % 146097))).2
  simp only [dateUnits, List.append_assoc, List.cons_append]
  refine pad4u_step _ _ _ _ h1 (hlex.imp id (fun hy => ⟨hy.1, unitsLT_cons _ _ _ ?_⟩))
  refine pad2u_step _ _ _ _ (by omega) (hy.2.imp id (fun hm => ⟨hm.1, unitsLT_cons _ _ _ ?_⟩))
  exact pad2u_lt _ _ _ _ hm.2 (by omega)

theorem stampUnits_lt (n1 n2 : Nat) (x y : List Nat) (h : n1 < n2)
    (h9 : n2 < 315569520000000) :
    unitsLT (dateUnits (n1 / 86400000 + 146037) ++ (timeUnits (n1 % 86400000) ++ x))
      (dateUnits (n2 / 86400000 + 146037) ++ (timeUnits (n2 % 86400000) ++ y)) := by
  have hd : n1 / 86400000 < n2 / 86400000 ∨
      (n1 / 86400000 = n2 / 86400000 ∧ n1 % 86400000 < n2 % 86400000) := by omega
  rcases hd with hd | ⟨hd, hm⟩
  · exact dateUnits_lt _ _ _ _ (by omega) (by omega) (by omega)
  · rw [hd]
    exact unitsLT_append_left _ _ _ (timeUnits_lt _ _ _ _ hm (by omega))

theorem codeUnits_backupName_toISOString (t : Int) :
    codeUnits (backupName (toISOString t)) =
      [101, 120, 112, 111, 114, 116, 115, 45] ++
        (dateUnits ((t + 62167219200000).toNat / 86400000 + 146037) ++
          (timeUnits ((t + 62167219200000).toNat % 86400000) ++ [46, 98, 97, 107])) := by
  simp only [codeUnits, backupName_data, toISOString, pad4, pad3, pad2, dateUnits, timeUnits,
    pad4u, pad3u, pad2u, List.cons_append, List.nil_append, List.map_cons, List.map_append,
    List.map_nil, List.flatMap_cons, List.flatMap_append, List.flatMap_nil,
    utf16_stamp_digit, List.append_assoc]
  rfl

theorem nameLT_of_unitsLT (a b : String) (h : unitsLT (codeUnits a) (codeUnits b)) :
    nameLT a b := by
  refine ⟨h.1, ?_⟩
  simp only [nameLE, h.2]
  exact Bool.false_ne_true

/-- Values of the time-stamp model at the epoch, around a leap day, at a
century year that is no leap year, at the two ends of its range, and at the
first reading of the example clock. -/
theorem toISOString_values :
    toISOString 0 = "1970-01-01T00:00:00.000Z" ∧
      toISOString (-1) = "1969-12-31T23:59:59.999Z" ∧
      toISOString 951782400000 = "2000-02-29T00:00:00.000Z" ∧
      toISOString 1709251199999 = "2024-02-29T23:59:59.999Z" ∧
      toISOString 1709251200000 = "2024-03-01T00:00:00.000Z" ∧
      toISOString 4107456000000 = "2100-02-28T00:00:00.000Z" ∧
      toISOString 4107542400000 = "2100-03-01T00:00:00.000Z" ∧
      toISOString (-62167219200000) = "0000-01-01T00:00:00.000Z" ∧
      toISOString 253402300799999 = "9999-12-31T23:59:59.999Z" ∧
      toISOString 1714557600000 = exampleClock.first := by
  decide

/-- Claim C26.  For two instants `t1 < t2` in the years 0000 to 9999, given as
time values in milliseconds, the snapshot name that `createBackup` derives from
`t1` is strictly smaller in the order of `sort()` than the name derived from
`t2`, and both names pass the filter `startsWith('exports-')` and
`endsWith('.bak')` of the pruning and listing code. -/
theorem snapshot_names_sort_chronologically (t1 t2 : Int) (h0 : -62167219200000 ≤ t1)
    (h12 : t1 < t2) (h9 : t2 ≤ 253402300799999) :
    nameLT (backupName (toISOString t1)) (backupName (toISOString t2)) ∧
      isBackupName (backupName (toISOString t1)) = true ∧
      isBackupName (backupName (toISOString t2)) = true := by
  refine ⟨nameLT_of_unitsLT _ _ ?_, isBackupName_backupName _, isBackupName_backupName _⟩
  rw [codeUnits_backupName_toISOString, codeUnits_backupName_toISOString]
  exact unitsLT_append_left _ _ _ (stampUnits_lt _ _ _ _ (by omega) (by omega))

theorem snapshot_names_sort_chronologically_witness :
    backupName (toISOString 1709251199999) = "exports-2024-02-29T23-59-59-999Z.bak" ∧
      backupName (toISOString 1709251200000) = "exports-2024-03-01T00-00-00-000Z.bak" ∧
      nameLT (backupName (toISOString 1709251199999))
        (backupName (toISOString 1709251200000)) ∧
      isBackupName (backupName (toISOString 1709251199999)) = true ∧
      isBackupName (backupName (toISOString 1709251200000)) = true :=
  ⟨by decide, by decide,
    snapshot_names_sort_chronologically 1709251199999 1709251200000 (by decide) (by decide)
      (by decide)⟩

end NfsWebUi
